import Mathlib

/-!
# MarlinKinfit: `JetFitObject`

A shallow embedding of `src/src/JetFitObject.cc`.

* `double` is an ordered field `α`; the definitions are generic in `α`, so they
  evaluate over `ℚ`, and the theorems read them over `ℝ`.  Every value of the
  model is finite, so the `isinf` / `isnan` assertions of the source always pass.
* A C array is a map from `int` indices; a failed `assert` is `none`.
* The `mutable` cache members written by the `const` accessors are part of the
  object state: an accessor that may recompute the cache returns its value, and
  the state it leaves behind is `ensureCache`.
* A `while` loop runs on fuel: `none` means the fuel ran out before the loop
  condition became false.
-/

namespace Kinfit

/-- What `JetFitObject.cc` takes from outside the file: the `<cmath>` functions it calls,
the constant `M_PI`, the base-class constant `eps2`, and the matrix inversion used by
`calculateCovInv` (the result is `none` for a covariance that cannot be inverted). -/
structure Env (α : Type) where
  sqrt : α → α
  sin : α → α
  cos : α → α
  M_PI : α
  eps2 : α
  covInverse : (Int → Int → α) → Option (Int → Int → α)

/-- The data members of a `JetFitObject`: parameters, measured values, flags, covariance,
global parameter numbers, mass, and the `mutable` cache. -/
structure JetFitObject (α : Type) where
  par : Int → α
  mpar : Int → α
  measured : Int → Bool
  fixed : Int → Bool
  cov : Int → Int → α
  covinv : Int → Int → α
  covinvvalid : Bool
  globalParNum : Int → Int
  mass : α
  cachevalid : Bool
  chi2 : α
  ctheta : α
  stheta : α
  cphi : α
  sphi : α
  p2 : α
  p : α
  dpdE : α
  pt : α
  px : α
  py : α
  pz : α
  dptdE : α
  dpxdE : α
  dpydE : α
  dpzdE : α
  dpxdtheta : α
  dpydtheta : α

/-- The statement `a[i] += v` on a C array. -/
def addAt {α : Type} [Add α] (a : Int → α) (i : Int) (v : α) : Int → α :=
  Function.update a i (a i + v)

/-- The loop `while (c x) x = f x;` for at most `fuel` iterations. -/
def whileLoop {α : Type} (c : α → Bool) (f : α → α) : Nat → α → Option α
  | 0, x => if c x then none else some x
  | n + 1, x => if c x then whileLoop c f n (f x) else some x

namespace JetFitObject

variable {α : Type} [LinearOrderedField α]

/-- Modelled from the spec: the enum `NPAR` of the missing `JetFitObject.h`, the number of
parameters of this variant, fixed at 3. -/
def NPAR : Int := 3

/-- Source lines 396-398. -/
def invalidateCache (s : JetFitObject α) : JetFitObject α :=
  { s with cachevalid := false }

/-- Source lines 388-394. -/
def initCov (s : JetFitObject α) : JetFitObject α :=
  { s with cov := fun i j =>
      if 0 ≤ i ∧ i < NPAR ∧ 0 ≤ j ∧ j < NPAR then (if i = j then 1 else 0) else s.cov i j }

/-- Modelled from the spec: `isParamMeasured` of the missing base class reads the
per-parameter `measured` flag. -/
def isParamMeasured (s : JetFitObject α) (i : Int) : Bool := s.measured i

/-- Modelled from the spec: `isParamFixed` of the missing base class reads the
per-parameter `fixed` flag. -/
def isParamFixed (s : JetFitObject α) (i : Int) : Bool := s.fixed i

/-- Modelled from the spec: `getGlobalParNum` of the missing base class reads the mapping
from a local parameter index to its position in the global parameter vector. -/
def getGlobalParNum (s : JetFitObject α) (i : Int) : Int := s.globalParNum i

/-- Modelled from the spec: `setMass` of the missing base class records the fixed rest
mass. -/
def setMass (m : α) (s : JetFitObject α) : JetFitObject α :=
  invalidateCache { s with mass := m }

/-- Modelled from the spec: `setMParam` of the missing base class records a measured
reference value. -/
def setMParam (i : Int) (v : α) (s : JetFitObject α) : JetFitObject α :=
  invalidateCache { s with mpar := Function.update s.mpar i v }

/-- Modelled from the spec: `setError` of the missing base class puts the square of a
one-sigma error on the diagonal of the covariance, which makes the cached inverse stale. -/
def setError (i : Int) (err : α) (s : JetFitObject α) : JetFitObject α :=
  invalidateCache
    { s with cov := Function.update s.cov i (Function.update (s.cov i) i (err * err)),
             covinvvalid := false }

/-- Modelled from the spec: `calculateCovInv` of the missing base class caches the inverse
of `cov` and flags it valid, or leaves the flag false when `cov` cannot be inverted. -/
def calculateCovInv (env : Env α) (s : JetFitObject α) : JetFitObject α :=
  match env.covInverse s.cov with
  | some ci => { s with covinv := ci, covinvvalid := true }
  | none => { s with covinvvalid := false }

/-- Source lines 113-121, `setParam (int, double, bool, bool)`. -/
def setParamFlags (ilocal : Int) (par_ : α) (measured_ fixed_ : Bool) (s : JetFitObject α) :
    Option (Bool × JetFitObject α) :=
  if 0 ≤ ilocal ∧ ilocal < 3 then
    let s := if s.measured ilocal ≠ measured_ ∨ s.fixed ilocal ≠ fixed_
      then invalidateCache s else s
    let s := { s with measured := Function.update s.measured ilocal measured_ }
    let s := { s with fixed := Function.update s.fixed ilocal fixed_ }
    let s := { s with par := Function.update s.par ilocal par_ }
    some (true, s)
  else none

/-- Source lines 123-144, `setParam (int, double)`. -/
def setParam (env : Env α) (i : Int) (par_ : α) (s : JetFitObject α) :
    Bool × JetFitObject α :=
  let s := invalidateCache s
  let result : Bool := decide ((par_ - s.par i) * (par_ - s.par i) > env.eps2 * s.cov i i)
  if i = 0 then
    (result, { s with par := Function.update s.par 0 (if par_ ≥ s.mass then par_ else s.mass) })
  else if i = 1 then
    (result, { s with par := Function.update s.par 1 par_ })
  else if i = 2 then
    (result, { s with par := Function.update s.par 2 par_ })
  else
    (result, s)

/-- Source lines 146-190. -/
def updateParams (env : Env α) (p : Int → α) (idim : Int) (s : JetFitObject α) :
    Option (Bool × (Int → α) × JetFitObject α) :=
  let s := invalidateCache s
  let iE := getGlobalParNum s 0
  let ith := getGlobalParNum s 1
  let iph := getGlobalParNum s 2
  if (0 ≤ iE ∧ iE < idim) ∧ (0 ≤ ith ∧ ith < idim) ∧ (0 ≤ iph ∧ iph < idim) then
    let e := p iE
    let th := p ith
    let ph := p iph
    let mirrored : Bool := decide (e < 0)
    let e := if mirrored then -e else e
    let th := if mirrored then env.M_PI - th else th
    let ph := if mirrored then env.M_PI + ph else ph
    let massPlusEpsilon := s.mass * 1.0000001
    let e := if e < massPlusEpsilon then massPlusEpsilon else e
    let result : Bool :=
      decide ((e - s.par 0) * (e - s.par 0) > env.eps2 * s.cov 0 0) ||
      decide ((th - s.par 1) * (th - s.par 1) > env.eps2 * s.cov 1 1) ||
      decide ((ph - s.par 2) * (ph - s.par 2) > env.eps2 * s.cov 2 2)
    let s := { s with par := Function.update s.par 0 e }
    let s := { s with par := Function.update s.par 1 th }
    let s := { s with par := Function.update s.par 2 ph }
    let p := Function.update p iE (s.par 0)
    let p := Function.update p ith (s.par 1)
    let p := Function.update p iph (s.par 2)
    some (result, p, s)
  else none

/-- Source lines 547-551: the residuals that `calcChi2` puts into the quadratic form. -/
def resid (env : Env α) (s : JetFitObject α) : Int → α :=
  let r0 := if isParamMeasured s 0 && !isParamFixed s 0 then s.par 0 - s.mpar 0 else 0
  let r1 := if isParamMeasured s 1 && !isParamFixed s 1 then s.par 1 - s.mpar 1 else 0
  let r2 := if isParamMeasured s 2 && !isParamFixed s 2 then s.par 2 - s.mpar 2 else 0
  let r2 := if r2 > env.M_PI then r2 - 2 * env.M_PI
    else if r2 < -env.M_PI then r2 + 2 * env.M_PI else r2
  fun i => if i = 0 then r0 else if i = 1 then r1 else r2

/-- Source lines 540-561.  The value comes with the state, because `calculateCovInv` may
have filled the cached inverse. -/
def calcChi2 (env : Env α) (s : JetFitObject α) : α × JetFitObject α :=
  let s := if !s.covinvvalid then calculateCovInv env s else s
  if !s.covinvvalid then (-1, s)
  else
    let r := resid env s
    (r 0 * s.covinv 0 0 * r 0
      + 2 * r 0 * s.covinv 0 1 * r 1
      + 2 * r 0 * s.covinv 0 2 * r 2
      + r 1 * s.covinv 1 1 * r 1
      + 2 * r 1 * s.covinv 1 2 * r 2
      + r 2 * s.covinv 2 2 * r 2, s)

/-- Source lines 440-458: the part of `updateCache` after the momentum magnitude is
known. -/
def fillCache (s : JetFitObject α) (chi2 ctheta stheta cphi sphi p2 p dpdE : α) :
    JetFitObject α :=
  let pt := p * stheta
  let px := pt * cphi
  let py := pt * sphi
  let pz := p * ctheta
  let dptdE := dpdE * stheta
  { s with
    chi2 := chi2, ctheta := ctheta, stheta := stheta, cphi := cphi, sphi := sphi,
    p2 := p2, p := p, dpdE := dpdE, pt := pt, px := px, py := py, pz := pz,
    dptdE := dptdE, dpxdE := dptdE * cphi, dpydE := dptdE * sphi, dpzdE := dpdE * ctheta,
    dpxdtheta := pz * cphi, dpydtheta := pz * sphi, cachevalid := true }

/-- Source lines 416-459.  The result is `none` when `assert (p != 0)` fails. -/
def updateCache (env : Env α) (s : JetFitObject α) : Option (JetFitObject α) :=
  let chi2 := (calcChi2 env s).1
  let s := (calcChi2 env s).2
  let e := s.par 0
  let theta := s.par 1
  let phi := s.par 2
  let ctheta := env.cos theta
  let stheta := env.sin theta
  let cphi := env.cos phi
  let sphi := env.sin phi
  if s.mass > 0 then
    let p2 := |e * e - s.mass * s.mass|
    let p := env.sqrt p2
    let dpdE := e / p
    if p ≠ 0 then some (fillCache s chi2 ctheta stheta cphi sphi p2 p dpdE) else none
  else
    some (fillCache s chi2 ctheta stheta cphi sphi (e * e) e 1)

/-- The statement `if (!cachevalid) updateCache();` that opens every cached accessor. -/
def ensureCache (env : Env α) (s : JetFitObject α) : Option (JetFitObject α) :=
  if !s.cachevalid then updateCache env s else some s

/-- Source lines 193-196. -/
def getPx (env : Env α) (s : JetFitObject α) : Option α := (ensureCache env s).map (·.px)

/-- Source lines 197-200. -/
def getPy (env : Env α) (s : JetFitObject α) : Option α := (ensureCache env s).map (·.py)

/-- Source lines 201-204. -/
def getPz (env : Env α) (s : JetFitObject α) : Option α := (ensureCache env s).map (·.pz)

/-- Source line 205. -/
def getE (s : JetFitObject α) : α := s.par 0

/-- Source lines 207-210. -/
def getP (env : Env α) (s : JetFitObject α) : Option α := (ensureCache env s).map (·.p)

/-- Source lines 211-214. -/
def getP2 (env : Env α) (s : JetFitObject α) : Option α := (ensureCache env s).map (·.p2)

/-- Source lines 215-218. -/
def getPt (env : Env α) (s : JetFitObject α) : Option α := (ensureCache env s).map (·.pt)

/-- Source lines 219-222. -/
def getPt2 (env : Env α) (s : JetFitObject α) : Option α :=
  (ensureCache env s).map (fun c => c.pt * c.pt)

/-- Source lines 224-233. -/
def getDPx (env : Env α) (ilocal : Int) (s : JetFitObject α) : Option α :=
  if 0 ≤ ilocal ∧ ilocal < NPAR then
    (ensureCache env s).map (fun c =>
      if ilocal = 0 then c.dpxdE else if ilocal = 1 then c.dpxdtheta
      else if ilocal = 2 then -c.py else 0)
  else none

/-- Source lines 235-244. -/
def getDPy (env : Env α) (ilocal : Int) (s : JetFitObject α) : Option α :=
  if 0 ≤ ilocal ∧ ilocal < NPAR then
    (ensureCache env s).map (fun c =>
      if ilocal = 0 then c.dpydE else if ilocal = 1 then c.dpydtheta
      else if ilocal = 2 then c.px else 0)
  else none

/-- Source lines 246-255. -/
def getDPz (env : Env α) (ilocal : Int) (s : JetFitObject α) : Option α :=
  if 0 ≤ ilocal ∧ ilocal < NPAR then
    (ensureCache env s).map (fun c =>
      if ilocal = 0 then c.dpzdE else if ilocal = 1 then -c.pt
      else if ilocal = 2 then 0 else 0)
  else none

/-- Source lines 257-265. -/
def getDE (ilocal : Int) (_s : JetFitObject α) : Option α :=
  if 0 ≤ ilocal ∧ ilocal < NPAR then
    some (if ilocal = 0 then 1 else if ilocal = 1 then 0 else if ilocal = 2 then 0 else 0)
  else none

/-- Source lines 494-497. -/
def getChi2 (env : Env α) (s : JetFitObject α) : Option α := (ensureCache env s).map (·.chi2)

/-- The local accumulators `der_E`, `der_theta`, `der_phi` of `addToDerivatives`. -/
structure Der1 (α : Type) where
  der_E : α
  der_theta : α
  der_phi : α

/-- The local accumulators `der_EE` ... `der_phph` of `addTo2ndDerivatives`. -/
structure Der2 (α : Type) where
  der_EE : α
  der_Eth : α
  der_Eph : α
  der_thth : α
  der_thph : α
  der_phph : α

/-- Source lines 280-297: the accumulation of `addToDerivatives` on a valid cache `c`. -/
def der1 (c : JetFitObject α) (efact pxfact pyfact pzfact : α) : Der1 α :=
  let d : Der1 α := ⟨efact, 0, 0⟩
  let d : Der1 α :=
    if pxfact ≠ 0 then
      ⟨d.der_E + pxfact * c.dpxdE, d.der_theta + pxfact * c.dpxdtheta,
        d.der_phi - pxfact * c.py⟩
    else d
  let d : Der1 α :=
    if pyfact ≠ 0 then
      ⟨d.der_E + pyfact * c.dpydE, d.der_theta + pyfact * c.dpydtheta,
        d.der_phi + pyfact * c.px⟩
    else d
  if pzfact ≠ 0 then
    ⟨d.der_E + pzfact * c.dpdE * c.ctheta, d.der_theta - pzfact * c.pt, d.der_phi⟩
  else d

/-- Source lines 267-302.  The result is the updated vector with the state left by the
cache check. -/
def addToDerivatives (env : Env α) (der : Int → α) (idim : Int)
    (efact pxfact pyfact pzfact : α) (s : JetFitObject α) :
    Option ((Int → α) × JetFitObject α) :=
  let i_E := s.globalParNum 0
  let i_theta := s.globalParNum 1
  let i_phi := s.globalParNum 2
  if (0 ≤ i_E ∧ i_E < idim) ∧ (0 ≤ i_theta ∧ i_theta < idim) ∧ (0 ≤ i_phi ∧ i_phi < idim) then
    (ensureCache env s).map (fun c =>
      let d := der1 c efact pxfact pyfact pzfact
      let der := addAt der i_E d.der_E
      let der := addAt der i_theta d.der_theta
      let der := addAt der i_phi d.der_phi
      (der, c))
  else none

/-- Source lines 317-347: the accumulation of `addTo2ndDerivatives` on a valid cache
`c`. -/
def der2nd (c : JetFitObject α) (pxfact pyfact pzfact : α) : Der2 α :=
  let d : Der2 α := ⟨0, 0, 0, 0, 0, 0⟩
  let d2pdE2 : α := if c.mass ≠ 0 then -c.mass * c.mass / (c.p * c.p * c.p) else 0
  let d2ptdE2 : α := d2pdE2 * c.stheta
  let d : Der2 α :=
    if pxfact ≠ 0 then
      ⟨d.der_EE + pxfact * d2ptdE2 * c.cphi, d.der_Eth + pxfact * c.dpzdE * c.cphi,
        d.der_Eph - pxfact * c.dpydE, d.der_thth - pxfact * c.px,
        d.der_thph - pxfact * c.dpydtheta, d.der_phph - pxfact * c.px⟩
    else d
  let d : Der2 α :=
    if pyfact ≠ 0 then
      ⟨d.der_EE + pyfact * d2ptdE2 * c.sphi, d.der_Eth + pyfact * c.dpzdE * c.sphi,
        d.der_Eph + pyfact * c.dpxdE, d.der_thth - pyfact * c.py,
        d.der_thph + pyfact * c.dpxdtheta, d.der_phph - pyfact * c.py⟩
    else d
  if pzfact ≠ 0 then
    ⟨d.der_EE + pzfact * d2pdE2 * c.ctheta, d.der_Eth - pzfact * c.dptdE, d.der_Eph,
      d.der_thth - pzfact * c.pz, d.der_thph, d.der_phph⟩
  else d

/-- Source lines 304-358, `addTo2ndDerivatives (double[], int, double, double, double,
double)`. -/
def addTo2ndDerivatives (env : Env α) (der2 : Int → α) (idim : Int)
    (_efact pxfact pyfact pzfact : α) (s : JetFitObject α) :
    Option ((Int → α) × JetFitObject α) :=
  let i_E := s.globalParNum 0
  let i_th := s.globalParNum 1
  let i_ph := s.globalParNum 2
  if (0 ≤ i_E ∧ i_E < idim) ∧ (0 ≤ i_th ∧ i_th < idim) ∧ (0 ≤ i_ph ∧ i_ph < idim) then
    (ensureCache env s).map (fun c =>
      let d := der2nd c pxfact pyfact pzfact
      let der2 := addAt der2 (idim * i_E + i_E) d.der_EE
      let der2 := addAt der2 (idim * i_E + i_th) d.der_Eth
      let der2 := addAt der2 (idim * i_E + i_ph) d.der_Eph
      let der2 := addAt der2 (idim * i_th + i_E) d.der_Eth
      let der2 := addAt der2 (idim * i_th + i_th) d.der_thth
      let der2 := addAt der2 (idim * i_th + i_ph) d.der_thph
      let der2 := addAt der2 (idim * i_ph + i_E) d.der_Eph
      let der2 := addAt der2 (idim * i_ph + i_th) d.der_thph
      let der2 := addAt der2 (idim * i_ph + i_ph) d.der_phph
      (der2, c))
  else none

/-- Source lines 360-362, `addTo2ndDerivatives (double[], int, double, double[])`. -/
def addTo2ndDerivativesLambda (env : Env α) (M : Int → α) (idim : Int) (lambda : α)
    (der : Int → α) (s : JetFitObject α) : Option ((Int → α) × JetFitObject α) :=
  addTo2ndDerivatives env M idim (lambda * der 0) (lambda * der 1) (lambda * der 2)
    (lambda * der 3) s

/-- Source lines 364-385. -/
def addTo1stDerivatives (env : Env α) (M : Int → α) (idim : Int) (der : Int → α)
    (kglobal : Int) (s : JetFitObject α) : Option ((Int → α) × JetFitObject α) :=
  if 0 ≤ kglobal ∧ kglobal < idim then
    let i_E := s.globalParNum 0
    let i_th := s.globalParNum 1
    let i_ph := s.globalParNum 2
    if (0 ≤ i_E ∧ i_E < idim) ∧ (0 ≤ i_th ∧ i_th < idim) ∧ (0 ≤ i_ph ∧ i_ph < idim) then
      (ensureCache env s).map (fun c =>
        let dE := der 0 + der 1 * c.dpxdE + der 2 * c.dpydE + der 3 * c.dpzdE
        let dth := der 1 * c.dpxdtheta + der 2 * c.dpydtheta - der 3 * c.pt
        let dph := -der 1 * c.py + der 2 * c.px
        let M := addAt M (idim * kglobal + i_E) dE
        let M := addAt M (idim * kglobal + i_th) dth
        let M := addAt M (idim * kglobal + i_ph) dph
        let M := addAt M (idim * i_E + kglobal) dE
        let M := addAt M (idim * i_th + kglobal) dth
        let M := addAt M (idim * i_ph + kglobal) dph
        (M, c))
    else none
  else none

/-- Source lines 400-414. -/
def addToGlobalChi2DerVector (env : Env α) (y : Int → α) (idim : Int) (lambda : α)
    (der : Int → α) (s : JetFitObject α) : Option ((Int → α) × JetFitObject α) :=
  let i_E := s.globalParNum 0
  let i_th := s.globalParNum 1
  let i_ph := s.globalParNum 2
  if (0 ≤ i_E ∧ i_E < idim) ∧ (0 ≤ i_th ∧ i_th < idim) ∧ (0 ≤ i_ph ∧ i_ph < idim) then
    (ensureCache env s).map (fun c =>
      let y := addAt y i_E
        (lambda * (der 0 + der 1 * c.dpxdE + der 2 * c.dpydE + der 3 * c.dpzdE))
      let y := addAt y i_th
        (lambda * (der 1 * c.dpxdtheta + der 2 * c.dpydtheta - der 3 * c.pt))
      let y := addAt y i_ph (lambda * (-der 1 * c.py + der 2 * c.px))
      (y, c))
  else none

/-- Source lines 463-487: the local array `cov4` of `getError2`, filled from the cache
and the covariance; `cov4[i][j] = cov4[j][i] = ...` assigns both entries. -/
def cov4 (c : JetFitObject α) (i j : Int) : α :=
  if i = 0 ∧ j = 0 then c.cov 0 0
  else if (i = 0 ∧ j = 1) ∨ (i = 1 ∧ j = 0) then
    c.dpxdE * c.cov 0 0 + 2 * c.dpxdtheta * c.cov 0 1 - 2 * c.py * c.cov 0 2
  else if (i = 0 ∧ j = 2) ∨ (i = 2 ∧ j = 0) then
    c.dpydE * c.cov 0 0 + 2 * c.dpydtheta * c.cov 0 1 + 2 * c.px * c.cov 0 2
  else if (i = 0 ∧ j = 3) ∨ (i = 3 ∧ j = 0) then
    c.dpzdE * c.cov 0 0 - 2 * c.pt * c.cov 0 1
  else if i = 1 ∧ j = 1 then
    c.dpxdE * (c.dpxdE * c.cov 0 0 + 2 * c.dpxdtheta * c.cov 0 1 - 2 * c.py * c.cov 0 2)
      + c.dpxdtheta * (c.dpxdtheta * c.cov 1 1 - 2 * c.py * c.cov 1 2)
      + c.py * c.py * c.cov 2 2
  else if (i = 1 ∧ j = 2) ∨ (i = 2 ∧ j = 1) then
    c.dpxdE * (c.dpydE * c.cov 0 0 + 2 * c.dpydtheta * c.cov 0 1 + 2 * c.px * c.cov 0 2)
      + c.dpxdtheta * (c.dpydtheta * c.cov 1 1 + 2 * c.px * c.cov 1 2)
      - c.py * c.px * c.cov 2 2
  else if (i = 1 ∧ j = 3) ∨ (i = 3 ∧ j = 1) then
    c.dpxdE * (c.dpzdE * c.cov 0 0 - 2 * c.pt * c.cov 0 1) - c.dpxdtheta * c.pt * c.cov 1 1
  else if i = 2 ∧ j = 2 then
    c.dpydE * (c.dpydE * c.cov 0 0 + 2 * c.dpydtheta * c.cov 0 1 + 2 * c.px * c.cov 0 2)
      + c.dpydtheta * (c.dpydtheta * c.cov 1 1 + 2 * c.px * c.cov 1 2)
      + c.px * c.px * c.cov 2 2
  else if (i = 2 ∧ j = 3) ∨ (i = 3 ∧ j = 2) then
    c.dpydE * (c.dpzdE * c.cov 0 0 - 2 * c.pt * c.cov 0 1) - c.dpydtheta * c.pt * c.cov 1 1
  else if i = 3 ∧ j = 3 then
    c.dpzdE * (c.dpzdE * c.cov 0 0 - 2 * c.pt * c.cov 0 1) + c.pt * c.pt * c.cov 1 1
  else 0

/-- Source lines 461-492. -/
def getError2 (env : Env α) (der : Int → α) (s : JetFitObject α) : Option α :=
  (ensureCache env s).map (fun c =>
    der 0 * (der 0 * cov4 c 0 0 + 2 * der 1 * cov4 c 0 1 + 2 * der 2 * cov4 c 0 2
        + 2 * der 3 * cov4 c 0 3)
      + der 1 * (der 1 * cov4 c 1 1 + 2 * der 2 * cov4 c 1 2 + 2 * der 3 * cov4 c 1 3)
      + der 2 * (der 2 * cov4 c 2 2 + 2 * der 3 * cov4 c 2 3)
      + der 3 * der 3 * cov4 c 3 3)

/-- The reference arguments of `adjustEThetaPhi` together with its local `result`. -/
structure Adjusted (α : Type) where
  result : Bool
  m : α
  E : α
  theta : α
  phi : α

/-- Source lines 513-517 and 531-535: an angle outside `[-M_PI, M_PI]` is shifted by
`2*M_PI` into it, and `result` is raised. -/
def wrapAngle (env : Env α) (fuel : Nat) (result : Bool) (x : α) : Option (Bool × α) :=
  if x < -env.M_PI ∨ x > env.M_PI then
    (whileLoop (fun t => decide (t < -env.M_PI)) (fun t => t + 2 * env.M_PI) fuel x).bind
      (fun x =>
        (whileLoop (fun t => decide (t > env.M_PI)) (fun t => t - 2 * env.M_PI) fuel x).map
          (fun x => (true, x)))
  else some (result, x)

/-- Source lines 499-538.  Each `while` loop may run `fuel` times. -/
def adjustEThetaPhi (env : Env α) (fuel : Nat) (m E theta phi : α) : Option (Adjusted α) :=
  let a : Adjusted α := ⟨false, m, E, theta, phi⟩
  let a : Adjusted α :=
    if a.E < 0 then ⟨true, a.m, -a.E, env.M_PI - a.theta, env.M_PI + a.phi⟩ else a
  let a : Adjusted α := if a.E < a.m then { a with E := a.m, result := true } else a
  (wrapAngle env fuel a.result a.theta).bind (fun rt =>
    let a : Adjusted α := { a with result := rt.1, theta := rt.2 }
    let a : Adjusted α :=
      if a.theta < 0 then
        { a with theta := -a.theta,
                 phi := if a.phi > 0 then a.phi - env.M_PI else a.phi + env.M_PI,
                 result := true }
      else if a.theta > env.M_PI then
        { a with theta := 2 * env.M_PI - a.theta,
                 phi := if a.phi > 0 then a.phi - env.M_PI else a.phi + env.M_PI,
                 result := true }
      else a
    (wrapAngle env fuel a.result a.phi).map (fun rp =>
      { a with result := rp.1, phi := rp.2 }))

/-- Source lines 71-98, the constructor, run on the object `s0` that the base-class
constructor leaves.  The call `setParam (i, x, true)` uses the default `fixed_ = false`
of the missing declaration. -/
def new (env : Env α) (fuel : Nat) (s0 : JetFitObject α)
    (E theta phi DE Dtheta Dphi m : α) : Option (JetFitObject α) :=
  let s := initCov s0
  let s := setMass m s
  (adjustEThetaPhi env fuel m E theta phi).bind (fun a =>
    (setParamFlags 0 a.E true false s).bind (fun r0 =>
      (setParamFlags 1 a.theta true false r0.2).bind (fun r1 =>
        (setParamFlags 2 a.phi true false r1.2).map (fun r2 =>
          let s := r2.2
          let s := setMParam 0 a.E s
          let s := setMParam 1 a.theta s
          let s := setMParam 2 a.phi s
          let s := setError 0 DE s
          let s := setError 1 Dtheta s
          let s := setError 2 Dphi s
          invalidateCache s))))

/-- A call of one of the two operations that change the parameters during a fit. -/
inductive Call (α : Type) where
  | setParam (i : Int) (value : α)
  | updateParams (p : Int → α) (idim : Int)

/-- The object left by one call, or `none` when an assertion of the call fails. -/
def Call.apply (env : Env α) : Call α → JetFitObject α → Option (JetFitObject α)
  | Call.setParam i value, s => some (JetFitObject.setParam env i value s).2
  | Call.updateParams p idim, s =>
    (JetFitObject.updateParams env p idim s).map (fun r => r.2.2)

/-- The objects left after each call of a sequence of calls, in order. -/
def trace (env : Env α) : List (Call α) → JetFitObject α → Option (List (JetFitObject α))
  | [], _ => some []
  | c :: cs, s => (c.apply env s).bind (fun s' => (trace env cs s').map (fun l => s' :: l))

/-- The object `s` with parameter `i` replaced by `x`, nothing else touched. -/
def withPar (s : JetFitObject α) (i : Int) (x : α) : JetFitObject α :=
  { s with par := Function.update s.par i x }

/-- An object whose every member is zero or false, with local parameter `i` at global
position `i`: concrete storage on which the operations can be run. -/
def blank : JetFitObject α :=
  { par := fun _ => 0, mpar := fun _ => 0, measured := fun _ => false, fixed := fun _ => false,
    cov := fun _ _ => 0, covinv := fun _ _ => 0, covinvvalid := false,
    globalParNum := fun i => i, mass := 0, cachevalid := false, chi2 := 0,
    ctheta := 0, stheta := 0, cphi := 0, sphi := 0, p2 := 0, p := 0, dpdE := 0, pt := 0,
    px := 0, py := 0, pz := 0, dptdE := 0, dpxdE := 0, dpydE := 0, dpzdE := 0,
    dpxdtheta := 0, dpydtheta := 0 }

/-- A massive object at `E = 5`, `theta = 1`, `phi = 2` with `mass = 3`, cache not yet
computed: a concrete input above the mass threshold. -/
def sample : JetFitObject α :=
  { (blank : JetFitObject α) with
    par := fun i => if i = 0 then 5 else if i = 1 then 1 else 2, mass := 3 }

/-- The Jacobian of `(E, px, py, pz)` with respect to `(E, theta, phi)` read off a cache,
row by row as the accessors `getDE`, `getDPx`, `getDPy`, `getDPz` return it. -/
def jacobian (c : JetFitObject α) (a k : Int) : α :=
  if a = 0 then (if k = 0 then 1 else 0)
  else if a = 1 then (if k = 0 then c.dpxdE else if k = 1 then c.dpxdtheta else -c.py)
  else if a = 2 then (if k = 0 then c.dpydE else if k = 1 then c.dpydtheta else c.px)
  else (if k = 0 then c.dpzdE else if k = 1 then -c.pt else 0)

/-- First-order error propagation: the quadratic form of `J * cov * J^T` on the
coefficients `der`, with `J` the Jacobian of the cache `c`. -/
def propagatedError2 (c : JetFitObject α) (der : Int → α) : α :=
  ∑ a ∈ Finset.range 4, ∑ b ∈ Finset.range 4,
    der a * (∑ j ∈ Finset.range 3, ∑ k ∈ Finset.range 3,
      jacobian c a j * c.cov j k * jacobian c b k) * der b

/-- Source lines 429-439: the momentum magnitude `p` that `updateCache` computes from the
mass and the energy. -/
def pmag (sqrt : α → α) (mass e : α) : α :=
  if mass > 0 then sqrt |e * e - mass * mass| else e

/-- Source lines 429-439: the value `dpdE` that `updateCache` computes from the mass and the
energy. -/
def dpmag (sqrt : α → α) (mass e : α) : α :=
  if mass > 0 then e / sqrt |e * e - mass * mass| else 1

/-- The `px` that `updateCache` computes from the parameters of `s` (0 when its assertion
fails). -/
def pxOf (env : Env α) (s : JetFitObject α) : α := ((updateCache env s).map (·.px)).getD 0

/-- The `py` that `updateCache` computes from the parameters of `s` (0 when its assertion
fails). -/
def pyOf (env : Env α) (s : JetFitObject α) : α := ((updateCache env s).map (·.py)).getD 0

/-- The `pz` that `updateCache` computes from the parameters of `s` (0 when its assertion
fails). -/
def pzOf (env : Env α) (s : JetFitObject α) : α := ((updateCache env s).map (·.pz)).getD 0

/-- The functional `efact*E + pxfact*px + pyfact*py + pzfact*pz` of the four-momentum that
`getE` and `updateCache` compute from the parameters of `s`. -/
def momentumForm (env : Env α) (efact pxfact pyfact pzfact : α) (s : JetFitObject α) : α :=
  efact * getE s + pxfact * pxOf env s + pyfact * pyOf env s + pzfact * pzOf env s

/-- The momentum components in the spec's wording of cache consistency, to be compared with
the cached ones: `p = sqrt(E²−mass²)` (or `E` if massless), `pt = p·sinθ`, `px = pt·cosφ`,
`py = pt·sinφ`, `pz = p·cosθ`. -/
def directMomentum (env : Env α) (m E theta phi : α) : α × α × α :=
  let p := if m = 0 then E else env.sqrt (E * E - m * m)
  let pt := p * env.sin theta
  (pt * env.cos phi, pt * env.sin phi, p * env.cos theta)

/-- The calls of a sequence are legal on an object with global numbers `g`: a local index is
0, 1 or 2, and the global numbers lie inside the dimension passed with the vector. -/
def Legal (g : Int → Int) : Call ℝ → Prop
  | Call.setParam i _ => i = 0 ∨ i = 1 ∨ i = 2
  | Call.updateParams _ idim =>
    (0 ≤ g 0 ∧ g 0 < idim) ∧ (0 ≤ g 1 ∧ g 1 < idim) ∧ (0 ≤ g 2 ∧ g 2 < idim)

end JetFitObject

/-- The reading of the environment over the reals: `<cmath>` computes the exact functions
and `M_PI` is the number pi. -/
def Env.Exact (env : Env ℝ) : Prop :=
  env.sqrt = Real.sqrt ∧ env.sin = Real.sin ∧ env.cos = Real.cos ∧ env.M_PI = Real.pi

/-- The members of `TwoB4JPairing` (header lines 34-37): the pool `jets[NJETS]` and the
table `permutations[NPERM][NJETS]`; `J` is the type of the pointers `JetFitObject *`.
Modelled from the spec: the cursor `iperm` ("a cursor"), which the header does not
declare. -/
structure TwoB4JPairing (J : Type) where
  jets : Int → J
  permutations : Int → Int → Int
  iperm : Int

namespace TwoB4JPairing

variable {J : Type}

/-- Header line 34, the enum `NPERM`. -/
def NPERM : Int := 6

/-- Header line 35, the enum `NJETS`. -/
def NJETS : Int := 6

/-- Header line 27. -/
def getNPerm (_t : TwoB4JPairing J) : Int := NPERM

/-- Modelled from the spec: the constructor of the missing `TwoB4JPairing.cc`.  It keeps the
pool, holds "a fixed table of NPERM role-assignments", here the parameter `table`, and
starts the cursor at the first row. -/
def new (table : Int → Int → Int) (jets_ : Int → J) : TwoB4JPairing J :=
  { jets := jets_, permutations := table, iperm := 0 }

/-- Modelled from the spec: `nextPermutation` of the missing `TwoB4JPairing.cc`, which
"writes the pool pointers reordered according to the next table row into `out[]` and
advances the cursor".  The result is `none` once all `NPERM` rows have been produced, a case
the spec leaves to the implementer; the returned status is not modelled. -/
def nextPermutation (t : TwoB4JPairing J) (permObjects : Int → J) :
    Option ((Int → J) × TwoB4JPairing J) :=
  if 0 ≤ t.iperm ∧ t.iperm < NPERM then
    some (fun j => if 0 ≤ j ∧ j < NJETS then t.jets (t.permutations t.iperm j)
        else permObjects j,
      { t with iperm := t.iperm + 1 })
  else none

/-- The first `NJETS` entries of an array, as a list. -/
def toList {β : Type} (a : Int → β) : List β := (List.range NJETS.toNat).map (fun j : Nat => a (j : Int))

/-- The arrays written by `n` consecutive calls of `nextPermutation`, in order. -/
def consecutive : Nat → TwoB4JPairing J → (Int → J) → Option (List (List J))
  | 0, _, _ => some []
  | n + 1, t, out =>
    (nextPermutation t out).bind (fun r =>
      (consecutive n r.2 r.1).map (fun l => toList r.1 :: l))

/-- Modelled from the spec: what the spec says of the table that the missing constructor
fills: "each assignment a permutation of slot indices", and no assignment twice ("every
permutation has been produced exactly once"). -/
def ValidTable (table : Int → Int → Int) : Prop :=
  (∀ i ∈ List.range NPERM.toNat, List.Perm (toList (table (i : Nat))) (toList (fun j => j))) ∧
  ((List.range NPERM.toNat).map (fun i : Nat => toList (table i))).Nodup

instance (table : Int → Int → Int) : Decidable (ValidTable table) := by
  unfold ValidTable
  exact inferInstance

end TwoB4JPairing

/-! ## The loops of `adjustEThetaPhi` -/

section Loops

open JetFitObject

variable {α : Type} [LinearOrderedField α]

theorem whileLoop_up (P : α) :
    ∀ (n : ℕ) (x : α), -P - x ≤ n * (2 * P) →
      ∃ y, whileLoop (fun t => decide (t < -P)) (fun t => t + 2 * P) n x = some y ∧
        -P ≤ y ∧ (x < -P → y < P) ∧ (¬ x < -P → y = x) := by
  intro n
  induction n with
  | zero =>
    intro x hx
    have hx' : ¬ x < -P := by
      simp only [Nat.cast_zero, zero_mul] at hx
      linarith
    exact ⟨x, by simp [whileLoop, hx'], by linarith, fun h => absurd h hx', fun _ => rfl⟩
  | succ n ih =>
    intro x hx
    by_cases hlt : x < -P
    · have hb : -P - (x + 2 * P) ≤ n * (2 * P) := by
        push_cast at hx
        linarith
      obtain ⟨y, hy, h1, h2, h3⟩ := ih (x + 2 * P) hb
      refine ⟨y, by simp [whileLoop, hlt, hy], h1, fun _ => ?_, fun h => absurd hlt h⟩
      by_cases h4 : x + 2 * P < -P
      · exact h2 h4
      · rw [h3 h4]; linarith
    · exact ⟨x, by simp [whileLoop, hlt], by linarith, fun h => absurd h hlt, fun _ => rfl⟩

theorem whileLoop_down (P : α) :
    ∀ (n : ℕ) (x : α), x - P ≤ n * (2 * P) →
      ∃ y, whileLoop (fun t => decide (t > P)) (fun t => t - 2 * P) n x = some y ∧
        y ≤ P ∧ (x > P → -P < y) ∧ (¬ x > P → y = x) := by
  intro n
  induction n with
  | zero =>
    intro x hx
    have hx' : ¬ x > P := by
      simp only [Nat.cast_zero, zero_mul] at hx
      intro h
      linarith
    exact ⟨x, by simp [whileLoop, not_lt.mp hx'], by linarith [not_lt.mp hx'],
      fun h => absurd h hx', fun _ => rfl⟩
  | succ n ih =>
    intro x hx
    by_cases hgt : x > P
    · have hb : x - 2 * P - P ≤ n * (2 * P) := by
        push_cast at hx
        linarith
      obtain ⟨y, hy, h1, h2, h3⟩ := ih (x - 2 * P) hb
      refine ⟨y, by simp [whileLoop, hgt, hy], h1, fun _ => ?_, fun h => absurd hgt h⟩
      by_cases h4 : x - 2 * P > P
      · exact h2 h4
      · rw [h3 h4]; linarith
    · exact ⟨x, by simp [whileLoop, not_lt.mp hgt], by linarith [not_lt.mp hgt],
        fun h => absurd h hgt, fun _ => rfl⟩

theorem whileLoop_mono {β : Type} (c : β → Bool) (f : β → β) :
    ∀ (n : ℕ) (x y : β), whileLoop c f n x = some y → ∀ k, whileLoop c f (n + k) x = some y := by
  intro n
  induction n with
  | zero =>
    intro x y h k
    by_cases hc : c x = true
    · simp [whileLoop, hc] at h
    · cases k with
      | zero => exact h
      | succ k =>
        simp only [whileLoop, hc] at h
        simpa [whileLoop, hc] using h
  | succ n ih =>
    intro x y h k
    have hk : n + 1 + k = (n + k) + 1 := by omega
    rw [hk]
    by_cases hc : c x = true
    · simp only [whileLoop, hc, if_true] at h ⊢
      exact ih _ _ h k
    · simp only [whileLoop, hc] at h ⊢
      exact h

theorem wrapAngle_inRange (env : Env α) (fuel : ℕ) (r : Bool) (x : α)
    (h1 : -env.M_PI ≤ x) (h2 : x ≤ env.M_PI) : wrapAngle env fuel r x = some (r, x) := by
  simp [wrapAngle, not_lt.mpr h1, not_lt.mpr h2]

theorem wrapAngle_spec [Archimedean α] (env : Env α) (hP : 0 < env.M_PI) (r : Bool) (x : α) :
    ∃ (N : ℕ) (r' : Bool) (y : α),
      (∀ fuel, N ≤ fuel → wrapAngle env fuel r x = some (r', y)) ∧
      -env.M_PI ≤ y ∧ y ≤ env.M_PI := by
  by_cases hin : x < -env.M_PI ∨ x > env.M_PI
  · obtain ⟨N, hN⟩ := exists_nat_ge (|x| / (2 * env.M_PI))
    have h2P : (0 : α) < 2 * env.M_PI := by linarith
    have hN' : |x| ≤ N * (2 * env.M_PI) := (div_le_iff₀ h2P).mp hN
    have hup : -env.M_PI - x ≤ N * (2 * env.M_PI) := by
      have := neg_abs_le x
      linarith
    obtain ⟨y1, hl1, hy1a, hy1b, hy1c⟩ := whileLoop_up env.M_PI N x hup
    have hdown : y1 - env.M_PI ≤ N * (2 * env.M_PI) := by
      by_cases hx : x < -env.M_PI
      · have := hy1b hx
        have : (0 : α) ≤ N * (2 * env.M_PI) := by positivity
        linarith
      · rw [hy1c hx]
        have := le_abs_self x
        linarith
    obtain ⟨y2, hl2, hy2a, hy2b, hy2c⟩ := whileLoop_down env.M_PI N y1 hdown
    refine ⟨N, true, y2, ?_, ?_, hy2a⟩
    · intro fuel hf
      obtain ⟨k, rfl⟩ := Nat.exists_eq_add_of_le hf
      have e1 := whileLoop_mono _ _ N x y1 hl1 k
      have e2 := whileLoop_mono _ _ N y1 y2 hl2 k
      simp only [wrapAngle, if_pos hin, e1, e2, Option.some_bind, Option.map_some']
    · by_cases hy : y1 > env.M_PI
      · exact (hy2b hy).le
      · rw [hy2c hy]; exact hy1a
  · have h1 : -env.M_PI ≤ x := not_lt.mp (fun h => hin (Or.inl h))
    have h2 : x ≤ env.M_PI := not_lt.mp (fun h => hin (Or.inr h))
    exact ⟨0, r, x, fun fuel _ => wrapAngle_inRange env fuel r x h1 h2, h1, h2⟩

/-- The part of `adjustEThetaPhi` after the energy has been corrected (source lines
513-537), for the locals `a` reached there. -/
theorem adjust_angles [Archimedean α] (env : Env α) (hP : 0 < env.M_PI) (a : Adjusted α) :
    ∃ (N : ℕ) (b : Adjusted α),
      (∀ fuel, N ≤ fuel →
        (wrapAngle env fuel a.result a.theta).bind (fun rt =>
          let a : Adjusted α := { a with result := rt.1, theta := rt.2 }
          let a : Adjusted α :=
            if a.theta < 0 then
              { a with theta := -a.theta,
                       phi := if a.phi > 0 then a.phi - env.M_PI else a.phi + env.M_PI,
                       result := true }
            else if a.theta > env.M_PI then
              { a with theta := 2 * env.M_PI - a.theta,
                       phi := if a.phi > 0 then a.phi - env.M_PI else a.phi + env.M_PI,
                       result := true }
            else a
          (wrapAngle env fuel a.result a.phi).map (fun rp =>
            { a with result := rp.1, phi := rp.2 })) = some b) ∧
      b.m = a.m ∧ b.E = a.E ∧ 0 ≤ b.theta ∧ b.theta ≤ env.M_PI ∧
      -env.M_PI ≤ b.phi ∧ b.phi ≤ env.M_PI := by
  obtain ⟨N1, r1, t1, h1, ht1a, ht1b⟩ := wrapAngle_spec env hP a.result a.theta
  by_cases hneg : t1 < 0
  · obtain ⟨N2, r2, f2, h2, hf2a, hf2b⟩ := wrapAngle_spec env hP true
      (if a.phi > 0 then a.phi - env.M_PI else a.phi + env.M_PI)
    refine ⟨max N1 N2, ⟨r2, a.m, a.E, -t1, f2⟩, ?_, rfl, rfl, by simp; linarith,
      by simp; linarith, hf2a, hf2b⟩
    intro fuel hf
    simp [h1 fuel (le_of_max_le_left hf), hneg, h2 fuel (le_of_max_le_right hf)]
  · obtain ⟨N2, r2, f2, h2, hf2a, hf2b⟩ := wrapAngle_spec env hP r1 a.phi
    refine ⟨max N1 N2, ⟨r2, a.m, a.E, t1, f2⟩, ?_, rfl, rfl, not_lt.mp hneg, ht1b, hf2a, hf2b⟩
    intro fuel hf
    simp [h1 fuel (le_of_max_le_left hf), hneg, not_lt.mpr ht1b,
      h2 fuel (le_of_max_le_right hf)]

theorem adjustEThetaPhi_spec [Archimedean α] (env : Env α) (hP : 0 < env.M_PI)
    (m E theta phi : α) :
    ∃ (N : ℕ) (a : Adjusted α),
      (∀ fuel, N ≤ fuel → adjustEThetaPhi env fuel m E theta phi = some a) ∧
      a.m = m ∧ a.E = max |E| m ∧ 0 ≤ a.theta ∧ a.theta ≤ env.M_PI ∧
      -env.M_PI ≤ a.phi ∧ a.phi ≤ env.M_PI := by
  obtain ⟨N, b, hb, hm, hE, hrest⟩ := adjust_angles env hP
    (let a : Adjusted α := ⟨false, m, E, theta, phi⟩
     let a : Adjusted α :=
      if a.E < 0 then ⟨true, a.m, -a.E, env.M_PI - a.theta, env.M_PI + a.phi⟩ else a
     if a.E < a.m then { a with E := a.m, result := true } else a)
  refine ⟨N, b, fun fuel hf => hb fuel hf, ?_, ?_, hrest⟩
  · rw [hm]
    by_cases h1 : E < 0 <;> by_cases h2 : -E < m <;> by_cases h3 : E < m <;> simp [h1, h2, h3]
  · rw [hE]
    by_cases h1 : E < 0
    · by_cases h2 : -E < m
      · simp [h1, h2, abs_of_neg h1, max_eq_right h2.le]
      · simp [h1, h2, abs_of_neg h1, max_eq_left (not_lt.mp h2)]
    · by_cases h3 : E < m
      · simp [h1, h3, abs_of_nonneg (not_lt.mp h1), max_eq_right h3.le]
      · simp [h1, h3, abs_of_nonneg (not_lt.mp h1), max_eq_left (not_lt.mp h3)]

theorem adjustEThetaPhi_normal (env : Env α) (fuel : ℕ) (m E theta phi : α)
    (hE : 0 ≤ E) (hm : m ≤ E) (ht0 : 0 ≤ theta) (ht1 : theta ≤ env.M_PI)
    (hp0 : -env.M_PI ≤ phi) (hp1 : phi ≤ env.M_PI) :
    adjustEThetaPhi env fuel m E theta phi = some ⟨false, m, E, theta, phi⟩ := by
  have ht2 : -env.M_PI ≤ theta := by linarith
  simp [adjustEThetaPhi, not_lt.mpr hE, not_lt.mpr hm, not_lt.mpr ht0, not_lt.mpr ht1,
    wrapAngle_inRange env fuel false theta ht2 ht1, wrapAngle_inRange env fuel false phi hp0 hp1]

end Loops

open JetFitObject

/-! ## Bounds kept by the mutators -/

theorem setParam_par_zero (env : Env ℝ) (i : Int) (v : ℝ) (s : JetFitObject ℝ)
    (hi : i = 0 ∨ i = 1 ∨ i = 2) (h : s.mass ≤ s.par 0) :
    (setParam env i v s).2.mass ≤ (setParam env i v s).2.par 0 := by
  rcases hi with rfl | rfl | rfl
  · by_cases hv : v ≥ s.mass
    · simp [setParam, invalidateCache, hv]
    · simp [setParam, invalidateCache, hv]
  · simpa [setParam, invalidateCache] using h
  · simpa [setParam, invalidateCache] using h

theorem updateParams_par_zero (env : Env ℝ) (p : Int → ℝ) (idim : Int) (s : JetFitObject ℝ)
    (hE : 0 ≤ s.globalParNum 0 ∧ s.globalParNum 0 < idim)
    (hth : 0 ≤ s.globalParNum 1 ∧ s.globalParNum 1 < idim)
    (hph : 0 ≤ s.globalParNum 2 ∧ s.globalParNum 2 < idim) :
    ∃ r p' s', updateParams env p idim s = some (r, p', s') ∧ s'.mass ≤ s'.par 0 ∧
      s'.globalParNum = s.globalParNum := by
  have hv : (0 ≤ s.globalParNum 0 ∧ s.globalParNum 0 < idim) ∧
      (0 ≤ s.globalParNum 1 ∧ s.globalParNum 1 < idim) ∧
      (0 ≤ s.globalParNum 2 ∧ s.globalParNum 2 < idim) := ⟨hE, hth, hph⟩
  simp only [updateParams, getGlobalParNum, invalidateCache, if_pos hv]
  refine ⟨_, _, _, rfl, ?_, rfl⟩
  dsimp only
  rw [Function.update_noteq (by norm_num), Function.update_noteq (by norm_num),
    Function.update_same]
  simp only [decide_eq_true_eq]
  rcases le_or_lt 0 s.mass with hm | hm <;> split_ifs with h1 h2 h3 <;> norm_num at * <;>
    linarith

theorem apply_par_zero (env : Env ℝ) (c : Call ℝ) (s : JetFitObject ℝ)
    (hc : Legal s.globalParNum c) (h : s.mass ≤ s.par 0) :
    ∃ s', c.apply env s = some s' ∧ s'.mass ≤ s'.par 0 ∧ s'.globalParNum = s.globalParNum := by
  cases c with
  | setParam i v =>
    refine ⟨_, rfl, setParam_par_zero env i v s hc h, ?_⟩
    simp only [setParam, invalidateCache]
    split_ifs <;> rfl
  | updateParams p idim =>
    obtain ⟨r, p', s', h1, h2, h3⟩ := updateParams_par_zero env p idim s hc.1 hc.2.1 hc.2.2
    exact ⟨s', by simp [Call.apply, h1], h2, h3⟩

theorem setParamFlags_eq (ilocal : Int) (v : ℝ) (me fi : Bool) (s : JetFitObject ℝ)
    (hi : 0 ≤ ilocal ∧ ilocal < 3) :
    setParamFlags ilocal v me fi s = some (true,
      { s with
        cachevalid := if s.measured ilocal ≠ me ∨ s.fixed ilocal ≠ fi then false
          else s.cachevalid,
        measured := Function.update s.measured ilocal me,
        fixed := Function.update s.fixed ilocal fi,
        par := Function.update s.par ilocal v }) := by
  simp only [setParamFlags, if_pos hi, invalidateCache]
  split_ifs <;> rfl

/-- What the constructor records once `adjustEThetaPhi` has returned the locals `a`. -/
theorem new_of_adjust (env : Env ℝ) (fuel : ℕ) (s0 : JetFitObject ℝ)
    (E theta phi DE Dtheta Dphi m : ℝ) (a : Adjusted ℝ)
    (h : adjustEThetaPhi env fuel m E theta phi = some a) :
    ∃ s, new env fuel s0 E theta phi DE Dtheta Dphi m = some s ∧
      s.par 0 = a.E ∧ s.par 1 = a.theta ∧ s.par 2 = a.phi ∧ s.mass = m ∧
      s.globalParNum = s0.globalParNum := by
  refine ⟨_, by simp only [new, h, Option.some_bind, setParamFlags_eq _ _ _ _ _
    (show (0 : Int) ≤ 0 ∧ (0 : Int) < 3 by decide), setParamFlags_eq _ _ _ _ _
    (show (0 : Int) ≤ 1 ∧ (1 : Int) < 3 by decide), setParamFlags_eq _ _ _ _ _
    (show (0 : Int) ≤ 2 ∧ (2 : Int) < 3 by decide), Option.map_some']; rfl, ?_, ?_, ?_, ?_, ?_⟩ <;>
    simp [invalidateCache, setError, setMParam, setMass, initCov]

/-- Over exact real arithmetic, with `M_PI` the number pi: for all `m`, `E`, `theta`, `phi`
the loops of `adjustEThetaPhi` end (from some fuel on it returns one and the same result),
`m` is unchanged, `E' = max(|E|, m)`, `theta'` is in `[0, pi]` and `phi'` in `[-pi, pi]`; on
`(m=5, E=1, theta=0.2, phi=0.1)` it returns `true` with `E' = 5` and both angles unchanged.
The statement is about the reals: it does not cover a step `theta -= 2*M_PI` that rounding
absorbs, as happens in the doubles of the source for `|theta|` from about `1e17` on. -/
theorem adjustEThetaPhi_terminates_in_range (env : Env ℝ) (hpi : env.M_PI = Real.pi) :
    (∀ m E theta phi : ℝ, ∃ (N : ℕ) (a : Adjusted ℝ),
      (∀ fuel, N ≤ fuel → adjustEThetaPhi env fuel m E theta phi = some a) ∧
      a.m = m ∧ a.E = max |E| m ∧ 0 ≤ a.theta ∧ a.theta ≤ Real.pi ∧
      -Real.pi ≤ a.phi ∧ a.phi ≤ Real.pi) ∧
    (∀ fuel, adjustEThetaPhi env fuel 5 1 0.2 0.1 = some ⟨true, 5, 5, 0.2, 0.1⟩) := by
  have hP : 0 < env.M_PI := hpi ▸ Real.pi_pos
  constructor
  · intro m E theta phi
    have h := adjustEThetaPhi_spec env hP m E theta phi
    rwa [hpi] at h
  · intro fuel
    have h3 := Real.pi_gt_three
    have w1 : wrapAngle env fuel true 0.2 = some (true, 0.2) :=
      wrapAngle_inRange env fuel true 0.2 (by rw [hpi]; norm_num; linarith)
        (by rw [hpi]; norm_num; linarith)
    have w2 : wrapAngle env fuel true 0.1 = some (true, 0.1) :=
      wrapAngle_inRange env fuel true 0.1 (by rw [hpi]; norm_num; linarith)
        (by rw [hpi]; norm_num; linarith)
    have h4 : ¬ ((0.2 : ℝ) < 0) := by norm_num
    have h5 : ¬ (Real.pi < (0.2 : ℝ)) := by norm_num; linarith
    have h6 : ¬ ((1 : ℝ) < 0) := by norm_num
    have h7 : (1 : ℝ) < 5 := by norm_num
    simp [adjustEThetaPhi, w1, w2, h4, h5, h6, h7, hpi]

theorem adjustEThetaPhi_terminates_in_range_witness :
    (⟨Real.sqrt, Real.sin, Real.cos, Real.pi, 0, fun _ => none⟩ : Env ℝ).M_PI = Real.pi ∧
    ∃ (N : ℕ) (a : Adjusted ℝ),
      (∀ fuel, N ≤ fuel →
        adjustEThetaPhi ⟨Real.sqrt, Real.sin, Real.cos, Real.pi, 0, fun _ => none⟩ fuel
          1 (-2) 7 (-4) = some a) ∧
      a.m = 1 ∧ a.E = max |(-2 : ℝ)| 1 ∧ 0 ≤ a.theta ∧ a.theta ≤ Real.pi ∧
      -Real.pi ≤ a.phi ∧ a.phi ≤ Real.pi :=
  ⟨rfl, (adjustEThetaPhi_terminates_in_range
    ⟨Real.sqrt, Real.sin, Real.cos, Real.pi, 0, fun _ => none⟩ rfl).1 1 (-2) 7 (-4)⟩

/-- C10: with `M_PI` the number pi, `adjustEThetaPhi` leaves every `(m, E, theta, phi)` with
`E >= 0`, `E >= m`, `theta` in `[0, pi]` and `phi` in `[-pi, pi]` unchanged and returns
`false`; and for every real input, run again on its own output it changes nothing and
returns `false`. -/
theorem adjustEThetaPhi_idempotent (env : Env ℝ) (hpi : env.M_PI = Real.pi) :
    (∀ m E theta phi : ℝ, 0 ≤ E → m ≤ E → 0 ≤ theta → theta ≤ Real.pi →
      -Real.pi ≤ phi → phi ≤ Real.pi →
      ∀ fuel, adjustEThetaPhi env fuel m E theta phi = some ⟨false, m, E, theta, phi⟩) ∧
    (∀ m E theta phi : ℝ, ∃ (N : ℕ) (a : Adjusted ℝ),
      (∀ fuel, N ≤ fuel → adjustEThetaPhi env fuel m E theta phi = some a) ∧
      ∀ fuel, adjustEThetaPhi env fuel a.m a.E a.theta a.phi
        = some ⟨false, a.m, a.E, a.theta, a.phi⟩) := by
  have hP : 0 < env.M_PI := hpi ▸ Real.pi_pos
  constructor
  · intro m E theta phi hE hm ht0 ht1 hp0 hp1 fuel
    exact adjustEThetaPhi_normal env fuel m E theta phi hE hm ht0 (hpi ▸ ht1)
      (hpi ▸ hp0) (hpi ▸ hp1)
  · intro m E theta phi
    obtain ⟨N, a, h, hm, hE, ht0, ht1, hp0, hp1⟩ := adjustEThetaPhi_spec env hP m E theta phi
    refine ⟨N, a, h, fun fuel => ?_⟩
    have h1 : 0 ≤ a.E := by rw [hE]; exact le_max_of_le_left (abs_nonneg E)
    have h2 : a.m ≤ a.E := by rw [hE, hm]; exact le_max_right _ _
    exact adjustEThetaPhi_normal env fuel a.m a.E a.theta a.phi h1 h2 ht0 ht1 hp0 hp1

theorem adjustEThetaPhi_idempotent_witness :
    (⟨Real.sqrt, Real.sin, Real.cos, Real.pi, 0, fun _ => none⟩ : Env ℝ).M_PI = Real.pi ∧
    adjustEThetaPhi ⟨Real.sqrt, Real.sin, Real.cos, Real.pi, 0, fun _ => none⟩ 0 1 2 3 (-3)
      = some ⟨false, 1, 2, 3, -3⟩ :=
  ⟨rfl, (adjustEThetaPhi_idempotent
    ⟨Real.sqrt, Real.sin, Real.cos, Real.pi, 0, fun _ => none⟩ rfl).1 1 2 3 (-3)
    (by norm_num) (by norm_num) (by norm_num) (le_of_lt Real.pi_gt_three)
    (by linarith [Real.pi_gt_three]) (by linarith [Real.pi_gt_three]) 0⟩

/-- C8: with the mass recorded as given, the constructor returns (from some fuel on) an
object with `par[0] >= mass`; `setParam (i, value)` with `i` in `{0, 1, 2}` keeps
`par[0] >= mass`; and `updateParams` on a vector with the global numbers inside `idim`
returns with `par[0] >= mass`. -/
theorem energy_bound_established_and_preserved (env : Env ℝ) (hpi : env.M_PI = Real.pi) :
    (∀ (s0 : JetFitObject ℝ) (E theta phi DE Dtheta Dphi m : ℝ), ∃ (N : ℕ) (s : JetFitObject ℝ),
      (∀ fuel, N ≤ fuel → new env fuel s0 E theta phi DE Dtheta Dphi m = some s) ∧
      s.mass ≤ s.par 0) ∧
    (∀ (s : JetFitObject ℝ) (i : Int) (value : ℝ), (i = 0 ∨ i = 1 ∨ i = 2) →
      s.mass ≤ s.par 0 →
      (setParam env i value s).2.mass ≤ (setParam env i value s).2.par 0) ∧
    (∀ (s : JetFitObject ℝ) (p : Int → ℝ) (idim : Int),
      (0 ≤ s.globalParNum 0 ∧ s.globalParNum 0 < idim) →
      (0 ≤ s.globalParNum 1 ∧ s.globalParNum 1 < idim) →
      (0 ≤ s.globalParNum 2 ∧ s.globalParNum 2 < idim) →
      s.mass ≤ s.par 0 →
      ∃ r p' s', updateParams env p idim s = some (r, p', s') ∧ s'.mass ≤ s'.par 0) := by
  have hP : 0 < env.M_PI := hpi ▸ Real.pi_pos
  refine ⟨?_, ?_, ?_⟩
  · intro s0 E theta phi DE Dtheta Dphi m
    obtain ⟨N, a, h, hm, hE, -⟩ := adjustEThetaPhi_spec env hP m E theta phi
    obtain ⟨s, hs, h0, -, -, hmass, -⟩ :=
      new_of_adjust env N s0 E theta phi DE Dtheta Dphi m a (h N le_rfl)
    refine ⟨N, s, fun fuel hf => ?_, ?_⟩
    · rw [← hs]
      simp only [new, h fuel hf, h N le_rfl]
    · rw [h0, hmass, hE]; exact le_max_right _ _
  · intro s i value hi h
    exact setParam_par_zero env i value s hi h
  · intro s p idim hE hth hph _
    obtain ⟨r, p', s', h1, h2, -⟩ := updateParams_par_zero env p idim s hE hth hph
    exact ⟨r, p', s', h1, h2⟩

theorem energy_bound_established_and_preserved_witness :
    (⟨Real.sqrt, Real.sin, Real.cos, Real.pi, 0, fun _ => none⟩ : Env ℝ).M_PI = Real.pi ∧
    ((0 : Int) = 0 ∨ (0 : Int) = 1 ∨ (0 : Int) = 2) ∧
    (blank : JetFitObject ℝ).mass ≤ (blank : JetFitObject ℝ).par 0 ∧
    (setParam ⟨Real.sqrt, Real.sin, Real.cos, Real.pi, 0, fun _ => none⟩ 0 (-3) blank).2.mass ≤
      (setParam ⟨Real.sqrt, Real.sin, Real.cos, Real.pi, 0, fun _ => none⟩ 0 (-3) blank).2.par 0 ∧
    ∃ r p' s', updateParams ⟨Real.sqrt, Real.sin, Real.cos, Real.pi, 0, fun _ => none⟩
      (fun _ => -7) 3 blank = some (r, p', s') ∧ s'.mass ≤ s'.par 0 :=
  ⟨rfl, Or.inl rfl, le_refl _,
    (energy_bound_established_and_preserved
      ⟨Real.sqrt, Real.sin, Real.cos, Real.pi, 0, fun _ => none⟩ rfl).2.1 blank 0 (-3)
      (Or.inl rfl) (le_refl _),
    (energy_bound_established_and_preserved
      ⟨Real.sqrt, Real.sin, Real.cos, Real.pi, 0, fun _ => none⟩ rfl).2.2 blank (fun _ => -7) 3
      (by decide) (by decide) (by decide) (le_refl _)⟩

/-- C7, as amended: from an object with `par[0] >= mass`, every finite sequence of calls
`setParam (i, value)` with `i` in `{0, 1, 2}` and `updateParams` with the global numbers
inside `idim` runs through, and after each call `par[0] >= mass`.  Nothing is stated for
`theta` and `phi`, which both calls store as they arrive. -/
theorem energy_bound_along_calls (env : Env ℝ) (s : JetFitObject ℝ) (cs : List (Call ℝ))
    (hl : ∀ c ∈ cs, Legal s.globalParNum c) (h : s.mass ≤ s.par 0) :
    ∃ l, trace env cs s = some l ∧ l.length = cs.length ∧ ∀ t ∈ l, t.mass ≤ t.par 0 := by
  induction cs generalizing s with
  | nil => exact ⟨[], rfl, rfl, by simp⟩
  | cons c cs ih =>
    have hc : Legal s.globalParNum c := hl c (List.mem_cons_self _ _)
    obtain ⟨s', h1, h2, h3⟩ := apply_par_zero env c s hc h
    obtain ⟨l, h4, h5, h6⟩ := ih s' (fun d hd => by
      rw [h3]; exact hl d (List.mem_cons_of_mem _ hd)) h2
    refine ⟨s' :: l, by simp [trace, h1, h4], by simp [h5], ?_⟩
    intro t ht
    rcases List.mem_cons.mp ht with rfl | ht
    · exact h2
    · exact h6 t ht

theorem energy_bound_along_calls_witness :
    ∃ l, trace ⟨Real.sqrt, Real.sin, Real.cos, Real.pi, 0, fun _ => none⟩
        [Call.setParam 0 (-3), Call.updateParams (fun _ => -7) 3, Call.setParam 1 10] blank
          = some l ∧
      l.length = [Call.setParam 0 (-3), Call.updateParams (fun _ => (-7 : ℝ)) 3,
        Call.setParam 1 10].length ∧
      ∀ t ∈ l, t.mass ≤ t.par 0 :=
  energy_bound_along_calls ⟨Real.sqrt, Real.sin, Real.cos, Real.pi, 0, fun _ => none⟩ blank
    [Call.setParam 0 (-3), Call.updateParams (fun _ => -7) 3, Call.setParam 1 10]
    (by
      intro c hc
      simp only [List.mem_cons, List.mem_singleton, List.not_mem_nil, or_false] at hc
      rcases hc with rfl | rfl | rfl
      · exact Or.inl rfl
      · exact ⟨by decide, by decide, by decide⟩
      · exact Or.inr (Or.inl rfl))
    (le_refl _)

/-- C7, the claim as stated fails: on the object constructed from `(E=50, theta=1, phi=0,
mass=0)` the call `setParam (1, 10)` runs and leaves `theta = 10 > pi`. -/
theorem setParam_leaves_theta_out_of_range :
    ∃ (s : JetFitObject ℝ) (l : List (JetFitObject ℝ)),
      new ⟨Real.sqrt, Real.sin, Real.cos, Real.pi, 0, fun _ => none⟩ 0 blank
        50 1 0 5 0.01 0.01 0 = some s ∧
      trace ⟨Real.sqrt, Real.sin, Real.cos, Real.pi, 0, fun _ => none⟩
        [Call.setParam 1 10] s = some l ∧
      ¬ (∀ t ∈ l, t.mass ≤ t.par 0 ∧ (0 ≤ t.par 1 ∧ t.par 1 ≤ Real.pi) ∧
          (-Real.pi < t.par 2 ∧ t.par 2 ≤ Real.pi)) := by
  have ha := adjustEThetaPhi_normal
    (⟨Real.sqrt, Real.sin, Real.cos, Real.pi, 0, fun _ => none⟩ : Env ℝ) 0 0 50 1 0
    (by norm_num) (by norm_num) (by norm_num) (by linarith [Real.pi_gt_three])
    (by linarith [Real.pi_gt_three]) (by linarith [Real.pi_gt_three])
  obtain ⟨s, hs, -⟩ := new_of_adjust _ 0 blank 50 1 0 5 0.01 0.01 0 _ ha
  refine ⟨s, [(setParam ⟨Real.sqrt, Real.sin, Real.cos, Real.pi, 0, fun _ => none⟩ 1 10 s).2],
    hs, rfl, ?_⟩
  intro hall
  have h := (hall _ (List.mem_singleton_self _)).2.1.2
  have h10 : (setParam (⟨Real.sqrt, Real.sin, Real.cos, Real.pi, 0, fun _ => none⟩ : Env ℝ)
      1 10 s).2.par 1 = 10 := by
    simp [setParam, invalidateCache]
  rw [h10] at h
  linarith [Real.pi_le_four]

/-! ## The cache -/

theorem calculateCovInv_fields (env : Env ℝ) (s : JetFitObject ℝ) :
    (calculateCovInv env s).par = s.par ∧ (calculateCovInv env s).mpar = s.mpar ∧
    (calculateCovInv env s).mass = s.mass ∧ (calculateCovInv env s).cov = s.cov ∧
    (calculateCovInv env s).globalParNum = s.globalParNum ∧
    (calculateCovInv env s).measured = s.measured ∧ (calculateCovInv env s).fixed = s.fixed := by
  unfold calculateCovInv
  cases env.covInverse s.cov <;> exact ⟨rfl, rfl, rfl, rfl, rfl, rfl, rfl⟩

theorem calcChi2_state (env : Env ℝ) (s : JetFitObject ℝ) :
    (calcChi2 env s).2 = if s.covinvvalid then s else calculateCovInv env s := by
  unfold calcChi2
  cases h : s.covinvvalid <;> simp only [h] <;> split_ifs <;> simp_all

theorem calcChi2_fields (env : Env ℝ) (s : JetFitObject ℝ) :
    (calcChi2 env s).2.par = s.par ∧ (calcChi2 env s).2.mpar = s.mpar ∧
    (calcChi2 env s).2.mass = s.mass ∧ (calcChi2 env s).2.cov = s.cov ∧
    (calcChi2 env s).2.globalParNum = s.globalParNum ∧
    (calcChi2 env s).2.measured = s.measured ∧ (calcChi2 env s).2.fixed = s.fixed := by
  rw [calcChi2_state]
  split_ifs
  · exact ⟨rfl, rfl, rfl, rfl, rfl, rfl, rfl⟩
  · exact calculateCovInv_fields env s

theorem fillCache_fields (s : JetFitObject ℝ) (chi2 ct st cp sp p2 p dpdE : ℝ) :
    (fillCache s chi2 ct st cp sp p2 p dpdE).par = s.par ∧
    (fillCache s chi2 ct st cp sp p2 p dpdE).mpar = s.mpar ∧
    (fillCache s chi2 ct st cp sp p2 p dpdE).mass = s.mass ∧
    (fillCache s chi2 ct st cp sp p2 p dpdE).cov = s.cov ∧
    (fillCache s chi2 ct st cp sp p2 p dpdE).globalParNum = s.globalParNum ∧
    (fillCache s chi2 ct st cp sp p2 p dpdE).cachevalid = true ∧
    (fillCache s chi2 ct st cp sp p2 p dpdE).dpzdE
      = (fillCache s chi2 ct st cp sp p2 p dpdE).dpdE
        * (fillCache s chi2 ct st cp sp p2 p dpdE).ctheta :=
  ⟨rfl, rfl, rfl, rfl, rfl, rfl, rfl⟩

/-- What `updateCache` leaves untouched, and what it always establishes. -/
theorem updateCache_fields (env : Env ℝ) (s c : JetFitObject ℝ)
    (h : updateCache env s = some c) :
    c.par = s.par ∧ c.mpar = s.mpar ∧ c.mass = s.mass ∧ c.cov = s.cov ∧
    c.globalParNum = s.globalParNum ∧ c.cachevalid = true ∧ c.dpzdE = c.dpdE * c.ctheta := by
  obtain ⟨h1, h2, h3, h4, h5, -, -⟩ := calcChi2_fields env s
  unfold updateCache at h
  simp only at h
  split_ifs at h with hm hp
  · cases h
    obtain ⟨g1, g2, g3, g4, g5, g6, g7⟩ := fillCache_fields (calcChi2 env s).2
      (calcChi2 env s).1 (env.cos ((calcChi2 env s).2.par 1))
      (env.sin ((calcChi2 env s).2.par 1)) (env.cos ((calcChi2 env s).2.par 2))
      (env.sin ((calcChi2 env s).2.par 2))
      |(calcChi2 env s).2.par 0 * (calcChi2 env s).2.par 0
        - (calcChi2 env s).2.mass * (calcChi2 env s).2.mass|
      (env.sqrt |(calcChi2 env s).2.par 0 * (calcChi2 env s).2.par 0
        - (calcChi2 env s).2.mass * (calcChi2 env s).2.mass|)
      ((calcChi2 env s).2.par 0 / env.sqrt |(calcChi2 env s).2.par 0 * (calcChi2 env s).2.par 0
        - (calcChi2 env s).2.mass * (calcChi2 env s).2.mass|)
    exact ⟨g1.trans h1, g2.trans h2, g3.trans h3, g4.trans h4, g5.trans h5, g6, g7⟩
  · cases h
    obtain ⟨g1, g2, g3, g4, g5, g6, g7⟩ := fillCache_fields (calcChi2 env s).2
      (calcChi2 env s).1 (env.cos ((calcChi2 env s).2.par 1))
      (env.sin ((calcChi2 env s).2.par 1)) (env.cos ((calcChi2 env s).2.par 2))
      (env.sin ((calcChi2 env s).2.par 2))
      ((calcChi2 env s).2.par 0 * (calcChi2 env s).2.par 0) ((calcChi2 env s).2.par 0) 1
    exact ⟨g1.trans h1, g2.trans h2, g3.trans h3, g4.trans h4, g5.trans h5, g6, g7⟩

theorem calcChi2_invalidateCache (env : Env ℝ) (s : JetFitObject ℝ) :
    (calcChi2 env (invalidateCache s)).1 = (calcChi2 env s).1 ∧
    (calcChi2 env (invalidateCache s)).2 = invalidateCache (calcChi2 env s).2 := by
  unfold calcChi2 calculateCovInv invalidateCache
  cases hv : s.covinvvalid <;> cases hc : env.covInverse s.cov <;>
    simp [hv, hc, resid, isParamMeasured, isParamFixed]

/-- The recomputation does not read the old cache: it gives the same object whether or not
the cache was flagged valid before. -/
theorem updateCache_invalidateCache (env : Env ℝ) (s : JetFitObject ℝ) :
    updateCache env (invalidateCache s) = updateCache env s := by
  obtain ⟨h1, h2⟩ := calcChi2_invalidateCache env s
  unfold updateCache
  rw [h1, h2]
  rfl

theorem addAt_same (a : Int → ℝ) (i : Int) (v : ℝ) : addAt a i v i = a i + v := by
  simp [addAt]

theorem addAt_other (a : Int → ℝ) (i k : Int) (v : ℝ) (h : k ≠ i) : addAt a i v k = a k := by
  simp [addAt, h]

/-- C3: on an object whose global numbers are pairwise distinct and inside `idim`, and whose
cache check passes (the cache is valid and holds `dpzdE = dpdE*ctheta` as `updateCache`
writes it, or is recomputed without tripping `assert (p != 0)`), `addToDerivatives` adds
`efact + pxfact*dpxdE + pyfact*dpydE + pzfact*dpzdE` to `der[gE]`,
`pxfact*dpxdtheta + pyfact*dpydtheta - pzfact*pt` to `der[gTheta]` and
`-pxfact*py + pyfact*px` to `der[gPhi]`, changes no other entry of `der`, and leaves
`par[]` as it was. -/
theorem addToDerivatives_adds_gradient (env : Env ℝ) (s c : JetFitObject ℝ) (der : Int → ℝ)
    (idim : Int) (efact pxfact pyfact pzfact : ℝ)
    (hE : 0 ≤ s.globalParNum 0 ∧ s.globalParNum 0 < idim)
    (hth : 0 ≤ s.globalParNum 1 ∧ s.globalParNum 1 < idim)
    (hph : 0 ≤ s.globalParNum 2 ∧ s.globalParNum 2 < idim)
    (hd : s.globalParNum 0 ≠ s.globalParNum 1 ∧ s.globalParNum 0 ≠ s.globalParNum 2 ∧
      s.globalParNum 1 ≠ s.globalParNum 2)
    (hc : ensureCache env s = some c)
    (hz : s.cachevalid = true → s.dpzdE = s.dpdE * s.ctheta) :
    ∃ der', addToDerivatives env der idim efact pxfact pyfact pzfact s = some (der', c) ∧
      der' (s.globalParNum 0) = der (s.globalParNum 0)
        + (efact + pxfact * c.dpxdE + pyfact * c.dpydE + pzfact * c.dpzdE) ∧
      der' (s.globalParNum 1) = der (s.globalParNum 1)
        + (pxfact * c.dpxdtheta + pyfact * c.dpydtheta - pzfact * c.pt) ∧
      der' (s.globalParNum 2) = der (s.globalParNum 2) + (-pxfact * c.py + pyfact * c.px) ∧
      (∀ k, k ≠ s.globalParNum 0 → k ≠ s.globalParNum 1 → k ≠ s.globalParNum 2 →
        der' k = der k) ∧
      c.par = s.par := by
  have hv : (0 ≤ s.globalParNum 0 ∧ s.globalParNum 0 < idim) ∧
      (0 ≤ s.globalParNum 1 ∧ s.globalParNum 1 < idim) ∧
      (0 ≤ s.globalParNum 2 ∧ s.globalParNum 2 < idim) := ⟨hE, hth, hph⟩
  have hcz : c.dpzdE = c.dpdE * c.ctheta ∧ c.par = s.par := by
    unfold ensureCache at hc
    cases hcv : s.cachevalid
    · simp only [hcv, Bool.not_false, if_true] at hc
      obtain ⟨h1, -, -, -, -, -, h7⟩ := updateCache_fields env s c hc
      exact ⟨h7, h1⟩
    · simp only [hcv, Bool.not_true, Bool.false_eq_true, if_false, Option.some.injEq] at hc
      subst hc
      exact ⟨hz hcv, rfl⟩
  obtain ⟨h01, h02, h12⟩ := hd
  have hder : der1 c efact pxfact pyfact pzfact =
      ⟨efact + pxfact * c.dpxdE + pyfact * c.dpydE + pzfact * c.dpzdE,
        pxfact * c.dpxdtheta + pyfact * c.dpydtheta - pzfact * c.pt,
        -pxfact * c.py + pyfact * c.px⟩ := by
    unfold der1
    rw [hcz.1]
    by_cases h1 : pxfact = 0 <;> by_cases h2 : pyfact = 0 <;> by_cases h3 : pzfact = 0 <;>
      simp [h1, h2, h3] <;> ring
  refine ⟨_, by simp only [addToDerivatives, if_pos hv, hc, Option.map_some']; rfl,
    ?_, ?_, ?_, ?_, hcz.2⟩
  · rw [addAt_other _ _ _ _ h02, addAt_other _ _ _ _ h01, addAt_same, hder]
  · rw [addAt_other _ _ _ _ h12, addAt_same, addAt_other _ _ _ _ (Ne.symm h01), hder]
  · rw [addAt_same, addAt_other _ _ _ _ (Ne.symm h12), addAt_other _ _ _ _ (Ne.symm h02)]
    rw [hder]
  · intro k k0 k1 k2
    rw [addAt_other _ _ _ _ k2, addAt_other _ _ _ _ k1, addAt_other _ _ _ _ k0]

theorem addToDerivatives_adds_gradient_witness :
    ∃ der', addToDerivatives ⟨Real.sqrt, Real.sin, Real.cos, Real.pi, 0, fun _ => none⟩
        (fun _ => 0) 3 1 2 3 4 (withPar blank 0 5)
        = some (der', fillCache (withPar blank 0 5) (-1) 1 0 1 0 (5 * 5) 5 1) ∧
      der' 0 = 0 + (1 + 2 * 0 + 3 * 0 + 4 * 1) ∧
      der' 1 = 0 + (2 * 5 + 3 * 0 - 4 * 0) ∧
      der' 2 = 0 + (-2 * 0 + 3 * 0) ∧
      (∀ k : Int, k ≠ 0 → k ≠ 1 → k ≠ 2 → der' k = 0) ∧
      (fillCache (withPar blank 0 5) (-1) 1 0 1 0 (5 * 5) 5 1).par
        = (withPar (blank : JetFitObject ℝ) 0 5).par := by
  have h := addToDerivatives_adds_gradient
    ⟨Real.sqrt, Real.sin, Real.cos, Real.pi, 0, fun _ => none⟩ (withPar blank 0 5)
    (fillCache (withPar blank 0 5) (-1) 1 0 1 0 (5 * 5) 5 1) (fun _ => 0) 3 1 2 3 4
    (by decide) (by decide) (by decide) (by decide)
    (by simp [ensureCache, updateCache, calcChi2, calculateCovInv, withPar, blank])
    (by simp [withPar, blank])
  simpa [fillCache, withPar, blank] using h

/-! ## Chi-square and error propagation -/

/-- C5: when the inverse covariance that `calcChi2` works with (the cached one, or the one
`calculateCovInv` has just filled in) is flagged valid and is symmetric, `calcChi2` returns
the full quadratic form `sum over i, j in {0,1,2} of r_i * covinv[i][j] * r_j`, where
`r_i = par[i] - mpar[i]` if parameter `i` is measured and not fixed and `0` otherwise, and
`r_2` is wrapped as the code wraps it: `2*M_PI` is subtracted once above `M_PI` and added
once below `-M_PI`. -/
theorem calcChi2_is_quadratic_form (env : Env ℝ) (s : JetFitObject ℝ)
    (hv : (calcChi2 env s).2.covinvvalid = true)
    (hs : ∀ i j : Int, 0 ≤ i ∧ i < 3 → 0 ≤ j ∧ j < 3 →
      (calcChi2 env s).2.covinv i j = (calcChi2 env s).2.covinv j i) :
    ∃ r : Int → ℝ,
      r 0 = (if s.measured 0 = true ∧ s.fixed 0 = false then s.par 0 - s.mpar 0 else 0) ∧
      r 1 = (if s.measured 1 = true ∧ s.fixed 1 = false then s.par 1 - s.mpar 1 else 0) ∧
      r 2 = (if (if s.measured 2 = true ∧ s.fixed 2 = false then s.par 2 - s.mpar 2 else 0)
              > env.M_PI
            then (if s.measured 2 = true ∧ s.fixed 2 = false then s.par 2 - s.mpar 2 else 0)
              - 2 * env.M_PI
            else if (if s.measured 2 = true ∧ s.fixed 2 = false then s.par 2 - s.mpar 2
              else 0) < -env.M_PI
            then (if s.measured 2 = true ∧ s.fixed 2 = false then s.par 2 - s.mpar 2 else 0)
              + 2 * env.M_PI
            else (if s.measured 2 = true ∧ s.fixed 2 = false then s.par 2 - s.mpar 2
              else 0)) ∧
      (calcChi2 env s).1 = ∑ i ∈ Finset.range 3, ∑ j ∈ Finset.range 3,
        r i * (calcChi2 env s).2.covinv i j * r j := by
  obtain ⟨h1, h2, -, -, -, h6, h7⟩ := calcChi2_fields env s
  have hst := calcChi2_state env s
  refine ⟨resid env (calcChi2 env s).2, ?_, ?_, ?_, ?_⟩
  · simp [resid, isParamMeasured, isParamFixed, h1, h2, h6, h7]
  · simp [resid, isParamMeasured, isParamFixed, h1, h2, h6, h7]
  · simp [resid, isParamMeasured, isParamFixed, h1, h2, h6, h7]
  · have hval : (calcChi2 env s).1 =
        resid env (calcChi2 env s).2 0 * (calcChi2 env s).2.covinv 0 0
            * resid env (calcChi2 env s).2 0
          + 2 * resid env (calcChi2 env s).2 0 * (calcChi2 env s).2.covinv 0 1
            * resid env (calcChi2 env s).2 1
          + 2 * resid env (calcChi2 env s).2 0 * (calcChi2 env s).2.covinv 0 2
            * resid env (calcChi2 env s).2 2
          + resid env (calcChi2 env s).2 1 * (calcChi2 env s).2.covinv 1 1
            * resid env (calcChi2 env s).2 1
          + 2 * resid env (calcChi2 env s).2 1 * (calcChi2 env s).2.covinv 1 2
            * resid env (calcChi2 env s).2 2
          + resid env (calcChi2 env s).2 2 * (calcChi2 env s).2.covinv 2 2
            * resid env (calcChi2 env s).2 2 := by
      rw [hst] at hv ⊢
      unfold calcChi2
      cases hcv : s.covinvvalid
      · simp only [hcv, Bool.false_eq_true, if_false] at hv ⊢
        simp [hv]
      · simp [hcv]
    rw [hval]
    simp only [Finset.sum_range_succ, Finset.sum_range_zero, Nat.cast_zero, Nat.cast_one,
      Nat.cast_ofNat, zero_add]
    rw [hs 1 0 (by decide) (by decide), hs 2 0 (by decide) (by decide),
      hs 2 1 (by decide) (by decide)]
    ring

theorem calcChi2_is_quadratic_form_witness :
    ∃ r : Int → ℝ,
      r 0 = 3 ∧ r 1 = 0 ∧ r 2 = 5 - 2 * Real.pi ∧
      (calcChi2 ⟨Real.sqrt, Real.sin, Real.cos, Real.pi, 0, fun _ => none⟩
        { (blank : JetFitObject ℝ) with
          par := fun i => if i = 0 then 3 else if i = 1 then 1 else 5,
          measured := fun i => decide (i ≠ 1),
          covinv := fun i j => if i = j then 2 else 1,
          covinvvalid := true }).1
      = ∑ i ∈ Finset.range 3, ∑ j ∈ Finset.range 3,
          r i * (if (i : Int) = (j : Int) then 2 else 1) * r j := by
  have h := calcChi2_is_quadratic_form
    ⟨Real.sqrt, Real.sin, Real.cos, Real.pi, 0, fun _ => none⟩
    { (blank : JetFitObject ℝ) with
      par := fun i => if i = 0 then 3 else if i = 1 then 1 else 5,
      measured := fun i => decide (i ≠ 1),
      covinv := fun i j => if i = j then 2 else 1,
      covinvvalid := true }
    (by simp [calcChi2])
    (by intro i j _ _; simp [calcChi2, eq_comm])
  have h5 : Real.pi < 5 := by linarith [Real.pi_le_four]
  simpa [calcChi2, blank, h5] using h

/-- C6, the code at a failing input: for the massless object with `(E, theta, phi) =
(1, 0, 0)`, the symmetric positive definite covariance with unit diagonal and
`cov[0][1] = cov[1][0] = -3/4`, and the coefficients `der = (1, 1, 0, 0)`, `getError2`
returns `-1`, while the quadratic form of `J * cov * J^T` on the same cache is `1/2`. -/
theorem getError2_off_diagonal_doubled :
    ensureCache ⟨Real.sqrt, Real.sin, Real.cos, Real.pi, 0, fun _ => none⟩
        { (blank : JetFitObject ℝ) with
          par := fun i => if i = 0 then 1 else 0,
          cov := fun i j => if i = j then 1
            else if (i = 0 ∧ j = 1) ∨ (i = 1 ∧ j = 0) then -3 / 4 else 0 }
      = some (fillCache
        { (blank : JetFitObject ℝ) with
          par := fun i => if i = 0 then 1 else 0,
          cov := fun i j => if i = j then 1
            else if (i = 0 ∧ j = 1) ∨ (i = 1 ∧ j = 0) then -3 / 4 else 0 }
        (-1) 1 0 1 0 1 1 1) ∧
    getError2 ⟨Real.sqrt, Real.sin, Real.cos, Real.pi, 0, fun _ => none⟩
        (fun i => if i = 0 ∨ i = 1 then 1 else 0)
        { (blank : JetFitObject ℝ) with
          par := fun i => if i = 0 then 1 else 0,
          cov := fun i j => if i = j then 1
            else if (i = 0 ∧ j = 1) ∨ (i = 1 ∧ j = 0) then -3 / 4 else 0 } = some (-1) ∧
    propagatedError2
        (fillCache
          { (blank : JetFitObject ℝ) with
            par := fun i => if i = 0 then 1 else 0,
            cov := fun i j => if i = j then 1
              else if (i = 0 ∧ j = 1) ∨ (i = 1 ∧ j = 0) then -3 / 4 else 0 }
          (-1) 1 0 1 0 1 1 1)
        (fun i => if i = 0 ∨ i = 1 then 1 else 0) = 1 / 2 := by
  refine ⟨?_, ?_, ?_⟩
  · simp [ensureCache, updateCache, blank, calcChi2, calculateCovInv]
  · simp [getError2, ensureCache, updateCache, blank, calcChi2, calculateCovInv, fillCache,
      cov4]
    norm_num
  · simp [propagatedError2, jacobian, Finset.sum_range_succ, fillCache, blank]
    norm_num

/-! ## The cached kinematics and their derivatives -/

theorem updateCache_eq (env : Env ℝ) (hx : env.Exact) (s : JetFitObject ℝ)
    (h : s.mass > 0 → Real.sqrt |s.par 0 * s.par 0 - s.mass * s.mass| ≠ 0) :
    updateCache env s = some (fillCache (calcChi2 env s).2 (calcChi2 env s).1
      (Real.cos (s.par 1)) (Real.sin (s.par 1)) (Real.cos (s.par 2)) (Real.sin (s.par 2))
      (if s.mass > 0 then |s.par 0 * s.par 0 - s.mass * s.mass| else s.par 0 * s.par 0)
      (pmag Real.sqrt s.mass (s.par 0)) (dpmag Real.sqrt s.mass (s.par 0))) := by
  obtain ⟨h1, h2, h3, h4⟩ := hx
  obtain ⟨g1, -, g3, -⟩ := calcChi2_fields env s
  unfold updateCache
  simp only [g1, g3, h1, h2, h3, pmag, dpmag]
  by_cases hm : s.mass > 0
  · simp only [hm, if_true, h hm, ne_eq, not_false_eq_true]
  · simp only [hm, if_false]

theorem updateCache_none (env : Env ℝ) (hx : env.Exact) (s : JetFitObject ℝ)
    (hm : s.mass > 0) (h : Real.sqrt |s.par 0 * s.par 0 - s.mass * s.mass| = 0) :
    updateCache env s = none := by
  obtain ⟨h1, h2, h3, h4⟩ := hx
  obtain ⟨g1, -, g3, -⟩ := calcChi2_fields env s
  unfold updateCache
  simp only [g1, g3, h1, h2, h3, hm, if_true, h, ne_eq, not_true_eq_false, if_false]

theorem pxOf_eq (env : Env ℝ) (hx : env.Exact) (s : JetFitObject ℝ) :
    pxOf env s = pmag Real.sqrt s.mass (s.par 0) * Real.sin (s.par 1) * Real.cos (s.par 2) := by
  unfold pxOf
  by_cases h : s.mass > 0 ∧ Real.sqrt |s.par 0 * s.par 0 - s.mass * s.mass| = 0
  · rw [updateCache_none env hx s h.1 h.2]
    simp [pmag, h.1, h.2]
  · rw [updateCache_eq env hx s (fun hm hp => h ⟨hm, hp⟩)]
    rfl

theorem pyOf_eq (env : Env ℝ) (hx : env.Exact) (s : JetFitObject ℝ) :
    pyOf env s = pmag Real.sqrt s.mass (s.par 0) * Real.sin (s.par 1) * Real.sin (s.par 2) := by
  unfold pyOf
  by_cases h : s.mass > 0 ∧ Real.sqrt |s.par 0 * s.par 0 - s.mass * s.mass| = 0
  · rw [updateCache_none env hx s h.1 h.2]
    simp [pmag, h.1, h.2]
  · rw [updateCache_eq env hx s (fun hm hp => h ⟨hm, hp⟩)]
    rfl

theorem pzOf_eq (env : Env ℝ) (hx : env.Exact) (s : JetFitObject ℝ) :
    pzOf env s = pmag Real.sqrt s.mass (s.par 0) * Real.cos (s.par 1) := by
  unfold pzOf
  by_cases h : s.mass > 0 ∧ Real.sqrt |s.par 0 * s.par 0 - s.mass * s.mass| = 0
  · rw [updateCache_none env hx s h.1 h.2]
    simp [pmag, h.1, h.2]
  · rw [updateCache_eq env hx s (fun hm hp => h ⟨hm, hp⟩)]
    rfl

/-- Above the mass the square root in `updateCache` is taken of a positive number. -/
theorem radicand_pos (m e : ℝ) (hm : 0 ≤ m) (he : m < e) : 0 < e * e - m * m := by
  nlinarith

theorem sqrt_radicand_ne_zero (m e : ℝ) (hm : 0 ≤ m) (he : m < e) :
    Real.sqrt |e * e - m * m| ≠ 0 := by
  have h := radicand_pos m e hm he
  rw [abs_of_pos h]
  exact (Real.sqrt_pos.mpr h).ne'

theorem hasDerivAt_pmag (m e : ℝ) (hm : 0 ≤ m) (he : m < e ∨ m = 0) :
    HasDerivAt (pmag Real.sqrt m) (dpmag Real.sqrt m e) e := by
  by_cases hpos : m > 0
  · have hlt : m < e := by
      rcases he with h | h
      · exact h
      · exact absurd h hpos.ne'
    have hr := radicand_pos m e hm hlt
    have hfun : pmag Real.sqrt m = fun x => Real.sqrt |x * x - m * m| := by
      funext x; simp [pmag, hpos]
    rw [hfun]
    have h1 : HasDerivAt (fun x : ℝ => x * x - m * m) (e + e) e := by
      have := ((hasDerivAt_id e).mul (hasDerivAt_id e)).sub_const (m * m)
      simpa using this
    have h2 : HasDerivAt (fun x : ℝ => |x * x - m * m|) (e + e) e := by
      have := (hasDerivAt_abs_pos hr).comp e h1
      simpa using this
    have h3 := h2.sqrt (by rw [abs_of_pos hr]; exact hr.ne')
    have hval : dpmag Real.sqrt m e = (e + e) / (2 * Real.sqrt |e * e - m * m|) := by
      simp only [dpmag, hpos, if_true]
      have := sqrt_radicand_ne_zero m e hm hlt
      field_simp
      ring
    rw [hval]
    exact h3
  · have hfun : pmag Real.sqrt m = fun x => x := by
      funext x; simp [pmag, hpos]
    rw [hfun]
    simp only [dpmag, hpos, if_false]
    exact hasDerivAt_id e

theorem withPar_par (s : JetFitObject ℝ) (i : Int) (x : ℝ) (j : Int) :
    (withPar s i x).par j = if j = i then x else s.par j := by
  simp [withPar, Function.update_apply]

theorem withPar_mass (s : JetFitObject ℝ) (i : Int) (x : ℝ) : (withPar s i x).mass = s.mass :=
  rfl

/-- C2: with exact `<cmath>` functions, for `mass >= 0` and `E > mass` (or `mass = 0`) the
cache recomputation succeeds, and on the recomputed cache `getPx`, `getPy`, `getPz` return
`pt*cos(phi)`, `pt*sin(phi)`, `p*cos(theta)` and `getP`, `getPt` return `p`, `pt`, with
`pt = p*sin(theta)` and `p = sqrt(E^2 - mass^2)` (`p = E` when massless); for
`(E=50, theta=pi/2, phi=0, mass=0)` this gives `px=50`, `py=0`, `pz=0` and
`getDPx(0) = 1`. -/
theorem cache_matches_direct_computation (env : Env ℝ) (hx : env.Exact) :
    (∀ s : JetFitObject ℝ, 0 ≤ s.mass → (s.mass < s.par 0 ∨ s.mass = 0) →
      ∃ (c : JetFitObject ℝ) (p pt : ℝ), updateCache env s = some c ∧
        p = (if s.mass = 0 then s.par 0 else Real.sqrt (s.par 0 ^ 2 - s.mass ^ 2)) ∧
        pt = p * Real.sin (s.par 1) ∧
        getPx env c = some (pt * Real.cos (s.par 2)) ∧
        getPy env c = some (pt * Real.sin (s.par 2)) ∧
        getPz env c = some (p * Real.cos (s.par 1)) ∧
        getP env c = some p ∧ getPt env c = some pt) ∧
    (∀ s : JetFitObject ℝ, s.mass = 0 → s.par 0 = 50 → s.par 1 = Real.pi / 2 → s.par 2 = 0 →
      ∃ c : JetFitObject ℝ, updateCache env s = some c ∧
        getPx env c = some 50 ∧ getPy env c = some 0 ∧ getPz env c = some 0 ∧
        getDPx env 0 c = some 1) := by
  constructor
  · intro s hm hE
    have hne : s.mass > 0 → Real.sqrt |s.par 0 * s.par 0 - s.mass * s.mass| ≠ 0 := by
      intro hpos
      rcases hE with h | h
      · exact sqrt_radicand_ne_zero _ _ hm h
      · exact absurd h hpos.ne'
    have hp : pmag Real.sqrt s.mass (s.par 0)
        = (if s.mass = 0 then s.par 0 else Real.sqrt (s.par 0 ^ 2 - s.mass ^ 2)) := by
      by_cases h0 : s.mass = 0
      · simp [pmag, h0]
      · have hpos : s.mass > 0 := lt_of_le_of_ne hm (Ne.symm h0)
        have hlt : s.mass < s.par 0 := by
          rcases hE with h | h
          · exact h
          · exact absurd h h0
        have hr := radicand_pos _ _ hm hlt
        simp only [pmag, hpos, if_true, h0, if_false, abs_of_pos hr]
        congr 1
        ring
    refine ⟨_, _, _, updateCache_eq env hx s hne, rfl, rfl, ?_, ?_, ?_, ?_, ?_⟩ <;>
      simp [getPx, getPy, getPz, getP, getPt, ensureCache, fillCache, hp]
  · intro s hm h0 h1 h2
    have hne : s.mass > 0 → Real.sqrt |s.par 0 * s.par 0 - s.mass * s.mass| ≠ 0 := by
      intro hpos
      rw [hm] at hpos
      exact absurd hpos (lt_irrefl 0)
    refine ⟨_, updateCache_eq env hx s hne, ?_, ?_, ?_, ?_⟩ <;>
      simp [getPx, getPy, getPz, getDPx, NPAR, ensureCache, fillCache, pmag, dpmag, hm, h0, h1,
        h2]

theorem cache_matches_direct_computation_witness :
    (⟨Real.sqrt, Real.sin, Real.cos, Real.pi, 0, fun _ => none⟩ : Env ℝ).Exact ∧
    (0 : ℝ) ≤ (withPar (withPar blank 0 5) 1 2 : JetFitObject ℝ).mass ∧
    ∃ (c : JetFitObject ℝ) (p pt : ℝ),
      updateCache ⟨Real.sqrt, Real.sin, Real.cos, Real.pi, 0, fun _ => none⟩
        (withPar (withPar blank 0 5) 1 2) = some c ∧
      p = (if (withPar (withPar blank 0 5) 1 2 : JetFitObject ℝ).mass = 0
        then (withPar (withPar blank 0 5) 1 2 : JetFitObject ℝ).par 0
        else Real.sqrt ((withPar (withPar blank 0 5) 1 2 : JetFitObject ℝ).par 0 ^ 2
          - (withPar (withPar blank 0 5) 1 2 : JetFitObject ℝ).mass ^ 2)) ∧
      pt = p * Real.sin ((withPar (withPar blank 0 5) 1 2 : JetFitObject ℝ).par 1) ∧
      getPx ⟨Real.sqrt, Real.sin, Real.cos, Real.pi, 0, fun _ => none⟩ c
        = some (pt * Real.cos ((withPar (withPar blank 0 5) 1 2 : JetFitObject ℝ).par 2)) ∧
      getPy ⟨Real.sqrt, Real.sin, Real.cos, Real.pi, 0, fun _ => none⟩ c
        = some (pt * Real.sin ((withPar (withPar blank 0 5) 1 2 : JetFitObject ℝ).par 2)) ∧
      getPz ⟨Real.sqrt, Real.sin, Real.cos, Real.pi, 0, fun _ => none⟩ c
        = some (p * Real.cos ((withPar (withPar blank 0 5) 1 2 : JetFitObject ℝ).par 1)) ∧
      getP ⟨Real.sqrt, Real.sin, Real.cos, Real.pi, 0, fun _ => none⟩ c = some p ∧
      getPt ⟨Real.sqrt, Real.sin, Real.cos, Real.pi, 0, fun _ => none⟩ c = some pt :=
  ⟨⟨rfl, rfl, rfl, rfl⟩, le_refl _,
    (cache_matches_direct_computation
      ⟨Real.sqrt, Real.sin, Real.cos, Real.pi, 0, fun _ => none⟩ ⟨rfl, rfl, rfl, rfl⟩).1
      (withPar (withPar blank 0 5) 1 2) (le_refl _) (Or.inr rfl)⟩

/-- C1: with exact `<cmath>` functions, for `mass >= 0` and `E > mass` (any `E` when
`mass = 0`) the cache recomputation succeeds, and for `i = 0, 1, 2` the values that
`getDPx(i)`, `getDPy(i)`, `getDPz(i)`, `getDE(i)` return on the recomputed cache are the
derivatives, at the current value of parameter `i` (`E`, `theta`, `phi`), of the `px`,
`py`, `pz` that `updateCache` computes and of the `E` that `getE` returns, taken as functions
of parameter `i` with the other two parameters held. -/
theorem getD_are_partial_derivatives (env : Env ℝ) (hx : env.Exact) (s : JetFitObject ℝ)
    (hm : 0 ≤ s.mass) (hE : s.mass < s.par 0 ∨ s.mass = 0) :
    ∃ c : JetFitObject ℝ, updateCache env s = some c ∧
      ∀ i : Int, i = 0 ∨ i = 1 ∨ i = 2 →
        ∃ dx dy dz de : ℝ,
          getDPx env i c = some dx ∧ getDPy env i c = some dy ∧
          getDPz env i c = some dz ∧ getDE i c = some de ∧
          HasDerivAt (fun x => pxOf env (withPar s i x)) dx (s.par i) ∧
          HasDerivAt (fun x => pyOf env (withPar s i x)) dy (s.par i) ∧
          HasDerivAt (fun x => pzOf env (withPar s i x)) dz (s.par i) ∧
          HasDerivAt (fun x => getE (withPar s i x)) de (s.par i) := by
  have hne : s.mass > 0 → Real.sqrt |s.par 0 * s.par 0 - s.mass * s.mass| ≠ 0 := by
    intro hpos
    rcases hE with h | h
    · exact sqrt_radicand_ne_zero _ _ hm h
    · exact absurd h hpos.ne'
  have hP := hasDerivAt_pmag s.mass (s.par 0) hm hE
  refine ⟨_, updateCache_eq env hx s hne, ?_⟩
  rintro i (rfl | rfl | rfl)
  · refine ⟨dpmag Real.sqrt s.mass (s.par 0) * Real.sin (s.par 1) * Real.cos (s.par 2),
      dpmag Real.sqrt s.mass (s.par 0) * Real.sin (s.par 1) * Real.sin (s.par 2),
      dpmag Real.sqrt s.mass (s.par 0) * Real.cos (s.par 1), 1,
      by simp [getDPx, NPAR, ensureCache, fillCache],
      by simp [getDPy, NPAR, ensureCache, fillCache],
      by simp [getDPz, NPAR, ensureCache, fillCache],
      by simp [getDE, NPAR], ?_, ?_, ?_, ?_⟩
    · have hf : (fun x => pxOf env (withPar s 0 x)) = fun x =>
          pmag Real.sqrt s.mass x * Real.sin (s.par 1) * Real.cos (s.par 2) := by
        funext x; rw [pxOf_eq env hx]; simp [withPar_par, withPar_mass]
      rw [hf]
      exact (hP.mul_const _).mul_const _
    · have hf : (fun x => pyOf env (withPar s 0 x)) = fun x =>
          pmag Real.sqrt s.mass x * Real.sin (s.par 1) * Real.sin (s.par 2) := by
        funext x; rw [pyOf_eq env hx]; simp [withPar_par, withPar_mass]
      rw [hf]
      exact (hP.mul_const _).mul_const _
    · have hf : (fun x => pzOf env (withPar s 0 x)) = fun x =>
          pmag Real.sqrt s.mass x * Real.cos (s.par 1) := by
        funext x; rw [pzOf_eq env hx]; simp [withPar_par, withPar_mass]
      rw [hf]
      exact hP.mul_const _
    · have hf : (fun x => getE (withPar s 0 x)) = fun x => x := by
        funext x; simp [getE, withPar_par]
      rw [hf]
      exact hasDerivAt_id _
  · refine ⟨pmag Real.sqrt s.mass (s.par 0) * Real.cos (s.par 1) * Real.cos (s.par 2),
      pmag Real.sqrt s.mass (s.par 0) * Real.cos (s.par 1) * Real.sin (s.par 2),
      -(pmag Real.sqrt s.mass (s.par 0) * Real.sin (s.par 1)), 0,
      by simp [getDPx, NPAR, ensureCache, fillCache],
      by simp [getDPy, NPAR, ensureCache, fillCache],
      by simp [getDPz, NPAR, ensureCache, fillCache],
      by simp [getDE, NPAR], ?_, ?_, ?_, ?_⟩
    · have hf : (fun x => pxOf env (withPar s 1 x)) = fun x =>
          pmag Real.sqrt s.mass (s.par 0) * Real.sin x * Real.cos (s.par 2) := by
        funext x; rw [pxOf_eq env hx]; simp [withPar_par, withPar_mass]
      rw [hf]
      exact ((Real.hasDerivAt_sin _).const_mul _).mul_const _
    · have hf : (fun x => pyOf env (withPar s 1 x)) = fun x =>
          pmag Real.sqrt s.mass (s.par 0) * Real.sin x * Real.sin (s.par 2) := by
        funext x; rw [pyOf_eq env hx]; simp [withPar_par, withPar_mass]
      rw [hf]
      exact ((Real.hasDerivAt_sin _).const_mul _).mul_const _
    · have hf : (fun x => pzOf env (withPar s 1 x)) = fun x =>
          pmag Real.sqrt s.mass (s.par 0) * Real.cos x := by
        funext x; rw [pzOf_eq env hx]; simp [withPar_par, withPar_mass]
      rw [hf]
      have h := (Real.hasDerivAt_cos (s.par 1)).const_mul (pmag Real.sqrt s.mass (s.par 0))
      convert h using 1
      ring
    · have hf : (fun x => getE (withPar s 1 x)) = fun _ => s.par 0 := by
        funext x; simp [getE, withPar_par]
      rw [hf]
      exact hasDerivAt_const _ _
  · refine ⟨-(pmag Real.sqrt s.mass (s.par 0) * Real.sin (s.par 1) * Real.sin (s.par 2)),
      pmag Real.sqrt s.mass (s.par 0) * Real.sin (s.par 1) * Real.cos (s.par 2), 0, 0,
      by simp [getDPx, NPAR, ensureCache, fillCache],
      by simp [getDPy, NPAR, ensureCache, fillCache],
      by simp [getDPz, NPAR, ensureCache, fillCache],
      by simp [getDE, NPAR], ?_, ?_, ?_, ?_⟩
    · have hf : (fun x => pxOf env (withPar s 2 x)) = fun x =>
          pmag Real.sqrt s.mass (s.par 0) * Real.sin (s.par 1) * Real.cos x := by
        funext x; rw [pxOf_eq env hx]; simp [withPar_par, withPar_mass]
      rw [hf]
      have h := (Real.hasDerivAt_cos (s.par 2)).const_mul
        (pmag Real.sqrt s.mass (s.par 0) * Real.sin (s.par 1))
      convert h using 1
      ring
    · have hf : (fun x => pyOf env (withPar s 2 x)) = fun x =>
          pmag Real.sqrt s.mass (s.par 0) * Real.sin (s.par 1) * Real.sin x := by
        funext x; rw [pyOf_eq env hx]; simp [withPar_par, withPar_mass]
      rw [hf]
      exact (Real.hasDerivAt_sin _).const_mul _
    · have hf : (fun x => pzOf env (withPar s 2 x)) = fun _ =>
          pmag Real.sqrt s.mass (s.par 0) * Real.cos (s.par 1) := by
        funext x; rw [pzOf_eq env hx]; simp [withPar_par, withPar_mass]
      rw [hf]
      exact hasDerivAt_const _ _
    · have hf : (fun x => getE (withPar s 2 x)) = fun _ => s.par 0 := by
        funext x; simp [getE, withPar_par]
      rw [hf]
      exact hasDerivAt_const _ _

theorem getD_are_partial_derivatives_witness :
    (⟨Real.sqrt, Real.sin, Real.cos, Real.pi, 0, fun _ => none⟩ : Env ℝ).Exact ∧
    (0 : ℝ) ≤ (sample : JetFitObject ℝ).mass ∧
    (sample : JetFitObject ℝ).mass < (sample : JetFitObject ℝ).par 0 ∧
    ∃ c : JetFitObject ℝ,
      updateCache ⟨Real.sqrt, Real.sin, Real.cos, Real.pi, 0, fun _ => none⟩ sample = some c ∧
      ∀ i : Int, i = 0 ∨ i = 1 ∨ i = 2 →
        ∃ dx dy dz de : ℝ,
          getDPx ⟨Real.sqrt, Real.sin, Real.cos, Real.pi, 0, fun _ => none⟩ i c = some dx ∧
          getDPy ⟨Real.sqrt, Real.sin, Real.cos, Real.pi, 0, fun _ => none⟩ i c = some dy ∧
          getDPz ⟨Real.sqrt, Real.sin, Real.cos, Real.pi, 0, fun _ => none⟩ i c = some dz ∧
          getDE i c = some de ∧
          HasDerivAt (fun x => pxOf ⟨Real.sqrt, Real.sin, Real.cos, Real.pi, 0, fun _ => none⟩
            (withPar sample i x)) dx ((sample : JetFitObject ℝ).par i) ∧
          HasDerivAt (fun x => pyOf ⟨Real.sqrt, Real.sin, Real.cos, Real.pi, 0, fun _ => none⟩
            (withPar sample i x)) dy ((sample : JetFitObject ℝ).par i) ∧
          HasDerivAt (fun x => pzOf ⟨Real.sqrt, Real.sin, Real.cos, Real.pi, 0, fun _ => none⟩
            (withPar sample i x)) dz ((sample : JetFitObject ℝ).par i) ∧
          HasDerivAt (fun x => getE (withPar (sample : JetFitObject ℝ) i x)) de
            ((sample : JetFitObject ℝ).par i) :=
  ⟨⟨rfl, rfl, rfl, rfl⟩, by simp [sample], by simp [sample]; norm_num,
    getD_are_partial_derivatives ⟨Real.sqrt, Real.sin, Real.cos, Real.pi, 0, fun _ => none⟩
      ⟨rfl, rfl, rfl, rfl⟩ sample (by simp [sample])
      (Or.inl (by simp [sample]; norm_num))⟩

/-! ## Second derivatives -/

theorem momentumForm_eq (env : Env ℝ) (hx : env.Exact) (e kx ky kz : ℝ) (t : JetFitObject ℝ) :
    momentumForm env e kx ky kz t = e * t.par 0 + pmag Real.sqrt t.mass (t.par 0) *
      (kx * (Real.sin (t.par 1) * Real.cos (t.par 2))
        + ky * (Real.sin (t.par 1) * Real.sin (t.par 2)) + kz * Real.cos (t.par 1)) := by
  unfold momentumForm
  rw [pxOf_eq env hx, pyOf_eq env hx, pzOf_eq env hx]
  simp only [getE]
  ring

theorem hasDerivAt_angular_theta (kx ky kz th ph : ℝ) :
    HasDerivAt (fun x => kx * (Real.sin x * Real.cos ph) + ky * (Real.sin x * Real.sin ph)
        + kz * Real.cos x)
      (kx * (Real.cos th * Real.cos ph) + ky * (Real.cos th * Real.sin ph) - kz * Real.sin th)
      th := by
  have h := ((((Real.hasDerivAt_sin th).mul_const (Real.cos ph)).const_mul kx).add
    (((Real.hasDerivAt_sin th).mul_const (Real.sin ph)).const_mul ky)).add
    ((Real.hasDerivAt_cos th).const_mul kz)
  convert h using 1
  ring

theorem hasDerivAt_angular_phi (kx ky kz th ph : ℝ) :
    HasDerivAt (fun x => kx * (Real.sin th * Real.cos x) + ky * (Real.sin th * Real.sin x)
        + kz * Real.cos th)
      (-kx * (Real.sin th * Real.sin ph) + ky * (Real.sin th * Real.cos ph)) ph := by
  have h := ((((Real.hasDerivAt_cos ph).const_mul (Real.sin th)).const_mul kx).add
    (((Real.hasDerivAt_sin ph).const_mul (Real.sin th)).const_mul ky)).add_const
    (kz * Real.cos th)
  convert h using 1
  ring

theorem hasDerivAt_angular_theta_theta (kx ky kz th ph : ℝ) :
    HasDerivAt (fun x => kx * (Real.cos x * Real.cos ph) + ky * (Real.cos x * Real.sin ph)
        - kz * Real.sin x)
      (-(kx * (Real.sin th * Real.cos ph) + ky * (Real.sin th * Real.sin ph)
        + kz * Real.cos th)) th := by
  have h := ((((Real.hasDerivAt_cos th).mul_const (Real.cos ph)).const_mul kx).add
    (((Real.hasDerivAt_cos th).mul_const (Real.sin ph)).const_mul ky)).sub
    ((Real.hasDerivAt_sin th).const_mul kz)
  convert h using 1
  ring

theorem hasDerivAt_angular_theta_phi (kx ky kz th ph : ℝ) :
    HasDerivAt (fun x => kx * (Real.cos th * Real.cos x) + ky * (Real.cos th * Real.sin x)
        - kz * Real.sin th)
      (-kx * (Real.cos th * Real.sin ph) + ky * (Real.cos th * Real.cos ph)) ph := by
  have h := ((((Real.hasDerivAt_cos ph).const_mul (Real.cos th)).const_mul kx).add
    (((Real.hasDerivAt_sin ph).const_mul (Real.cos th)).const_mul ky)).sub_const
    (kz * Real.sin th)
  convert h using 1
  ring

theorem hasDerivAt_angular_phi_theta (kx ky th ph : ℝ) :
    HasDerivAt (fun x => -kx * (Real.sin x * Real.sin ph) + ky * (Real.sin x * Real.cos ph))
      (-kx * (Real.cos th * Real.sin ph) + ky * (Real.cos th * Real.cos ph)) th := by
  have h := (((Real.hasDerivAt_sin th).mul_const (Real.sin ph)).const_mul (-kx)).add
    (((Real.hasDerivAt_sin th).mul_const (Real.cos ph)).const_mul ky)
  convert h using 1

theorem hasDerivAt_angular_phi_phi (kx ky th ph : ℝ) :
    HasDerivAt (fun x => -kx * (Real.sin th * Real.sin x) + ky * (Real.sin th * Real.cos x))
      (-(kx * (Real.sin th * Real.cos ph) + ky * (Real.sin th * Real.sin ph))) ph := by
  have h := (((Real.hasDerivAt_sin ph).const_mul (Real.sin th)).const_mul (-kx)).add
    (((Real.hasDerivAt_cos ph).const_mul (Real.sin th)).const_mul ky)
  convert h using 1
  ring

/-- The second derivative of the momentum magnitude: `-mass^2/p^3` above the mass
threshold, `0` for a massless object. -/
theorem hasDerivAt_dpmag (m e : ℝ) (hm : 0 ≤ m) (he : m < e ∨ m = 0) :
    HasDerivAt (dpmag Real.sqrt m)
      (if m ≠ 0 then -m * m / (pmag Real.sqrt m e * pmag Real.sqrt m e * pmag Real.sqrt m e)
        else 0) e := by
  by_cases hpos : m > 0
  · have hlt : m < e := by
      rcases he with h | h
      · exact h
      · exact absurd h hpos.ne'
    have hr := radicand_pos m e hm hlt
    have hP := hasDerivAt_pmag m e hm he
    have hpe : pmag Real.sqrt m e = Real.sqrt |e * e - m * m| := by simp [pmag, hpos]
    have hp0 : pmag Real.sqrt m e ≠ 0 := by
      rw [hpe]; exact sqrt_radicand_ne_zero m e hm hlt
    have hp2 : pmag Real.sqrt m e * pmag Real.sqrt m e = e * e - m * m := by
      rw [hpe, abs_of_pos hr]
      exact Real.mul_self_sqrt hr.le
    have hfun : dpmag Real.sqrt m = fun x => x / pmag Real.sqrt m x := by
      funext x; simp [dpmag, pmag, hpos]
    have hd : dpmag Real.sqrt m e = e / pmag Real.sqrt m e := by rw [hfun]
    have h := (hasDerivAt_id e).div hP hp0
    rw [hfun]
    convert h using 1
    simp only [hpos.ne', ne_eq, not_false_eq_true, if_true, id, hd]
    field_simp
    linear_combination (-(pmag Real.sqrt m e) ^ 3) * hp2
  · have hm0 : m = 0 := le_antisymm (not_lt.mp hpos) hm
    have hfun : dpmag Real.sqrt m = fun _ => 1 := by
      funext x; simp [dpmag, hpos]
    rw [hfun]
    simp only [hm0, ne_eq, not_true_eq_false, if_false]
    exact hasDerivAt_const _ _

theorem der2nd_fillCache (t : JetFitObject ℝ) (chi2 ct st cp sp p2 p dp kx ky kz : ℝ) :
    der2nd (fillCache t chi2 ct st cp sp p2 p dp) kx ky kz =
      ⟨(if t.mass ≠ 0 then -t.mass * t.mass / (p * p * p) else 0)
          * (kx * (st * cp) + ky * (st * sp) + kz * ct),
        dp * (kx * (ct * cp) + ky * (ct * sp) - kz * st),
        dp * (-kx * (st * sp) + ky * (st * cp)),
        p * -(kx * (st * cp) + ky * (st * sp) + kz * ct),
        p * (-kx * (ct * sp) + ky * (ct * cp)),
        p * -(kx * (st * cp) + ky * (st * sp))⟩ := by
  unfold der2nd fillCache
  by_cases h1 : kx = 0 <;> by_cases h2 : ky = 0 <;> by_cases h3 : kz = 0 <;>
    simp only [h1, h2, h3, ne_eq, not_true_eq_false, not_false_eq_true, if_true, if_false] <;>
    congr 1 <;> ring

theorem hasDerivAt_form_E (m e kx ky kz E th ph : ℝ) (hm : 0 ≤ m) (hE : m < E ∨ m = 0) :
    HasDerivAt (fun y => e * y + pmag Real.sqrt m y *
        (kx * (Real.sin th * Real.cos ph) + ky * (Real.sin th * Real.sin ph)
          + kz * Real.cos th))
      (e + dpmag Real.sqrt m E *
        (kx * (Real.sin th * Real.cos ph) + ky * (Real.sin th * Real.sin ph)
          + kz * Real.cos th)) E := by
  have h := ((hasDerivAt_id E).const_mul e).add ((hasDerivAt_pmag m E hm hE).mul_const
    (kx * (Real.sin th * Real.cos ph) + ky * (Real.sin th * Real.sin ph) + kz * Real.cos th))
  convert h using 1
  simp

theorem hasDerivAt_form_theta (c0 P kx ky kz th ph : ℝ) :
    HasDerivAt (fun y => c0 + P *
        (kx * (Real.sin y * Real.cos ph) + ky * (Real.sin y * Real.sin ph) + kz * Real.cos y))
      (P * (kx * (Real.cos th * Real.cos ph) + ky * (Real.cos th * Real.sin ph)
        - kz * Real.sin th)) th :=
  ((hasDerivAt_angular_theta kx ky kz th ph).const_mul P).const_add c0

theorem hasDerivAt_form_phi (c0 P kx ky kz th ph : ℝ) :
    HasDerivAt (fun y => c0 + P *
        (kx * (Real.sin th * Real.cos y) + ky * (Real.sin th * Real.sin y) + kz * Real.cos th))
      (P * (-kx * (Real.sin th * Real.sin ph) + ky * (Real.sin th * Real.cos ph))) ph :=
  ((hasDerivAt_angular_phi kx ky kz th ph).const_mul P).const_add c0

theorem momentumForm_withPar (env : Env ℝ) (hx : env.Exact) (e kx ky kz : ℝ)
    (s : JetFitObject ℝ) (a b : Int) (x y : ℝ) :
    momentumForm env e kx ky kz (withPar (withPar s a x) b y) =
      e * (if (0 : Int) = b then y else if (0 : Int) = a then x else s.par 0)
      + pmag Real.sqrt s.mass (if (0 : Int) = b then y else if (0 : Int) = a then x else s.par 0)
        * (kx * (Real.sin (if (1 : Int) = b then y else if (1 : Int) = a then x else s.par 1)
              * Real.cos (if (2 : Int) = b then y else if (2 : Int) = a then x else s.par 2))
          + ky * (Real.sin (if (1 : Int) = b then y else if (1 : Int) = a then x else s.par 1)
              * Real.sin (if (2 : Int) = b then y else if (2 : Int) = a then x else s.par 2))
          + kz * Real.cos (if (1 : Int) = b then y else if (1 : Int) = a then x
              else s.par 1)) := by
  rw [momentumForm_eq env hx]
  simp only [withPar_par, withPar_mass]

/-- The six accumulators of `addTo2ndDerivatives` are the second partial derivatives of
`momentumForm`: the outer derivative is taken in parameter `a` at its current value, the
inner one in parameter `b`. -/
theorem der2nd_second_partials (env : Env ℝ) (hx : env.Exact) (s c : JetFitObject ℝ)
    (e kx ky kz : ℝ) (hm : 0 ≤ s.mass) (hE : s.mass < s.par 0 ∨ s.mass = 0)
    (hc : updateCache env s = some c) :
    HasDerivAt (fun x => deriv (fun y => momentumForm env e kx ky kz
        (withPar (withPar s 0 x) 0 y)) ((withPar s 0 x).par 0))
      (der2nd c kx ky kz).der_EE (s.par 0) ∧
    HasDerivAt (fun x => deriv (fun y => momentumForm env e kx ky kz
        (withPar (withPar s 0 x) 1 y)) ((withPar s 0 x).par 1))
      (der2nd c kx ky kz).der_Eth (s.par 0) ∧
    HasDerivAt (fun x => deriv (fun y => momentumForm env e kx ky kz
        (withPar (withPar s 0 x) 2 y)) ((withPar s 0 x).par 2))
      (der2nd c kx ky kz).der_Eph (s.par 0) ∧
    HasDerivAt (fun x => deriv (fun y => momentumForm env e kx ky kz
        (withPar (withPar s 1 x) 0 y)) ((withPar s 1 x).par 0))
      (der2nd c kx ky kz).der_Eth (s.par 1) ∧
    HasDerivAt (fun x => deriv (fun y => momentumForm env e kx ky kz
        (withPar (withPar s 1 x) 1 y)) ((withPar s 1 x).par 1))
      (der2nd c kx ky kz).der_thth (s.par 1) ∧
    HasDerivAt (fun x => deriv (fun y => momentumForm env e kx ky kz
        (withPar (withPar s 1 x) 2 y)) ((withPar s 1 x).par 2))
      (der2nd c kx ky kz).der_thph (s.par 1) ∧
    HasDerivAt (fun x => deriv (fun y => momentumForm env e kx ky kz
        (withPar (withPar s 2 x) 0 y)) ((withPar s 2 x).par 0))
      (der2nd c kx ky kz).der_Eph (s.par 2) ∧
    HasDerivAt (fun x => deriv (fun y => momentumForm env e kx ky kz
        (withPar (withPar s 2 x) 1 y)) ((withPar s 2 x).par 1))
      (der2nd c kx ky kz).der_thph (s.par 2) ∧
    HasDerivAt (fun x => deriv (fun y => momentumForm env e kx ky kz
        (withPar (withPar s 2 x) 2 y)) ((withPar s 2 x).par 2))
      (der2nd c kx ky kz).der_phph (s.par 2) := by
  have hne : s.mass > 0 → Real.sqrt |s.par 0 * s.par 0 - s.mass * s.mass| ≠ 0 := by
    intro hpos
    rcases hE with h | h
    · exact sqrt_radicand_ne_zero _ _ hm h
    · exact absurd h hpos.ne'
  obtain ⟨-, -, g3, -⟩ := calcChi2_fields env s
  rw [updateCache_eq env hx s hne, Option.some.injEq] at hc
  subst hc
  rw [der2nd_fillCache, g3]
  have hP := hasDerivAt_pmag s.mass (s.par 0) hm hE
  have hdP := hasDerivAt_dpmag s.mass (s.par 0) hm hE
  refine ⟨?_, ?_, ?_, ?_, ?_, ?_, ?_, ?_, ?_⟩
  · have hev : (fun x => deriv (fun y => momentumForm env e kx ky kz
          (withPar (withPar s 0 x) 0 y)) ((withPar s 0 x).par 0)) =ᶠ[nhds (s.par 0)]
        fun x => e + dpmag Real.sqrt s.mass x *
          (kx * (Real.sin (s.par 1) * Real.cos (s.par 2))
            + ky * (Real.sin (s.par 1) * Real.sin (s.par 2)) + kz * Real.cos (s.par 1)) := by
      have hopen : ∀ᶠ x in nhds (s.par 0), s.mass < x ∨ s.mass = 0 := by
        rcases hE with h | h
        · exact (lt_mem_nhds h).mono (fun x hxx => Or.inl hxx)
        · exact Filter.Eventually.of_forall (fun _ => Or.inr h)
      filter_upwards [hopen] with x hxx
      have h1 : (fun y => momentumForm env e kx ky kz (withPar (withPar s 0 x) 0 y)) =
          fun y => e * y + pmag Real.sqrt s.mass y *
            (kx * (Real.sin (s.par 1) * Real.cos (s.par 2))
              + ky * (Real.sin (s.par 1) * Real.sin (s.par 2))
              + kz * Real.cos (s.par 1)) := by
        funext y; rw [momentumForm_withPar env hx]; simp
      have h2 : (withPar s 0 x).par 0 = x := by simp [withPar_par]
      rw [h1, h2]
      exact (hasDerivAt_form_E s.mass e kx ky kz x (s.par 1) (s.par 2) hm hxx).deriv
    exact ((hdP.mul_const _).const_add e).congr_of_eventuallyEq hev
  · have hf : (fun x => deriv (fun y => momentumForm env e kx ky kz
          (withPar (withPar s 0 x) 1 y)) ((withPar s 0 x).par 1)) =
        fun x => pmag Real.sqrt s.mass x *
          (kx * (Real.cos (s.par 1) * Real.cos (s.par 2))
            + ky * (Real.cos (s.par 1) * Real.sin (s.par 2)) - kz * Real.sin (s.par 1)) := by
      funext x
      have h1 : (fun y => momentumForm env e kx ky kz (withPar (withPar s 0 x) 1 y)) =
          fun y => e * x + pmag Real.sqrt s.mass x *
            (kx * (Real.sin y * Real.cos (s.par 2))
              + ky * (Real.sin y * Real.sin (s.par 2)) + kz * Real.cos y) := by
        funext y; rw [momentumForm_withPar env hx]; simp
      have h2 : (withPar s 0 x).par 1 = s.par 1 := by simp [withPar_par]
      rw [h1, h2]
      exact (hasDerivAt_form_theta _ _ kx ky kz (s.par 1) (s.par 2)).deriv
    rw [hf]
    exact hP.mul_const _
  · have hf : (fun x => deriv (fun y => momentumForm env e kx ky kz
          (withPar (withPar s 0 x) 2 y)) ((withPar s 0 x).par 2)) =
        fun x => pmag Real.sqrt s.mass x *
          (-kx * (Real.sin (s.par 1) * Real.sin (s.par 2))
            + ky * (Real.sin (s.par 1) * Real.cos (s.par 2))) := by
      funext x
      have h1 : (fun y => momentumForm env e kx ky kz (withPar (withPar s 0 x) 2 y)) =
          fun y => e * x + pmag Real.sqrt s.mass x *
            (kx * (Real.sin (s.par 1) * Real.cos y)
              + ky * (Real.sin (s.par 1) * Real.sin y) + kz * Real.cos (s.par 1)) := by
        funext y; rw [momentumForm_withPar env hx]; simp
      have h2 : (withPar s 0 x).par 2 = s.par 2 := by simp [withPar_par]
      rw [h1, h2]
      exact (hasDerivAt_form_phi _ _ kx ky kz (s.par 1) (s.par 2)).deriv
    rw [hf]
    exact hP.mul_const _
  · have hf : (fun x => deriv (fun y => momentumForm env e kx ky kz
          (withPar (withPar s 1 x) 0 y)) ((withPar s 1 x).par 0)) =
        fun x => e + dpmag Real.sqrt s.mass (s.par 0) *
          (kx * (Real.sin x * Real.cos (s.par 2))
            + ky * (Real.sin x * Real.sin (s.par 2)) + kz * Real.cos x) := by
      funext x
      have h1 : (fun y => momentumForm env e kx ky kz (withPar (withPar s 1 x) 0 y)) =
          fun y => e * y + pmag Real.sqrt s.mass y *
            (kx * (Real.sin x * Real.cos (s.par 2))
              + ky * (Real.sin x * Real.sin (s.par 2)) + kz * Real.cos x) := by
        funext y; rw [momentumForm_withPar env hx]; simp
      have h2 : (withPar s 1 x).par 0 = s.par 0 := by simp [withPar_par]
      rw [h1, h2]
      exact (hasDerivAt_form_E s.mass e kx ky kz (s.par 0) x (s.par 2) hm hE).deriv
    rw [hf]
    exact ((hasDerivAt_angular_theta kx ky kz (s.par 1) (s.par 2)).const_mul _).const_add e
  · have hf : (fun x => deriv (fun y => momentumForm env e kx ky kz
          (withPar (withPar s 1 x) 1 y)) ((withPar s 1 x).par 1)) =
        fun x => pmag Real.sqrt s.mass (s.par 0) *
          (kx * (Real.cos x * Real.cos (s.par 2))
            + ky * (Real.cos x * Real.sin (s.par 2)) - kz * Real.sin x) := by
      funext x
      have h1 : (fun y => momentumForm env e kx ky kz (withPar (withPar s 1 x) 1 y)) =
          fun y => e * s.par 0 + pmag Real.sqrt s.mass (s.par 0) *
            (kx * (Real.sin y * Real.cos (s.par 2))
              + ky * (Real.sin y * Real.sin (s.par 2)) + kz * Real.cos y) := by
        funext y; rw [momentumForm_withPar env hx]; simp
      have h2 : (withPar s 1 x).par 1 = x := by simp [withPar_par]
      rw [h1, h2]
      exact (hasDerivAt_form_theta _ _ kx ky kz x (s.par 2)).deriv
    rw [hf]
    exact (hasDerivAt_angular_theta_theta kx ky kz (s.par 1) (s.par 2)).const_mul _
  · have hf : (fun x => deriv (fun y => momentumForm env e kx ky kz
          (withPar (withPar s 1 x) 2 y)) ((withPar s 1 x).par 2)) =
        fun x => pmag Real.sqrt s.mass (s.par 0) *
          (-kx * (Real.sin x * Real.sin (s.par 2))
            + ky * (Real.sin x * Real.cos (s.par 2))) := by
      funext x
      have h1 : (fun y => momentumForm env e kx ky kz (withPar (withPar s 1 x) 2 y)) =
          fun y => e * s.par 0 + pmag Real.sqrt s.mass (s.par 0) *
            (kx * (Real.sin x * Real.cos y)
              + ky * (Real.sin x * Real.sin y) + kz * Real.cos x) := by
        funext y; rw [momentumForm_withPar env hx]; simp
      have h2 : (withPar s 1 x).par 2 = s.par 2 := by simp [withPar_par]
      rw [h1, h2]
      exact (hasDerivAt_form_phi _ _ kx ky kz x (s.par 2)).deriv
    rw [hf]
    exact (hasDerivAt_angular_phi_theta kx ky (s.par 1) (s.par 2)).const_mul _
  · have hf : (fun x => deriv (fun y => momentumForm env e kx ky kz
          (withPar (withPar s 2 x) 0 y)) ((withPar s 2 x).par 0)) =
        fun x => e + dpmag Real.sqrt s.mass (s.par 0) *
          (kx * (Real.sin (s.par 1) * Real.cos x)
            + ky * (Real.sin (s.par 1) * Real.sin x) + kz * Real.cos (s.par 1)) := by
      funext x
      have h1 : (fun y => momentumForm env e kx ky kz (withPar (withPar s 2 x) 0 y)) =
          fun y => e * y + pmag Real.sqrt s.mass y *
            (kx * (Real.sin (s.par 1) * Real.cos x)
              + ky * (Real.sin (s.par 1) * Real.sin x) + kz * Real.cos (s.par 1)) := by
        funext y; rw [momentumForm_withPar env hx]; simp
      have h2 : (withPar s 2 x).par 0 = s.par 0 := by simp [withPar_par]
      rw [h1, h2]
      exact (hasDerivAt_form_E s.mass e kx ky kz (s.par 0) (s.par 1) x hm hE).deriv
    rw [hf]
    exact ((hasDerivAt_angular_phi kx ky kz (s.par 1) (s.par 2)).const_mul _).const_add e
  · have hf : (fun x => deriv (fun y => momentumForm env e kx ky kz
          (withPar (withPar s 2 x) 1 y)) ((withPar s 2 x).par 1)) =
        fun x => pmag Real.sqrt s.mass (s.par 0) *
          (kx * (Real.cos (s.par 1) * Real.cos x)
            + ky * (Real.cos (s.par 1) * Real.sin x) - kz * Real.sin (s.par 1)) := by
      funext x
      have h1 : (fun y => momentumForm env e kx ky kz (withPar (withPar s 2 x) 1 y)) =
          fun y => e * s.par 0 + pmag Real.sqrt s.mass (s.par 0) *
            (kx * (Real.sin y * Real.cos x)
              + ky * (Real.sin y * Real.sin x) + kz * Real.cos y) := by
        funext y; rw [momentumForm_withPar env hx]; simp
      have h2 : (withPar s 2 x).par 1 = s.par 1 := by simp [withPar_par]
      rw [h1, h2]
      exact (hasDerivAt_form_theta _ _ kx ky kz (s.par 1) x).deriv
    rw [hf]
    exact (hasDerivAt_angular_theta_phi kx ky kz (s.par 1) (s.par 2)).const_mul _
  · have hf : (fun x => deriv (fun y => momentumForm env e kx ky kz
          (withPar (withPar s 2 x) 2 y)) ((withPar s 2 x).par 2)) =
        fun x => pmag Real.sqrt s.mass (s.par 0) *
          (-kx * (Real.sin (s.par 1) * Real.sin x)
            + ky * (Real.sin (s.par 1) * Real.cos x)) := by
      funext x
      have h1 : (fun y => momentumForm env e kx ky kz (withPar (withPar s 2 x) 2 y)) =
          fun y => e * s.par 0 + pmag Real.sqrt s.mass (s.par 0) *
            (kx * (Real.sin (s.par 1) * Real.cos y)
              + ky * (Real.sin (s.par 1) * Real.sin y) + kz * Real.cos (s.par 1)) := by
        funext y; rw [momentumForm_withPar env hx]; simp
      have h2 : (withPar s 2 x).par 2 = x := by simp [withPar_par]
      rw [h1, h2]
      exact (hasDerivAt_form_phi _ _ kx ky kz (s.par 1) x).deriv
    rw [hf]
    exact (hasDerivAt_angular_phi_phi kx ky (s.par 1) (s.par 2)).const_mul _

/-- Row-major positions `idim*a + b` with `b` inside `[0, idim)` determine `a` and `b`. -/
theorem index_inj (idim a b a' b' : Int) (hb : 0 ≤ b ∧ b < idim) (hb' : 0 ≤ b' ∧ b' < idim) :
    idim * a + b = idim * a' + b' ↔ a = a' ∧ b = b' := by
  constructor
  · intro h
    have haa : a = a' := by
      rcases lt_trichotomy a a' with hlt | heq | hgt
      · exfalso
        have h1 : a + 1 ≤ a' := hlt
        have h2 : idim * (a + 1) ≤ idim * a' :=
          mul_le_mul_of_nonneg_left h1 (by linarith [hb.1, hb.2])
        nlinarith [hb.1, hb.2, hb'.1, hb'.2]
      · exact heq
      · exfalso
        have h1 : a' + 1 ≤ a := hgt
        have h2 : idim * (a' + 1) ≤ idim * a :=
          mul_le_mul_of_nonneg_left h1 (by linarith [hb.1, hb.2])
        nlinarith [hb.1, hb.2, hb'.1, hb'.2]
    subst haa
    exact ⟨rfl, by linarith⟩
  · rintro ⟨rfl, rfl⟩
    rfl

/-- C4: with exact `<cmath>` functions, for `mass >= 0`, `E > mass` (or `mass = 0`) and
pairwise distinct global numbers inside `idim`, the cache recomputation succeeds and
`addTo2ndDerivatives`, called with the cache not yet computed or just recomputed, adds to
`der2[idim*g_a + g_b]`, for every pair `a`, `b` of local
parameters, a value `H a b` that is the second partial derivative of
`F = efact*E + pxfact*px + pyfact*py + pzfact*pz` (with `px`, `py`, `pz` as `updateCache`
computes them), first in parameter `b`, then in parameter `a`; the `E`-`E` entry is
`d2p * (pxfact*sin(theta)*cos(phi) + pyfact*sin(theta)*sin(phi) + pzfact*cos(theta))` with
`d2p = -mass^2/p^3` (0 when massless); and the block is symmetric. -/
theorem addTo2ndDerivatives_adds_hessian (env : Env ℝ) (hx : env.Exact) (s : JetFitObject ℝ)
    (der2 : Int → ℝ) (idim : Int) (efact pxfact pyfact pzfact : ℝ)
    (hm : 0 ≤ s.mass) (hE : s.mass < s.par 0 ∨ s.mass = 0)
    (hgE : 0 ≤ s.globalParNum 0 ∧ s.globalParNum 0 < idim)
    (hgth : 0 ≤ s.globalParNum 1 ∧ s.globalParNum 1 < idim)
    (hgph : 0 ≤ s.globalParNum 2 ∧ s.globalParNum 2 < idim)
    (hd : s.globalParNum 0 ≠ s.globalParNum 1 ∧ s.globalParNum 0 ≠ s.globalParNum 2 ∧
      s.globalParNum 1 ≠ s.globalParNum 2) :
    ∃ (c : JetFitObject ℝ) (der2' : Int → ℝ) (H : Int → Int → ℝ),
      updateCache env s = some c ∧
      addTo2ndDerivatives env der2 idim efact pxfact pyfact pzfact (invalidateCache s)
        = some (der2', c) ∧
      addTo2ndDerivatives env der2 idim efact pxfact pyfact pzfact c = some (der2', c) ∧
      H 0 0 = (if s.mass ≠ 0 then -s.mass * s.mass / (c.p * c.p * c.p) else 0)
        * (pxfact * (Real.sin (s.par 1) * Real.cos (s.par 2))
          + pyfact * (Real.sin (s.par 1) * Real.sin (s.par 2))
          + pzfact * Real.cos (s.par 1)) ∧
      ∀ a b : Int, a = 0 ∨ a = 1 ∨ a = 2 → b = 0 ∨ b = 1 ∨ b = 2 →
        der2' (idim * s.globalParNum a + s.globalParNum b)
          = der2 (idim * s.globalParNum a + s.globalParNum b) + H a b ∧
        HasDerivAt (fun x => deriv (fun y => momentumForm env efact pxfact pyfact pzfact
          (withPar (withPar s a x) b y)) ((withPar s a x).par b)) (H a b) (s.par a) ∧
        H a b = H b a := by
  have hne : s.mass > 0 → Real.sqrt |s.par 0 * s.par 0 - s.mass * s.mass| ≠ 0 := by
    intro hpos
    rcases hE with h | h
    · exact sqrt_radicand_ne_zero _ _ hm h
    · exact absurd h hpos.ne'
  obtain ⟨c, hc, hcdef⟩ : ∃ c, updateCache env s = some c ∧
      c = fillCache (calcChi2 env s).2 (calcChi2 env s).1
        (Real.cos (s.par 1)) (Real.sin (s.par 1)) (Real.cos (s.par 2)) (Real.sin (s.par 2))
        (if s.mass > 0 then |s.par 0 * s.par 0 - s.mass * s.mass| else s.par 0 * s.par 0)
        (pmag Real.sqrt s.mass (s.par 0)) (dpmag Real.sqrt s.mass (s.par 0)) :=
    ⟨_, updateCache_eq env hx s hne, rfl⟩
  obtain ⟨-, -, -, -, g5, g6, -⟩ := updateCache_fields env s c hc
  obtain ⟨-, -, k3, -⟩ := calcChi2_fields env s
  obtain ⟨d00, d01, d02, d10, d11, d12, d20, d21, d22⟩ :=
    der2nd_second_partials env hx s c efact pxfact pyfact pzfact hm hE hc
  obtain ⟨h01, h02, h12⟩ := hd
  have h10 := Ne.symm h01
  have h20 := Ne.symm h02
  have h21 := Ne.symm h12
  have hv : (0 ≤ s.globalParNum 0 ∧ s.globalParNum 0 < idim) ∧
      (0 ≤ s.globalParNum 1 ∧ s.globalParNum 1 < idim) ∧
      (0 ≤ s.globalParNum 2 ∧ s.globalParNum 2 < idim) := ⟨hgE, hgth, hgph⟩
  have k00 := fun a a' => index_inj idim a (s.globalParNum 0) a' (s.globalParNum 0) hgE hgE
  have k01 := fun a a' => index_inj idim a (s.globalParNum 0) a' (s.globalParNum 1) hgE hgth
  have k02 := fun a a' => index_inj idim a (s.globalParNum 0) a' (s.globalParNum 2) hgE hgph
  have k10 := fun a a' => index_inj idim a (s.globalParNum 1) a' (s.globalParNum 0) hgth hgE
  have k11 := fun a a' => index_inj idim a (s.globalParNum 1) a' (s.globalParNum 1) hgth hgth
  have k12 := fun a a' => index_inj idim a (s.globalParNum 1) a' (s.globalParNum 2) hgth hgph
  have k20 := fun a a' => index_inj idim a (s.globalParNum 2) a' (s.globalParNum 0) hgph hgE
  have k21 := fun a a' => index_inj idim a (s.globalParNum 2) a' (s.globalParNum 1) hgph hgth
  have k22 := fun a a' => index_inj idim a (s.globalParNum 2) a' (s.globalParNum 2) hgph hgph
  refine ⟨c,
    (addAt (addAt (addAt (addAt (addAt (addAt (addAt (addAt (addAt der2
      (idim * s.globalParNum 0 + s.globalParNum 0) (der2nd c pxfact pyfact pzfact).der_EE)
      (idim * s.globalParNum 0 + s.globalParNum 1) (der2nd c pxfact pyfact pzfact).der_Eth)
      (idim * s.globalParNum 0 + s.globalParNum 2) (der2nd c pxfact pyfact pzfact).der_Eph)
      (idim * s.globalParNum 1 + s.globalParNum 0) (der2nd c pxfact pyfact pzfact).der_Eth)
      (idim * s.globalParNum 1 + s.globalParNum 1) (der2nd c pxfact pyfact pzfact).der_thth)
      (idim * s.globalParNum 1 + s.globalParNum 2) (der2nd c pxfact pyfact pzfact).der_thph)
      (idim * s.globalParNum 2 + s.globalParNum 0) (der2nd c pxfact pyfact pzfact).der_Eph)
      (idim * s.globalParNum 2 + s.globalParNum 1) (der2nd c pxfact pyfact pzfact).der_thph)
      (idim * s.globalParNum 2 + s.globalParNum 2) (der2nd c pxfact pyfact pzfact).der_phph),
    fun a b =>
      if a = 0 then
        (if b = 0 then (der2nd c pxfact pyfact pzfact).der_EE
          else if b = 1 then (der2nd c pxfact pyfact pzfact).der_Eth
          else (der2nd c pxfact pyfact pzfact).der_Eph)
      else if a = 1 then
        (if b = 0 then (der2nd c pxfact pyfact pzfact).der_Eth
          else if b = 1 then (der2nd c pxfact pyfact pzfact).der_thth
          else (der2nd c pxfact pyfact pzfact).der_thph)
      else
        (if b = 0 then (der2nd c pxfact pyfact pzfact).der_Eph
          else if b = 1 then (der2nd c pxfact pyfact pzfact).der_thph
          else (der2nd c pxfact pyfact pzfact).der_phph),
    hc, ?_, ?_, ?_, ?_⟩
  · have hi : ensureCache env (invalidateCache s) = some c := by
      rw [← hc, ← updateCache_invalidateCache env s]
      rfl
    have hg : (invalidateCache s).globalParNum = s.globalParNum := rfl
    simp only [addTo2ndDerivatives, hg, if_pos hv, hi, Option.map_some']
  · simp only [addTo2ndDerivatives, g5, if_pos hv, ensureCache, g6, Bool.not_true,
      Bool.false_eq_true, if_false, Option.map_some']
  · simp only [if_true]
    rw [hcdef, der2nd_fillCache, k3]
    rfl
  · rintro a b (rfl | rfl | rfl) (rfl | rfl | rfl)
    · refine ⟨?_, by simpa using d00, rfl⟩
      simp [addAt, Function.update_apply, k00, k01, k02, k10, k11, k12, k20, k21, k22,
        h01, h02, h12, h10, h20, h21]
    · refine ⟨?_, by simpa using d01, by simp⟩
      simp [addAt, Function.update_apply, k00, k01, k02, k10, k11, k12, k20, k21, k22,
        h01, h02, h12, h10, h20, h21]
    · refine ⟨?_, by simpa using d02, by simp⟩
      simp [addAt, Function.update_apply, k00, k01, k02, k10, k11, k12, k20, k21, k22,
        h01, h02, h12, h10, h20, h21]
    · refine ⟨?_, by simpa using d10, by simp⟩
      simp [addAt, Function.update_apply, k00, k01, k02, k10, k11, k12, k20, k21, k22,
        h01, h02, h12, h10, h20, h21]
    · refine ⟨?_, by simpa using d11, rfl⟩
      simp [addAt, Function.update_apply, k00, k01, k02, k10, k11, k12, k20, k21, k22,
        h01, h02, h12, h10, h20, h21]
    · refine ⟨?_, by simpa using d12, by simp⟩
      simp [addAt, Function.update_apply, k00, k01, k02, k10, k11, k12, k20, k21, k22,
        h01, h02, h12, h10, h20, h21]
    · refine ⟨?_, by simpa using d20, by simp⟩
      simp [addAt, Function.update_apply, k00, k01, k02, k10, k11, k12, k20, k21, k22,
        h01, h02, h12, h10, h20, h21]
    · refine ⟨?_, by simpa using d21, by simp⟩
      simp [addAt, Function.update_apply, k00, k01, k02, k10, k11, k12, k20, k21, k22,
        h01, h02, h12, h10, h20, h21]
    · refine ⟨?_, by simpa using d22, rfl⟩
      simp [addAt, Function.update_apply, k00, k01, k02, k10, k11, k12, k20, k21, k22,
        h01, h02, h12, h10, h20, h21]

theorem addTo2ndDerivatives_adds_hessian_witness :
    (⟨Real.sqrt, Real.sin, Real.cos, Real.pi, 0, fun _ => none⟩ : Env ℝ).Exact ∧
    (0 : ℝ) ≤ (sample : JetFitObject ℝ).mass ∧
    (sample : JetFitObject ℝ).mass < (sample : JetFitObject ℝ).par 0 ∧
    ∃ (c : JetFitObject ℝ) (der2' : Int → ℝ) (H : Int → Int → ℝ),
      updateCache ⟨Real.sqrt, Real.sin, Real.cos, Real.pi, 0, fun _ => none⟩ sample = some c ∧
      addTo2ndDerivatives ⟨Real.sqrt, Real.sin, Real.cos, Real.pi, 0, fun _ => none⟩
        (fun _ => 0) 3 1 2 3 4 (invalidateCache sample) = some (der2', c) ∧
      addTo2ndDerivatives ⟨Real.sqrt, Real.sin, Real.cos, Real.pi, 0, fun _ => none⟩
        (fun _ => 0) 3 1 2 3 4 c = some (der2', c) ∧
      H 0 0 = (if (sample : JetFitObject ℝ).mass ≠ 0
          then -(sample : JetFitObject ℝ).mass * (sample : JetFitObject ℝ).mass
            / (c.p * c.p * c.p) else 0)
        * (2 * (Real.sin ((sample : JetFitObject ℝ).par 1)
              * Real.cos ((sample : JetFitObject ℝ).par 2))
          + 3 * (Real.sin ((sample : JetFitObject ℝ).par 1)
              * Real.sin ((sample : JetFitObject ℝ).par 2))
          + 4 * Real.cos ((sample : JetFitObject ℝ).par 1)) ∧
      ∀ a b : Int, a = 0 ∨ a = 1 ∨ a = 2 → b = 0 ∨ b = 1 ∨ b = 2 →
        der2' (3 * (sample : JetFitObject ℝ).globalParNum a
            + (sample : JetFitObject ℝ).globalParNum b)
          = (fun _ => (0 : ℝ)) (3 * (sample : JetFitObject ℝ).globalParNum a
            + (sample : JetFitObject ℝ).globalParNum b) + H a b ∧
        HasDerivAt (fun x => deriv (fun y => momentumForm
            ⟨Real.sqrt, Real.sin, Real.cos, Real.pi, 0, fun _ => none⟩ 1 2 3 4
            (withPar (withPar sample a x) b y)) ((withPar sample a x).par b)) (H a b)
          ((sample : JetFitObject ℝ).par a) ∧
        H a b = H b a :=
  ⟨⟨rfl, rfl, rfl, rfl⟩, by simp [sample], by simp [sample]; norm_num,
    addTo2ndDerivatives_adds_hessian
      ⟨Real.sqrt, Real.sin, Real.cos, Real.pi, 0, fun _ => none⟩ ⟨rfl, rfl, rfl, rfl⟩ sample
      (fun _ => 0) 3 1 2 3 4 (by simp [sample]) (Or.inl (by simp [sample]; norm_num))
      (by simp [sample, blank]) (by simp [sample, blank]) (by simp [sample, blank])
      (by simp [sample, blank])⟩

/-! ## The parameter mutators -/

/-- C13: `setParam (0, value)` sets `par[0]` to `max(value, mass)`; `setParam (1, value)` and
`setParam (2, value)` store `value` as it is; for `i` in `{0, 1, 2}` the call leaves every
other parameter, `mpar`, `cov` and the flags unchanged, and returns `true` exactly when the
squared difference between `value` and the previous `par[i]` exceeds `eps2 * cov[i][i]`. -/
theorem setParam_stores_and_reports (env : Env ℝ) (s : JetFitObject ℝ) (value : ℝ) :
    (setParam env 0 value s).2.par 0 = max value s.mass ∧
    (setParam env 1 value s).2.par 1 = value ∧
    (setParam env 2 value s).2.par 2 = value ∧
    ∀ i : Int, i = 0 ∨ i = 1 ∨ i = 2 →
      (∀ j : Int, j ≠ i → (setParam env i value s).2.par j = s.par j) ∧
      (setParam env i value s).2.mpar = s.mpar ∧
      (setParam env i value s).2.cov = s.cov ∧
      (setParam env i value s).2.measured = s.measured ∧
      (setParam env i value s).2.fixed = s.fixed ∧
      ((setParam env i value s).1 = true ↔
        (value - s.par i) * (value - s.par i) > env.eps2 * s.cov i i) := by
  refine ⟨?_, ?_, ?_, ?_⟩
  · by_cases hv : value ≥ s.mass
    · simp [setParam, invalidateCache, hv, max_eq_left hv]
    · simp [setParam, invalidateCache, hv, max_eq_right (le_of_lt (not_le.mp hv))]
  · simp [setParam, invalidateCache]
  · simp [setParam, invalidateCache]
  · rintro i (rfl | rfl | rfl)
    · refine ⟨fun j hj => ?_, rfl, rfl, rfl, rfl, ?_⟩
      · simp [setParam, invalidateCache, Function.update_noteq hj]
      · simp [setParam, invalidateCache]
    · refine ⟨fun j hj => ?_, rfl, rfl, rfl, rfl, ?_⟩
      · simp [setParam, invalidateCache, Function.update_noteq hj]
      · simp [setParam, invalidateCache]
    · refine ⟨fun j hj => ?_, rfl, rfl, rfl, rfl, ?_⟩
      · simp [setParam, invalidateCache, Function.update_noteq hj]
      · simp [setParam, invalidateCache]

theorem setParam_stores_and_reports_witness :
    (∀ j : Int, j ≠ 0 →
      (setParam ⟨Real.sqrt, Real.sin, Real.cos, Real.pi, 1, fun _ => none⟩ 0 1
        (sample : JetFitObject ℝ)).2.par j = (sample : JetFitObject ℝ).par j) ∧
    (setParam ⟨Real.sqrt, Real.sin, Real.cos, Real.pi, 1, fun _ => none⟩ 0 1
      (sample : JetFitObject ℝ)).2.par 0 = max 1 (sample : JetFitObject ℝ).mass :=
  ⟨((setParam_stores_and_reports ⟨Real.sqrt, Real.sin, Real.cos, Real.pi, 1, fun _ => none⟩
      sample 1).2.2.2 0 (Or.inl rfl)).1,
    (setParam_stores_and_reports ⟨Real.sqrt, Real.sin, Real.cos, Real.pi, 1, fun _ => none⟩
      sample 1).1⟩

/-- C14: with `M_PI` the number pi and pairwise distinct global numbers inside `idim`,
`updateParams` returns; it pulls `(e, th, ph) = (p[gE], p[gTh], p[gPh])`, replaces the triple
by `(-e, pi - th, pi + ph)` when `e < 0`, raises `e` to `mass*1.0000001` if it is below,
stores the triple in `par[]`, writes the same triple to `p[gE]`, `p[gTh]`, `p[gPh]`, leaves
every other entry of `p` unchanged, and returns `true` exactly when for some `i` the squared
difference between the corrected value and the previous `par[i]` exceeds
`eps2 * cov[i][i]`. -/
theorem updateParams_pulls_corrects_writes (env : Env ℝ) (hpi : env.M_PI = Real.pi)
    (s : JetFitObject ℝ) (p : Int → ℝ) (idim : Int)
    (hE : 0 ≤ s.globalParNum 0 ∧ s.globalParNum 0 < idim)
    (hth : 0 ≤ s.globalParNum 1 ∧ s.globalParNum 1 < idim)
    (hph : 0 ≤ s.globalParNum 2 ∧ s.globalParNum 2 < idim)
    (hd : s.globalParNum 0 ≠ s.globalParNum 1 ∧ s.globalParNum 0 ≠ s.globalParNum 2 ∧
      s.globalParNum 1 ≠ s.globalParNum 2) :
    ∃ (r : Bool) (p' : Int → ℝ) (s' : JetFitObject ℝ),
      updateParams env p idim s = some (r, p', s') ∧
      s'.par 0 = max (if p (s.globalParNum 0) < 0 then -p (s.globalParNum 0)
        else p (s.globalParNum 0)) (s.mass * 1.0000001) ∧
      s'.par 1 = (if p (s.globalParNum 0) < 0 then Real.pi - p (s.globalParNum 1)
        else p (s.globalParNum 1)) ∧
      s'.par 2 = (if p (s.globalParNum 0) < 0 then Real.pi + p (s.globalParNum 2)
        else p (s.globalParNum 2)) ∧
      p' (s.globalParNum 0) = s'.par 0 ∧ p' (s.globalParNum 1) = s'.par 1 ∧
      p' (s.globalParNum 2) = s'.par 2 ∧
      (∀ k : Int, k ≠ s.globalParNum 0 → k ≠ s.globalParNum 1 → k ≠ s.globalParNum 2 →
        p' k = p k) ∧
      (r = true ↔
        (s'.par 0 - s.par 0) * (s'.par 0 - s.par 0) > env.eps2 * s.cov 0 0 ∨
        (s'.par 1 - s.par 1) * (s'.par 1 - s.par 1) > env.eps2 * s.cov 1 1 ∨
        (s'.par 2 - s.par 2) * (s'.par 2 - s.par 2) > env.eps2 * s.cov 2 2) := by
  have hv : (0 ≤ s.globalParNum 0 ∧ s.globalParNum 0 < idim) ∧
      (0 ≤ s.globalParNum 1 ∧ s.globalParNum 1 < idim) ∧
      (0 ≤ s.globalParNum 2 ∧ s.globalParNum 2 < idim) := ⟨hE, hth, hph⟩
  obtain ⟨h01, h02, h12⟩ := hd
  have hmax : ∀ x y : ℝ, (if x < y then y else x) = max x y := by
    intro x y
    by_cases h : x < y
    · simp [h, max_eq_right h.le]
    · simp [h, max_eq_left (not_lt.mp h)]
  simp only [updateParams, getGlobalParNum, invalidateCache, if_pos hv]
  refine ⟨_, _, _, rfl, ?_, ?_, ?_, ?_, ?_, ?_, ?_, ?_⟩
  · simp [hmax]
  · simp [hpi]
  · simp [hpi]
  · simp [Function.update_noteq h01, Function.update_noteq h02]
  · simp [Function.update_noteq h12]
  · simp
  · intro k k0 k1 k2
    simp [Function.update_noteq k0, Function.update_noteq k1, Function.update_noteq k2]
  · simp [hmax, hpi, or_assoc]

theorem updateParams_pulls_corrects_writes_witness :
    ∃ (r : Bool) (p' : Int → ℝ) (s' : JetFitObject ℝ),
      updateParams ⟨Real.sqrt, Real.sin, Real.cos, Real.pi, 1, fun _ => none⟩
        (fun _ => -7) 3 (sample : JetFitObject ℝ) = some (r, p', s') ∧
      s'.par 0 = 7 ∧ s'.par 1 = Real.pi + 7 ∧ s'.par 2 = Real.pi - 7 ∧
      p' 0 = s'.par 0 ∧ p' 1 = s'.par 1 ∧ p' 2 = s'.par 2 ∧ p' 3 = -7 := by
  obtain ⟨r, p', s', h, h0, h1, h2, g0, g1, g2, hk, -⟩ :=
    updateParams_pulls_corrects_writes
      ⟨Real.sqrt, Real.sin, Real.cos, Real.pi, 1, fun _ => none⟩ rfl sample (fun _ => -7) 3
      (by simp [sample, blank]) (by simp [sample, blank]) (by simp [sample, blank])
      (by simp [sample, blank])
  refine ⟨r, p', s', h, ?_, ?_, ?_, ?_, ?_, ?_, ?_⟩
  · rw [h0]; simp [sample]; norm_num
  · rw [h1]; simp
  · rw [h2]; simp [sub_eq_add_neg]
  · simpa [sample, blank] using g0
  · simpa [sample, blank] using g1
  · simpa [sample, blank] using g2
  · exact hk 3 (by simp [sample, blank]) (by simp [sample, blank]) (by simp [sample, blank])

/-! ## Chi-square: residuals, wrap and sentinel -/

theorem resid_calcChi2 (env : Env ℝ) (s : JetFitObject ℝ) :
    resid env (calcChi2 env s).2 = resid env s := by
  obtain ⟨h1, h2, -, -, -, h6, h7⟩ := calcChi2_fields env s
  simp only [resid, isParamMeasured, isParamFixed, h1, h2, h6, h7]

/-- The value of `calcChi2` in terms of the residuals of the object it was called on. -/
theorem calcChi2_value (env : Env ℝ) (s : JetFitObject ℝ)
    (hv : (calcChi2 env s).2.covinvvalid = true) :
    (calcChi2 env s).1 =
      resid env s 0 * (calcChi2 env s).2.covinv 0 0 * resid env s 0
        + 2 * resid env s 0 * (calcChi2 env s).2.covinv 0 1 * resid env s 1
        + 2 * resid env s 0 * (calcChi2 env s).2.covinv 0 2 * resid env s 2
        + resid env s 1 * (calcChi2 env s).2.covinv 1 1 * resid env s 1
        + 2 * resid env s 1 * (calcChi2 env s).2.covinv 1 2 * resid env s 2
        + resid env s 2 * (calcChi2 env s).2.covinv 2 2 * resid env s 2 := by
  rw [← resid_calcChi2 env s]
  have hst := calcChi2_state env s
  rw [hst] at hv ⊢
  unfold calcChi2
  cases hcv : s.covinvvalid
  · simp only [hcv, Bool.false_eq_true, if_false] at hv ⊢
    simp [hv]
  · simp [hcv]

theorem calcChi2_invalid (env : Env ℝ) (s : JetFitObject ℝ)
    (hv : (calcChi2 env s).2.covinvvalid = false) : (calcChi2 env s).1 = -1 := by
  have hst := calcChi2_state env s
  rw [hst] at hv
  unfold calcChi2
  cases hcv : s.covinvvalid
  · simp only [hcv, Bool.false_eq_true, if_false] at hv
    simp [hcv, hv]
  · simp [hcv] at hv

/-- C19: for `i` in `{0, 1, 2}`, if parameter `i` is fixed or not measured, `calcChi2`
returns the same value on two objects that differ only in `par[i]` and `mpar[i]` (whether
the inverse covariance is valid or not). -/
theorem calcChi2_ignores_fixed_or_unmeasured (env : Env ℝ) (s : JetFitObject ℝ) (i : Int)
    (x y : ℝ) (hi : i = 0 ∨ i = 1 ∨ i = 2) (hf : s.fixed i = true ∨ s.measured i = false) :
    (calcChi2 env { s with par := Function.update s.par i x,
                           mpar := Function.update s.mpar i y }).1 = (calcChi2 env s).1 := by
  have hr : resid env { s with par := Function.update s.par i x,
                               mpar := Function.update s.mpar i y } = resid env s := by
    rcases hi with rfl | rfl | rfl <;> rcases hf with hf | hf <;>
      simp [resid, isParamMeasured, isParamFixed, hf]
  cases hv : (calcChi2 env s).2.covinvvalid
  · have hv' : (calcChi2 env { s with par := Function.update s.par i x,
                                      mpar := Function.update s.mpar i y }).2.covinvvalid
        = false := by
      rw [calcChi2_state] at hv ⊢
      cases hcv : s.covinvvalid
      · simp only [hcv, Bool.false_eq_true, if_false] at hv ⊢
        unfold calculateCovInv at hv ⊢
        cases hc : env.covInverse s.cov <;> simp_all
      · simp [hcv] at hv
    rw [calcChi2_invalid env s hv, calcChi2_invalid env _ hv']
  · have hci : (calcChi2 env { s with par := Function.update s.par i x,
                                      mpar := Function.update s.mpar i y }).2.covinv
          = (calcChi2 env s).2.covinv ∧
        (calcChi2 env { s with par := Function.update s.par i x,
                               mpar := Function.update s.mpar i y }).2.covinvvalid
          = true := by
      rw [calcChi2_state] at hv
      rw [calcChi2_state, calcChi2_state]
      cases hcv : s.covinvvalid
      · simp only [hcv, Bool.false_eq_true, if_false] at hv ⊢
        unfold calculateCovInv at hv ⊢
        cases hc : env.covInverse s.cov <;> simp_all
      · simp [hcv]
    rw [calcChi2_value env s hv, calcChi2_value env _ hci.2, hci.1, hr]

theorem calcChi2_ignores_fixed_or_unmeasured_witness :
    ({ (blank : JetFitObject ℝ) with
        par := fun i => if i = 0 then 3 else 1,
        measured := fun i => decide (i ≠ 1),
        covinv := fun i j => if i = j then 2 else 1,
        covinvvalid := true } : JetFitObject ℝ).covinvvalid = true ∧
    (calcChi2 ⟨Real.sqrt, Real.sin, Real.cos, Real.pi, 0, fun _ => none⟩
      { (blank : JetFitObject ℝ) with
        par := fun i => if i = 0 then 3 else 1,
        measured := fun i => decide (i ≠ 1),
        covinv := fun i j => if i = j then 2 else 1,
        covinvvalid := true }).1 = 26 ∧
    (calcChi2 ⟨Real.sqrt, Real.sin, Real.cos, Real.pi, 0, fun _ => none⟩
      { (blank : JetFitObject ℝ) with
        par := Function.update (fun i => if i = 0 then 3 else 1) 1 7,
        mpar := Function.update (fun _ => 0) 1 (-4),
        measured := fun i => decide (i ≠ 1),
        covinv := fun i j => if i = j then 2 else 1,
        covinvvalid := true }).1
      = (calcChi2 ⟨Real.sqrt, Real.sin, Real.cos, Real.pi, 0, fun _ => none⟩
        { (blank : JetFitObject ℝ) with
          par := fun i => if i = 0 then 3 else 1,
          measured := fun i => decide (i ≠ 1),
          covinv := fun i j => if i = j then 2 else 1,
          covinvvalid := true }).1 := by
  have h3 := Real.pi_gt_three
  have h1 : ¬ (Real.pi < 1) := by linarith
  have h2 : ¬ ((1 : ℝ) < -Real.pi) := by linarith
  refine ⟨rfl, ?_, calcChi2_ignores_fixed_or_unmeasured
    ⟨Real.sqrt, Real.sin, Real.cos, Real.pi, 0, fun _ => none⟩
    { (blank : JetFitObject ℝ) with
      par := fun i => if i = 0 then 3 else 1,
      measured := fun i => decide (i ≠ 1),
      covinv := fun i j => if i = j then 2 else 1,
      covinvvalid := true }
    1 7 (-4) (Or.inr (Or.inl rfl)) (Or.inr (by simp))⟩
  simp [calcChi2, resid, isParamMeasured, isParamFixed, blank, h1, h2]
  norm_num

/-- The residual of phi that `calcChi2` uses, written out (source lines 549-551). -/
theorem resid_two (env : Env ℝ) (s : JetFitObject ℝ)
    (hm : s.measured 2 = true) (hf : s.fixed 2 = false) :
    resid env s 2 =
      if s.par 2 - s.mpar 2 > env.M_PI then s.par 2 - s.mpar 2 - 2 * env.M_PI
      else if s.par 2 - s.mpar 2 < -env.M_PI then s.par 2 - s.mpar 2 + 2 * env.M_PI
      else s.par 2 - s.mpar 2 := by
  simp [resid, isParamMeasured, isParamFixed, hm, hf]

theorem resid_zero_one (env : Env ℝ) (s : JetFitObject ℝ) :
    resid env s 0 = (if s.measured 0 = true ∧ s.fixed 0 = false then s.par 0 - s.mpar 0
      else 0) ∧
    resid env s 1 = (if s.measured 1 = true ∧ s.fixed 1 = false then s.par 1 - s.mpar 1
      else 0) := by
  constructor <;> simp [resid, isParamMeasured, isParamFixed]

/-- C16, as amended: with `M_PI` the number pi, on an object whose inverse covariance is
valid, with `par[0] = mpar[0]`, `par[1] = mpar[1]` and `par[2] - mpar[2]` equal to `0`,
`2*pi` or `-2*pi`, `calcChi2` returns `0`. -/
theorem calcChi2_zero_up_to_one_turn (env : Env ℝ) (hpi : env.M_PI = Real.pi)
    (s : JetFitObject ℝ) (hv : (calcChi2 env s).2.covinvvalid = true)
    (h0 : s.par 0 = s.mpar 0) (h1 : s.par 1 = s.mpar 1)
    (h2 : s.par 2 - s.mpar 2 = 0 ∨ s.par 2 - s.mpar 2 = 2 * Real.pi ∨
      s.par 2 - s.mpar 2 = -(2 * Real.pi)) :
    (calcChi2 env s).1 = 0 := by
  have hp := Real.pi_pos
  obtain ⟨r0, r1⟩ := resid_zero_one env s
  have e0 : resid env s 0 = 0 := by rw [r0, h0]; simp
  have e1 : resid env s 1 = 0 := by rw [r1, h1]; simp
  have e2 : resid env s 2 = 0 := by
    by_cases hmf : s.measured 2 = true ∧ s.fixed 2 = false
    · rw [resid_two env s hmf.1 hmf.2, hpi]
      rcases h2 with h | h | h <;> rw [h]
      · simp [not_lt.mpr hp.le]
      · have : 2 * Real.pi > Real.pi := by linarith
        simp [this]
      · have h3 : ¬ (-(2 * Real.pi) > Real.pi) := by linarith
        have h4 : -(2 * Real.pi) < -Real.pi := by linarith
        simp [h3, h4]
    · have : ¬ ((s.measured 2 && !s.fixed 2) = true) := by
        intro h
        apply hmf
        simpa using h
      simp [resid, isParamMeasured, isParamFixed, this, hpi, not_lt.mpr hp.le]
  rw [calcChi2_value env s hv, e0, e1, e2]
  ring

theorem calcChi2_zero_up_to_one_turn_witness :
    (calcChi2 ⟨Real.sqrt, Real.sin, Real.cos, Real.pi, 0, fun _ => none⟩
      { (blank : JetFitObject ℝ) with
          par := fun i => if i = 2 then 2 * Real.pi else 0,
          measured := fun _ => true,
          covinv := fun i j => if i = j then 1 else 0,
          covinvvalid := true }).1 = 0 :=
  calcChi2_zero_up_to_one_turn ⟨Real.sqrt, Real.sin, Real.cos, Real.pi, 0, fun _ => none⟩ rfl
    { (blank : JetFitObject ℝ) with
        par := fun i => if i = 2 then 2 * Real.pi else 0,
        measured := fun _ => true,
        covinv := fun i j => if i = j then 1 else 0,
        covinvvalid := true }
    (by simp [calcChi2]) (by simp [blank]) (by simp [blank])
    (Or.inr (Or.inl (by simp [blank])))

/-- C16, the claim as stated fails: with a valid identity inverse covariance, all
parameters measured and free, `par[0] = mpar[0]`, `par[1] = mpar[1]` and
`par[2] = mpar[2] + 2 * (2*pi)`, `calcChi2` returns `(2*pi)^2`, which is not `0`. -/
theorem calcChi2_two_turns_nonzero :
    ({ (blank : JetFitObject ℝ) with
          par := fun i => if i = 2 then 4 * Real.pi else 0,
          measured := fun _ => true,
          covinv := fun i j => if i = j then 1 else 0,
          covinvvalid := true } : JetFitObject ℝ).par 2
      - ({ (blank : JetFitObject ℝ) with
          par := fun i => if i = 2 then 4 * Real.pi else 0,
          measured := fun _ => true,
          covinv := fun i j => if i = j then 1 else 0,
          covinvvalid := true } : JetFitObject ℝ).mpar 2 = (2 : ℤ) * (2 * Real.pi) ∧
    (calcChi2 ⟨Real.sqrt, Real.sin, Real.cos, Real.pi, 0, fun _ => none⟩
      { (blank : JetFitObject ℝ) with
          par := fun i => if i = 2 then 4 * Real.pi else 0,
          measured := fun _ => true,
          covinv := fun i j => if i = j then 1 else 0,
          covinvvalid := true }).1 = (2 * Real.pi) * (2 * Real.pi) ∧
    (calcChi2 ⟨Real.sqrt, Real.sin, Real.cos, Real.pi, 0, fun _ => none⟩
      { (blank : JetFitObject ℝ) with
          par := fun i => if i = 2 then 4 * Real.pi else 0,
          measured := fun _ => true,
          covinv := fun i j => if i = j then 1 else 0,
          covinvvalid := true }).1 ≠ 0 := by
  have hp := Real.pi_pos
  have h1 : Real.pi < 4 * Real.pi := by linarith
  have hval : (calcChi2 ⟨Real.sqrt, Real.sin, Real.cos, Real.pi, 0, fun _ => none⟩
      { (blank : JetFitObject ℝ) with
          par := fun i => if i = 2 then 4 * Real.pi else 0,
          measured := fun _ => true,
          covinv := fun i j => if i = j then 1 else 0,
          covinvvalid := true }).1 = (2 * Real.pi) * (2 * Real.pi) := by
    simp [calcChi2, resid, isParamMeasured, isParamFixed, blank, h1]
    ring
  refine ⟨by simp [blank]; ring, hval, ?_⟩
  rw [hval]
  positivity

/-- C17, as amended: with `M_PI` the number pi, when parameter 2 (phi) is measured and not
fixed, the phi residual that `calcChi2` uses differs from `par[2] - mpar[2]` by `0`, `2*pi`
or `-2*pi`, and for `|par[2] - mpar[2]| <= 3*pi` it lies in the closed interval
`[-pi, pi]`. -/
theorem phi_residual_wrapped_once (env : Env ℝ) (hpi : env.M_PI = Real.pi)
    (s : JetFitObject ℝ) (hm : s.measured 2 = true) (hf : s.fixed 2 = false) :
    (∃ k : ℤ, (k = -1 ∨ k = 0 ∨ k = 1) ∧
      resid env (calcChi2 env s).2 2 = s.par 2 - s.mpar 2 + k * (2 * Real.pi)) ∧
    (|s.par 2 - s.mpar 2| ≤ 3 * Real.pi →
      -Real.pi ≤ resid env (calcChi2 env s).2 2 ∧ resid env (calcChi2 env s).2 2 ≤ Real.pi) := by
  have hp := Real.pi_pos
  rw [resid_calcChi2, resid_two env s hm hf, hpi]
  constructor
  · by_cases h1 : s.par 2 - s.mpar 2 > Real.pi
    · exact ⟨-1, Or.inl rfl, by simp [h1]; ring⟩
    · by_cases h2 : s.par 2 - s.mpar 2 < -Real.pi
      · exact ⟨1, Or.inr (Or.inr rfl), by simp [h1, h2]⟩
      · exact ⟨0, Or.inr (Or.inl rfl), by simp [h1, h2]⟩
  · intro hb
    obtain ⟨hb1, hb2⟩ := abs_le.mp hb
    by_cases h1 : s.par 2 - s.mpar 2 > Real.pi
    · simp only [h1, if_true]
      constructor <;> linarith
    · by_cases h2 : s.par 2 - s.mpar 2 < -Real.pi
      · simp only [h1, h2, if_true, if_false]
        constructor <;> linarith
      · simp only [h1, h2, if_false]
        exact ⟨not_lt.mp h2, not_lt.mp h1⟩

theorem phi_residual_wrapped_once_witness :
    |({ (blank : JetFitObject ℝ) with
          par := fun i => if i = 2 then 4 else 0,
          measured := fun _ => true } : JetFitObject ℝ).par 2
      - ({ (blank : JetFitObject ℝ) with
          par := fun i => if i = 2 then 4 else 0,
          measured := fun _ => true } : JetFitObject ℝ).mpar 2| ≤ 3 * Real.pi ∧
    -Real.pi ≤ resid ⟨Real.sqrt, Real.sin, Real.cos, Real.pi, 0, fun _ => none⟩
      (calcChi2 ⟨Real.sqrt, Real.sin, Real.cos, Real.pi, 0, fun _ => none⟩
        { (blank : JetFitObject ℝ) with
            par := fun i => if i = 2 then 4 else 0,
            measured := fun _ => true }).2 2 ∧
    resid ⟨Real.sqrt, Real.sin, Real.cos, Real.pi, 0, fun _ => none⟩
      (calcChi2 ⟨Real.sqrt, Real.sin, Real.cos, Real.pi, 0, fun _ => none⟩
        { (blank : JetFitObject ℝ) with
            par := fun i => if i = 2 then 4 else 0,
            measured := fun _ => true }).2 2 ≤ Real.pi := by
  have hb : |({ (blank : JetFitObject ℝ) with
          par := fun i => if i = 2 then 4 else 0,
          measured := fun _ => true } : JetFitObject ℝ).par 2
      - ({ (blank : JetFitObject ℝ) with
          par := fun i => if i = 2 then 4 else 0,
          measured := fun _ => true } : JetFitObject ℝ).mpar 2| ≤ 3 * Real.pi := by
    simp only [blank, if_true, sub_zero]
    rw [abs_of_pos (by norm_num)]
    linarith [Real.pi_gt_three]
  exact ⟨hb, (phi_residual_wrapped_once
    ⟨Real.sqrt, Real.sin, Real.cos, Real.pi, 0, fun _ => none⟩ rfl
    { (blank : JetFitObject ℝ) with
        par := fun i => if i = 2 then 4 else 0,
        measured := fun _ => true } rfl rfl).2 hb⟩

/-- C17, the claim as stated fails twice: with phi measured and free and
`par[2] - mpar[2] = -pi` the residual stays `-pi`, which is not in `(-pi, pi]`; and with
`par[2] - mpar[2] = 4*pi` the residual is `2*pi`, which is above `pi`. -/
theorem phi_residual_outside_half_open_interval :
    ¬ (-Real.pi < resid ⟨Real.sqrt, Real.sin, Real.cos, Real.pi, 0, fun _ => none⟩
        (calcChi2 ⟨Real.sqrt, Real.sin, Real.cos, Real.pi, 0, fun _ => none⟩
          { (blank : JetFitObject ℝ) with
              par := fun i => if i = 2 then -Real.pi else 0,
              measured := fun _ => true }).2 2 ∧
      resid ⟨Real.sqrt, Real.sin, Real.cos, Real.pi, 0, fun _ => none⟩
        (calcChi2 ⟨Real.sqrt, Real.sin, Real.cos, Real.pi, 0, fun _ => none⟩
          { (blank : JetFitObject ℝ) with
              par := fun i => if i = 2 then -Real.pi else 0,
              measured := fun _ => true }).2 2 ≤ Real.pi) ∧
    ¬ (-Real.pi < resid ⟨Real.sqrt, Real.sin, Real.cos, Real.pi, 0, fun _ => none⟩
        (calcChi2 ⟨Real.sqrt, Real.sin, Real.cos, Real.pi, 0, fun _ => none⟩
          { (blank : JetFitObject ℝ) with
              par := fun i => if i = 2 then 4 * Real.pi else 0,
              measured := fun _ => true }).2 2 ∧
      resid ⟨Real.sqrt, Real.sin, Real.cos, Real.pi, 0, fun _ => none⟩
        (calcChi2 ⟨Real.sqrt, Real.sin, Real.cos, Real.pi, 0, fun _ => none⟩
          { (blank : JetFitObject ℝ) with
              par := fun i => if i = 2 then 4 * Real.pi else 0,
              measured := fun _ => true }).2 2 ≤ Real.pi) := by
  have hp := Real.pi_pos
  constructor
  · rw [resid_calcChi2, resid_two _ _ rfl rfl]
    have h1 : ¬ (-Real.pi > Real.pi) := by
      intro h
      linarith
    simp [blank, h1]
  · rw [resid_calcChi2, resid_two _ _ rfl rfl]
    have h1 : 4 * Real.pi > Real.pi := by linarith
    simp only [blank, if_true, sub_zero, h1]
    intro h
    linarith [h.2]

/-- C18, as amended: when the inverse covariance is still flagged invalid after `calcChi2`
has tried `calculateCovInv`, `calcChi2` returns `-1` for every value of `par`, `mpar` and
the flags; and `getChi2`, on an object whose cache has to be recomputed, returns `-1`
provided the recomputation does not trip `assert (p != 0)`, that is unless `mass > 0` and
`sqrt(|E*E - mass*mass|) = 0`. -/
theorem chi2_sentinel_when_not_invertible (env : Env ℝ) (s : JetFitObject ℝ)
    (hv : (calcChi2 env s).2.covinvvalid = false) :
    (calcChi2 env s).1 = -1 ∧
    (s.cachevalid = false →
      (s.mass > 0 → env.sqrt |s.par 0 * s.par 0 - s.mass * s.mass| ≠ 0) →
      getChi2 env s = some (-1)) := by
  refine ⟨calcChi2_invalid env s hv, fun hc hp => ?_⟩
  obtain ⟨g1, -, g3, -⟩ := calcChi2_fields env s
  simp only [getChi2, ensureCache, hc, Bool.not_false, if_true, updateCache, g1, g3,
    calcChi2_invalid env s hv]
  by_cases hm : s.mass > 0
  · simp [hm, hp hm, fillCache]
  · simp [hm, fillCache]

theorem chi2_sentinel_when_not_invertible_witness :
    (calcChi2 ⟨Real.sqrt, Real.sin, Real.cos, Real.pi, 0, fun _ => none⟩
      (sample : JetFitObject ℝ)).2.covinvvalid = false ∧
    (calcChi2 ⟨Real.sqrt, Real.sin, Real.cos, Real.pi, 0, fun _ => none⟩
      (sample : JetFitObject ℝ)).1 = -1 ∧
    getChi2 ⟨Real.sqrt, Real.sin, Real.cos, Real.pi, 0, fun _ => none⟩
      (sample : JetFitObject ℝ) = some (-1) := by
  have hv : (calcChi2 ⟨Real.sqrt, Real.sin, Real.cos, Real.pi, 0, fun _ => none⟩
      (sample : JetFitObject ℝ)).2.covinvvalid = false := by
    simp [calcChi2, calculateCovInv, sample, blank]
  have h := chi2_sentinel_when_not_invertible
    ⟨Real.sqrt, Real.sin, Real.cos, Real.pi, 0, fun _ => none⟩ sample hv
  refine ⟨hv, h.1, h.2 rfl ?_⟩
  intro _
  have hr : (0 : ℝ) < 5 * 5 - 3 * 3 := by norm_num
  simp only [sample, if_true]
  rw [abs_of_pos hr]
  exact (Real.sqrt_pos.mpr hr).ne'

/-- C18, the claim as stated fails: on the object with `mass = 1`, `par[0] = 1`, cache not
computed and a covariance that cannot be inverted, `getChi2` trips `assert (p != 0)` in
`updateCache` instead of returning `-1`. -/
theorem getChi2_aborts_at_threshold :
    (calcChi2 ⟨Real.sqrt, Real.sin, Real.cos, Real.pi, 0, fun _ => none⟩
      { (blank : JetFitObject ℝ) with par := fun i => if i = 0 then 1 else 0,
                                      mass := 1 }).2.covinvvalid = false ∧
    getChi2 ⟨Real.sqrt, Real.sin, Real.cos, Real.pi, 0, fun _ => none⟩
      { (blank : JetFitObject ℝ) with par := fun i => if i = 0 then 1 else 0,
                                      mass := 1 } = none := by
  constructor
  · simp [calcChi2, calculateCovInv, blank]
  · simp [getChi2, ensureCache, updateCache, calcChi2, calculateCovInv, blank]

/-! ## What `adjustEThetaPhi` reports and what it keeps -/

theorem whileLoop_add_shift (c : ℝ → Bool) (d : ℝ) :
    ∀ (n : ℕ) (x y : ℝ), whileLoop c (fun t => t + d) n x = some y →
      ∃ k : ℕ, y = x + k * d := by
  intro n
  induction n with
  | zero =>
    intro x y h
    by_cases hc : c x = true
    · simp [whileLoop, hc] at h
    · simp only [whileLoop, hc] at h
      exact ⟨0, by simp at h; simp [h]⟩
  | succ n ih =>
    intro x y h
    by_cases hc : c x = true
    · simp only [whileLoop, hc, if_true] at h
      obtain ⟨k, hk⟩ := ih _ _ h
      exact ⟨k + 1, by rw [hk]; push_cast; ring⟩
    · simp only [whileLoop, hc] at h
      exact ⟨0, by simp at h; simp [h]⟩

/-- What `wrapAngle` returns when it returns: the flag is raised exactly when it was raised
before or the angle was outside `[-M_PI, M_PI]`, an angle inside is kept, and the angle
moves by a whole number of turns. -/
theorem wrapAngle_some (env : Env ℝ) (fuel : ℕ) (r : Bool) (x : ℝ) (rt : Bool × ℝ)
    (h : wrapAngle env fuel r x = some rt) :
    (rt.1 = true ↔ (r = true ∨ x < -env.M_PI ∨ x > env.M_PI)) ∧
    (¬ (x < -env.M_PI ∨ x > env.M_PI) → rt.2 = x) ∧
    ∃ k : ℤ, rt.2 = x + k * (2 * env.M_PI) := by
  unfold wrapAngle at h
  by_cases hin : x < -env.M_PI ∨ x > env.M_PI
  · simp only [if_pos hin, Option.bind_eq_some, Option.map_eq_some'] at h
    obtain ⟨y1, h1, y2, h2, rfl⟩ := h
    obtain ⟨k1, hk1⟩ := whileLoop_add_shift _ _ _ _ _ h1
    have h2' : whileLoop (fun t => decide (t > env.M_PI)) (fun t => t + -(2 * env.M_PI))
        fuel y1 = some y2 := by
      simpa [sub_eq_add_neg] using h2
    obtain ⟨k2, hk2⟩ := whileLoop_add_shift _ _ _ _ _ h2'
    refine ⟨by simp [hin], fun hc => absurd hin hc, (k1 : ℤ) - k2, ?_⟩
    simp only [hk2, hk1]
    push_cast
    ring
  · simp only [if_neg hin, Option.some.injEq] at h
    subst h
    exact ⟨by simp [hin], fun _ => rfl, 0, by simp⟩

/-- The stages of `adjustEThetaPhi` when it returns: the two calls of `wrapAngle` and the
values assembled from them. -/
theorem adjustEThetaPhi_some (env : Env ℝ) (fuel : ℕ) (m E theta phi : ℝ) (a : Adjusted ℝ)
    (h : adjustEThetaPhi env fuel m E theta phi = some a) :
    ∃ (rt rp : Bool × ℝ),
      wrapAngle env fuel (decide (E < 0) || decide ((if E < 0 then -E else E) < m))
        (if E < 0 then env.M_PI - theta else theta) = some rt ∧
      wrapAngle env fuel (rt.1 || decide (rt.2 < 0) || decide (rt.2 > env.M_PI))
        (if rt.2 < 0 ∨ rt.2 > env.M_PI then
          (if (if E < 0 then env.M_PI + phi else phi) > 0
            then (if E < 0 then env.M_PI + phi else phi) - env.M_PI
            else (if E < 0 then env.M_PI + phi else phi) + env.M_PI)
          else (if E < 0 then env.M_PI + phi else phi)) = some rp ∧
      a.result = rp.1 ∧ a.m = m ∧
      a.E = (if (if E < 0 then -E else E) < m then m else (if E < 0 then -E else E)) ∧
      a.theta = (if rt.2 < 0 then -rt.2 else if rt.2 > env.M_PI then 2 * env.M_PI - rt.2
        else rt.2) ∧
      a.phi = rp.2 := by
  unfold adjustEThetaPhi at h
  simp only [Option.bind_eq_some, Option.map_eq_some'] at h
  obtain ⟨rt, hrt, rp, hrp, rfl⟩ := h
  refine ⟨rt, rp, ?_, ?_, ?_, ?_, ?_, ?_, ?_⟩
  · rw [← hrt]
    by_cases h1 : E < 0 <;> by_cases h2 : -E < m <;> by_cases h3 : E < m <;>
      simp [h1, h2, h3]
  · rw [← hrp]
    by_cases h1 : E < 0 <;> by_cases h2 : -E < m <;> by_cases h3 : E < m <;>
      by_cases h4 : rt.2 < 0 <;> by_cases h5 : rt.2 > env.M_PI <;>
      simp [h1, h2, h3, h4, h5]
  · rfl
  · by_cases h1 : E < 0 <;> by_cases h2 : -E < m <;> by_cases h3 : E < m <;>
      by_cases h4 : rt.2 < 0 <;> by_cases h5 : rt.2 > env.M_PI <;>
      simp [h1, h2, h3, h4, h5]
  · by_cases h1 : E < 0 <;> by_cases h2 : -E < m <;> by_cases h3 : E < m <;>
      by_cases h4 : rt.2 < 0 <;> by_cases h5 : rt.2 > env.M_PI <;>
      simp [h1, h2, h3, h4, h5]
  · by_cases h1 : E < 0 <;> by_cases h2 : -E < m <;> by_cases h3 : E < m <;>
      by_cases h4 : rt.2 < 0 <;> by_cases h5 : rt.2 > env.M_PI <;>
      simp [h1, h2, h3, h4, h5]
  · rfl

/-- When `adjustEThetaPhi` returns `false`, its input was already normalised. -/
theorem adjustEThetaPhi_false (env : Env ℝ) (fuel : ℕ)
    (m E theta phi : ℝ) (a : Adjusted ℝ)
    (h : adjustEThetaPhi env fuel m E theta phi = some a) (hr : a.result = false) :
    0 ≤ E ∧ m ≤ E ∧ 0 ≤ theta ∧ theta ≤ env.M_PI ∧ -env.M_PI ≤ phi ∧ phi ≤ env.M_PI := by
  obtain ⟨rt, rp, hrt, hrp, e1, -, -, -, -⟩ := adjustEThetaPhi_some env fuel m E theta phi a h
  obtain ⟨p1, -, -⟩ := wrapAngle_some env fuel _ _ rp hrp
  obtain ⟨t1, t2, -⟩ := wrapAngle_some env fuel _ _ rt hrt
  have hnot : ¬ (rp.1 = true) := by rw [← e1, hr]; simp
  have hrt1 : ¬ (rt.1 = true) := fun hh => hnot (p1.mpr (Or.inl (by simp [hh])))
  have h4 : ¬ (rt.2 < 0) := fun hh => hnot (p1.mpr (Or.inl (by simp [hh])))
  have h5 : ¬ (rt.2 > env.M_PI) := fun hh => hnot (p1.mpr (Or.inl (by simp [hh])))
  have hE : ¬ (E < 0) := fun hh => hrt1 (t1.mpr (Or.inl (by simp [hh])))
  have hm : ¬ (E < m) := fun hh => hrt1 (t1.mpr (Or.inl (by simp [hE, hh])))
  have h8 : ¬ (theta < -env.M_PI) :=
    fun hh => hrt1 (t1.mpr (Or.inr (Or.inl (by simpa [hE] using hh))))
  have h9 : ¬ (theta > env.M_PI) :=
    fun hh => hrt1 (t1.mpr (Or.inr (Or.inr (by simpa [hE] using hh))))
  have ht : rt.2 = theta := by
    have := t2 (by simp only [hE, if_false]; push_neg; exact ⟨not_lt.mp h8, not_lt.mp h9⟩)
    simpa [hE] using this
  rw [ht] at h4 h5
  have hno : ¬ (rt.2 < 0 ∨ rt.2 > env.M_PI) := by
    rw [ht]
    push_neg
    exact ⟨not_lt.mp h4, not_lt.mp h5⟩
  have h10 : ¬ (phi < -env.M_PI) :=
    fun hh => hnot (p1.mpr (Or.inr (Or.inl (by simpa [hE, hno] using hh))))
  have h11 : ¬ (phi > env.M_PI) :=
    fun hh => hnot (p1.mpr (Or.inr (Or.inr (by simpa [hE, hno] using hh))))
  exact ⟨not_lt.mp hE, not_lt.mp hm, not_lt.mp h4, not_lt.mp h5, not_lt.mp h10,
    not_lt.mp h11⟩

/-- C11: with `M_PI` the number pi, for all real `m`, `E`, `theta`, `phi` the call of
`adjustEThetaPhi` returns (from some fuel on, one and the same result), and it returns `true`
if and only if at least one of `E`, `theta`, `phi` differs between input and output. -/
theorem adjustEThetaPhi_true_iff_changed (env : Env ℝ) (hpi : env.M_PI = Real.pi)
    (m E theta phi : ℝ) :
    ∃ (N : ℕ) (a : Adjusted ℝ),
      (∀ fuel, N ≤ fuel → adjustEThetaPhi env fuel m E theta phi = some a) ∧
      (a.result = true ↔ (a.E ≠ E ∨ a.theta ≠ theta ∨ a.phi ≠ phi)) := by
  have hP : 0 < env.M_PI := hpi ▸ Real.pi_pos
  obtain ⟨N, a, h, -, hE, ht0, ht1, hp0, hp1⟩ := adjustEThetaPhi_spec env hP m E theta phi
  refine ⟨N, a, h, ?_⟩
  cases hr : a.result
  · obtain ⟨n1, n2, n3, n4, n5, n6⟩ :=
      adjustEThetaPhi_false env N m E theta phi a (h N le_rfl) hr
    have hn := adjustEThetaPhi_normal env N m E theta phi n1 n2 n3 n4 n5 n6
    rw [h N le_rfl, Option.some.injEq] at hn
    subst hn
    simp
  · simp only [true_iff]
    by_contra hsame
    push_neg at hsame
    obtain ⟨s1, s2, s3⟩ := hsame
    rw [s1] at hE
    rw [s2] at ht0 ht1
    rw [s3] at hp0 hp1
    have n1 : 0 ≤ E := by rw [hE]; exact le_max_of_le_left (abs_nonneg E)
    have n2 : m ≤ E := by rw [hE]; exact le_max_right _ _
    have hn := adjustEThetaPhi_normal env N m E theta phi n1 n2 ht0 ht1 hp0 hp1
    rw [h N le_rfl, Option.some.injEq] at hn
    rw [hn] at hr
    simp at hr

theorem adjustEThetaPhi_true_iff_changed_witness :
    (⟨Real.sqrt, Real.sin, Real.cos, Real.pi, 0, fun _ => none⟩ : Env ℝ).M_PI = Real.pi ∧
    ∃ (N : ℕ) (a : Adjusted ℝ),
      (∀ fuel, N ≤ fuel →
        adjustEThetaPhi ⟨Real.sqrt, Real.sin, Real.cos, Real.pi, 0, fun _ => none⟩ fuel
          1 (-2) 7 (-4) = some a) ∧
      (a.result = true ↔ (a.E ≠ -2 ∨ a.theta ≠ 7 ∨ a.phi ≠ -4)) :=
  ⟨rfl, adjustEThetaPhi_true_iff_changed
    ⟨Real.sqrt, Real.sin, Real.cos, Real.pi, 0, fun _ => none⟩ rfl 1 (-2) 7 (-4)⟩

/-! ## The constructor -/

/-- Everything the constructor records once `adjustEThetaPhi` has returned the locals
`a`. -/
theorem new_records (env : Env ℝ) (fuel : ℕ) (s0 : JetFitObject ℝ)
    (E theta phi DE Dtheta Dphi m : ℝ) (a : Adjusted ℝ)
    (h : adjustEThetaPhi env fuel m E theta phi = some a) :
    ∃ s, new env fuel s0 E theta phi DE Dtheta Dphi m = some s ∧
      (s.par 0 = a.E ∧ s.par 1 = a.theta ∧ s.par 2 = a.phi) ∧
      (s.mpar 0 = a.E ∧ s.mpar 1 = a.theta ∧ s.mpar 2 = a.phi) ∧
      (s.measured 0 = true ∧ s.measured 1 = true ∧ s.measured 2 = true) ∧
      (s.fixed 0 = false ∧ s.fixed 1 = false ∧ s.fixed 2 = false) ∧
      s.mass = m ∧ s.cachevalid = false ∧ s.covinvvalid = false := by
  refine ⟨_, by simp only [new, h, Option.some_bind, setParamFlags_eq _ _ _ _ _
    (show (0 : Int) ≤ 0 ∧ (0 : Int) < 3 by decide), setParamFlags_eq _ _ _ _ _
    (show (0 : Int) ≤ 1 ∧ (1 : Int) < 3 by decide), setParamFlags_eq _ _ _ _ _
    (show (0 : Int) ≤ 2 ∧ (2 : Int) < 3 by decide), Option.map_some']; rfl,
    ⟨?_, ?_, ?_⟩, ⟨?_, ?_, ?_⟩, ⟨?_, ?_, ?_⟩, ⟨?_, ?_, ?_⟩, ?_, ?_, ?_⟩ <;>
    simp [invalidateCache, setError, setMParam, setMass, initCov]

/-- With all three residuals zero and a valid inverse covariance the chi-square is zero. -/
theorem calcChi2_zero_of_equal (env : Env ℝ) (hpi : env.M_PI = Real.pi) (s : JetFitObject ℝ)
    (hv : (calcChi2 env s).2.covinvvalid = true)
    (h0 : s.par 0 = s.mpar 0) (h1 : s.par 1 = s.mpar 1) (h2 : s.par 2 = s.mpar 2) :
    (calcChi2 env s).1 = 0 := by
  have hp := Real.pi_pos
  obtain ⟨r0, r1⟩ := resid_zero_one env s
  have e0 : resid env s 0 = 0 := by rw [r0, h0]; simp
  have e1 : resid env s 1 = 0 := by rw [r1, h1]; simp
  have e2 : resid env s 2 = 0 := by
    simp [resid, isParamMeasured, isParamFixed, h2, hpi, not_lt.mpr hp.le]
  rw [calcChi2_value env s hv, e0, e1, e2]
  ring

theorem adjustEThetaPhi_clamped_example (env : Env ℝ) (hpi : env.M_PI = Real.pi) (fuel : ℕ) :
    adjustEThetaPhi env fuel 5 1 0.2 0.1 = some ⟨true, 5, 5, 0.2, 0.1⟩ := by
  have h3 := Real.pi_gt_three
  have w1 : wrapAngle env fuel true 0.2 = some (true, 0.2) :=
    wrapAngle_inRange env fuel true 0.2 (by rw [hpi]; norm_num; linarith)
      (by rw [hpi]; norm_num; linarith)
  have w2 : wrapAngle env fuel true 0.1 = some (true, 0.1) :=
    wrapAngle_inRange env fuel true 0.1 (by rw [hpi]; norm_num; linarith)
      (by rw [hpi]; norm_num; linarith)
  have h4 : ¬ ((0.2 : ℝ) < 0) := by norm_num
  have h5 : ¬ (Real.pi < (0.2 : ℝ)) := by norm_num; linarith
  have h6 : ¬ ((1 : ℝ) < 0) := by norm_num
  have h7 : (1 : ℝ) < 5 := by norm_num
  simp [adjustEThetaPhi, w1, w2, h4, h5, h6, h7, hpi]

/-- What the constructor establishes: with exact `<cmath>` functions, for all constructor
inputs it returns (from some fuel on) an object with `par[i] = mpar[i] =` the `i`-th
component of the output of `adjustEThetaPhi` for `i = 0, 1, 2`, every parameter flagged
measured and not fixed; and when the covariance is invertible and `m <= 0` or `|E| > m`,
`getChi2` returns `0`.  Nothing is stated on `getChi2` for `0 < m` and `|E| <= m`. -/
theorem constructor_records_adjusted (env : Env ℝ) (hx : env.Exact) (s0 : JetFitObject ℝ)
    (E theta phi DE Dtheta Dphi m : ℝ) :
    ∃ (N : ℕ) (a : Adjusted ℝ) (s : JetFitObject ℝ),
      (∀ fuel, N ≤ fuel → adjustEThetaPhi env fuel m E theta phi = some a ∧
        new env fuel s0 E theta phi DE Dtheta Dphi m = some s) ∧
      (s.par 0 = a.E ∧ s.mpar 0 = a.E) ∧ (s.par 1 = a.theta ∧ s.mpar 1 = a.theta) ∧
      (s.par 2 = a.phi ∧ s.mpar 2 = a.phi) ∧
      (∀ i : Int, i = 0 ∨ i = 1 ∨ i = 2 → s.measured i = true ∧ s.fixed i = false) ∧
      ((∃ ci, env.covInverse s.cov = some ci) → (m ≤ 0 ∨ m < |E|) →
        getChi2 env s = some 0) := by
  have hpi : env.M_PI = Real.pi := hx.2.2.2
  have hP : 0 < env.M_PI := hpi ▸ Real.pi_pos
  obtain ⟨N, a, h, -, hE, -⟩ := adjustEThetaPhi_spec env hP m E theta phi
  obtain ⟨s, hs, ⟨p0, p1, p2⟩, ⟨m0, m1, m2⟩, ⟨f0, f1, f2⟩, ⟨g0, g1, g2⟩, hmass, hcv, hci⟩ :=
    new_records env N s0 E theta phi DE Dtheta Dphi m a (h N le_rfl)
  refine ⟨N, a, s, fun fuel hf => ⟨h fuel hf, ?_⟩, ⟨p0, m0⟩, ⟨p1, m1⟩, ⟨p2, m2⟩, ?_, ?_⟩
  · rw [← hs]
    simp only [new, h fuel hf, h N le_rfl]
  · rintro i (rfl | rfl | rfl)
    · exact ⟨f0, g0⟩
    · exact ⟨f1, g1⟩
    · exact ⟨f2, g2⟩
  · rintro ⟨ci, hinv⟩ hin
    have hne : s.mass > 0 → Real.sqrt |s.par 0 * s.par 0 - s.mass * s.mass| ≠ 0 := by
      intro hpos
      rw [hmass] at hpos
      have hlt : m < |E| := by
        rcases hin with h1 | h1
        · exact absurd hpos (not_lt.mpr h1)
        · exact h1
      rw [p0, hE, hmass, max_eq_left hlt.le]
      exact sqrt_radicand_ne_zero m |E| hpos.le hlt
    have hvalid : (calcChi2 env s).2.covinvvalid = true := by
      rw [calcChi2_state]
      simp [hci, calculateCovInv, hinv]
    have hzero := calcChi2_zero_of_equal env hpi s hvalid (p0.trans m0.symm)
      (p1.trans m1.symm) (p2.trans m2.symm)
    simp only [getChi2, ensureCache, hcv, Bool.not_false, if_true,
      updateCache_eq env hx s hne, Option.map_some', hzero]
    rfl

theorem constructor_records_adjusted_witness :
    (⟨Real.sqrt, Real.sin, Real.cos, Real.pi, 0,
      fun c => some (fun i j => if i = j then 1 / c i i else 0)⟩ : Env ℝ).Exact ∧
    ∃ (N : ℕ) (a : Adjusted ℝ) (s : JetFitObject ℝ),
      (∀ fuel, N ≤ fuel →
        adjustEThetaPhi ⟨Real.sqrt, Real.sin, Real.cos, Real.pi, 0,
          fun c => some (fun i j => if i = j then 1 / c i i else 0)⟩ fuel 0 50 1 0 = some a ∧
        new ⟨Real.sqrt, Real.sin, Real.cos, Real.pi, 0,
          fun c => some (fun i j => if i = j then 1 / c i i else 0)⟩ fuel blank
          50 1 0 5 0.01 0.01 0 = some s) ∧
      (s.par 0 = a.E ∧ s.mpar 0 = a.E) ∧ (s.par 1 = a.theta ∧ s.mpar 1 = a.theta) ∧
      (s.par 2 = a.phi ∧ s.mpar 2 = a.phi) ∧
      (∀ i : Int, i = 0 ∨ i = 1 ∨ i = 2 → s.measured i = true ∧ s.fixed i = false) ∧
      getChi2 ⟨Real.sqrt, Real.sin, Real.cos, Real.pi, 0,
        fun c => some (fun i j => if i = j then 1 / c i i else 0)⟩ s = some 0 := by
  obtain ⟨N, a, s, h, h0, h1, h2, hf, hchi⟩ := constructor_records_adjusted
    ⟨Real.sqrt, Real.sin, Real.cos, Real.pi, 0,
      fun c => some (fun i j => if i = j then 1 / c i i else 0)⟩ ⟨rfl, rfl, rfl, rfl⟩
    blank 50 1 0 5 0.01 0.01 0
  exact ⟨⟨rfl, rfl, rfl, rfl⟩, N, a, s, h, h0, h1, h2, hf,
    hchi ⟨_, rfl⟩ (Or.inl (le_refl 0))⟩

/-- C12, the code at a failing input: the constructor run on
`(E=1, theta=0.2, phi=0.1, DE=0.5, Dtheta=0.01, Dphi=0.01, m=5)` returns an object with
`par[0] = mass = 5` (the clamp `if (E < m) E = m` of `adjustEThetaPhi`) and an invertible
covariance, on which `getChi2` trips `assert (p != 0)` in `updateCache` instead of
returning `0`. -/
theorem getChi2_aborts_after_clamped_construction :
    ∃ s : JetFitObject ℝ,
      new ⟨Real.sqrt, Real.sin, Real.cos, Real.pi, 0,
        fun c => some (fun i j => if i = j then 1 / c i i else 0)⟩ 0 blank
        1 0.2 0.1 0.5 0.01 0.01 5 = some s ∧
      s.par 0 = 5 ∧ s.mass = 5 ∧
      (∃ ci, (⟨Real.sqrt, Real.sin, Real.cos, Real.pi, 0,
        fun c => some (fun i j => if i = j then 1 / c i i else 0)⟩ : Env ℝ).covInverse s.cov
          = some ci) ∧
      getChi2 ⟨Real.sqrt, Real.sin, Real.cos, Real.pi, 0,
        fun c => some (fun i j => if i = j then 1 / c i i else 0)⟩ s = none := by
  obtain ⟨s, hs, ⟨p0, -, -⟩, -, -, -, hmass, hcv, -⟩ := new_records
    ⟨Real.sqrt, Real.sin, Real.cos, Real.pi, 0,
      fun c => some (fun i j => if i = j then 1 / c i i else 0)⟩ 0 blank
    1 0.2 0.1 0.5 0.01 0.01 5 _ (adjustEThetaPhi_clamped_example _ rfl 0)
  refine ⟨s, hs, p0, hmass, ⟨_, rfl⟩, ?_⟩
  have hz : Real.sqrt |s.par 0 * s.par 0 - s.mass * s.mass| = 0 := by
    rw [p0, hmass]
    simp
  simp only [getChi2, ensureCache, hcv, Bool.not_false, if_true]
  rw [updateCache_none _ ⟨rfl, rfl, rfl, rfl⟩ s (by rw [hmass]; norm_num) hz]
  rfl

/-! ## Mirroring in `updateParams` against `adjustEThetaPhi` -/

/-- The angles returned by `adjustEThetaPhi` point in the direction given by the angles it
was called with, after the mirroring that a negative energy causes. -/
theorem adjustEThetaPhi_direction (env : Env ℝ) (hpi : env.M_PI = Real.pi) (fuel : ℕ)
    (m E theta phi : ℝ) (a : Adjusted ℝ)
    (h : adjustEThetaPhi env fuel m E theta phi = some a) :
    Real.sin a.theta * Real.cos a.phi
      = Real.sin (if E < 0 then Real.pi - theta else theta)
        * Real.cos (if E < 0 then Real.pi + phi else phi) ∧
    Real.sin a.theta * Real.sin a.phi
      = Real.sin (if E < 0 then Real.pi - theta else theta)
        * Real.sin (if E < 0 then Real.pi + phi else phi) ∧
    Real.cos a.theta = Real.cos (if E < 0 then Real.pi - theta else theta) := by
  obtain ⟨rt, rp, hrt, hrp, -, -, -, e4, e5⟩ := adjustEThetaPhi_some env fuel m E theta phi a h
  obtain ⟨-, -, k, hk⟩ := wrapAngle_some env fuel _ _ rt hrt
  obtain ⟨-, -, l, hl⟩ := wrapAngle_some env fuel _ _ rp hrp
  rw [hpi] at hk hl e4
  have hs : Real.sin rt.2 = Real.sin (if E < 0 then Real.pi - theta else theta) := by
    rw [hk]; exact Real.sin_add_int_mul_two_pi _ k
  have hc : Real.cos rt.2 = Real.cos (if E < 0 then Real.pi - theta else theta) := by
    rw [hk]; exact Real.cos_add_int_mul_two_pi _ k
  rw [← hs, ← hc, e4, e5, hl, Real.sin_add_int_mul_two_pi, Real.cos_add_int_mul_two_pi]
  by_cases h1 : rt.2 < 0
  · have hflip : rt.2 < 0 ∨ rt.2 > Real.pi := Or.inl h1
    simp only [if_pos hflip, if_pos h1]
    by_cases h3 : (if E < 0 then Real.pi + phi else phi) > 0
    · simp only [if_pos h3, Real.sin_neg, Real.cos_neg, Real.sin_sub_pi, Real.cos_sub_pi]
      refine ⟨by ring, by ring, trivial⟩
    · simp only [if_neg h3, Real.sin_neg, Real.cos_neg, Real.sin_add_pi, Real.cos_add_pi]
      refine ⟨by ring, by ring, trivial⟩
  · by_cases h2 : rt.2 > Real.pi
    · have hflip : rt.2 < 0 ∨ rt.2 > Real.pi := Or.inr h2
      simp only [if_pos hflip, if_neg h1, if_pos h2]
      by_cases h3 : (if E < 0 then Real.pi + phi else phi) > 0
      · simp only [if_pos h3, Real.sin_two_pi_sub, Real.cos_two_pi_sub, Real.sin_sub_pi,
          Real.cos_sub_pi]
        refine ⟨by ring, by ring, trivial⟩
      · simp only [if_neg h3, Real.sin_two_pi_sub, Real.cos_two_pi_sub, Real.sin_add_pi,
          Real.cos_add_pi]
        refine ⟨by ring, by ring, trivial⟩
    · have hflip : ¬ (rt.2 < 0 ∨ rt.2 > Real.pi) := by
        push_neg
        exact ⟨not_lt.mp h1, not_lt.mp h2⟩
      simp only [if_neg hflip, if_neg h1, if_neg h2]
      exact ⟨trivial, trivial, trivial⟩

theorem updateParams_mirrored (env : Env ℝ) (s : JetFitObject ℝ) (p : Int → ℝ) (idim : Int)
    (hE : 0 ≤ s.globalParNum 0 ∧ s.globalParNum 0 < idim)
    (hth : 0 ≤ s.globalParNum 1 ∧ s.globalParNum 1 < idim)
    (hph : 0 ≤ s.globalParNum 2 ∧ s.globalParNum 2 < idim)
    (hneg : p (s.globalParNum 0) < 0) :
    ∃ (r : Bool) (p' : Int → ℝ) (s' : JetFitObject ℝ),
      updateParams env p idim s = some (r, p', s') ∧
      s'.par 0 = (if -p (s.globalParNum 0) < s.mass * 1.0000001 then s.mass * 1.0000001
        else -p (s.globalParNum 0)) ∧
      s'.par 1 = env.M_PI - p (s.globalParNum 1) ∧
      s'.par 2 = env.M_PI + p (s.globalParNum 2) ∧
      s'.mass = s.mass ∧ s'.cachevalid = false := by
  have hv : (0 ≤ s.globalParNum 0 ∧ s.globalParNum 0 < idim) ∧
      (0 ≤ s.globalParNum 1 ∧ s.globalParNum 1 < idim) ∧
      (0 ≤ s.globalParNum 2 ∧ s.globalParNum 2 < idim) := ⟨hE, hth, hph⟩
  simp only [updateParams, getGlobalParNum, invalidateCache, if_pos hv]
  refine ⟨_, _, _, rfl, ?_, ?_, ?_, rfl, rfl⟩
  · simp [hneg]
  · simp [hneg]
  · simp [hneg]

theorem getP_components (env : Env ℝ) (hx : env.Exact) (s : JetFitObject ℝ)
    (hc : s.cachevalid = false)
    (h : s.mass > 0 → Real.sqrt |s.par 0 * s.par 0 - s.mass * s.mass| ≠ 0) :
    getPx env s = some (pmag Real.sqrt s.mass (s.par 0) * Real.sin (s.par 1)
      * Real.cos (s.par 2)) ∧
    getPy env s = some (pmag Real.sqrt s.mass (s.par 0) * Real.sin (s.par 1)
      * Real.sin (s.par 2)) ∧
    getPz env s = some (pmag Real.sqrt s.mass (s.par 0) * Real.cos (s.par 1)) := by
  simp only [getPx, getPy, getPz, ensureCache, hc, Bool.not_false, if_true,
    updateCache_eq env hx s h, Option.map_some', fillCache]
  exact ⟨trivial, trivial, trivial⟩

/-- C15, as amended: over the exact environment, for a fit object with `mass ≥ 0`, global
numbers inside `idim`, and a pulled energy `e < 0` with `mass*1.0000001 ≤ -e`, `updateParams`
returns, `adjustEThetaPhi` on the pulled `(mass, e, th, ph)` returns for all large enough
fuel, and `getPx`, `getPy`, `getPz` after `updateParams` return the components of
`directMomentum` at the values `adjustEThetaPhi` leaves. -/
theorem updateParams_mirror_matches_adjust (env : Env ℝ) (hx : env.Exact)
    (s : JetFitObject ℝ) (p : Int → ℝ) (idim : Int)
    (hE : 0 ≤ s.globalParNum 0 ∧ s.globalParNum 0 < idim)
    (hth : 0 ≤ s.globalParNum 1 ∧ s.globalParNum 1 < idim)
    (hph : 0 ≤ s.globalParNum 2 ∧ s.globalParNum 2 < idim)
    (hm : 0 ≤ s.mass)
    (hneg : p (s.globalParNum 0) < 0)
    (hbig : s.mass * 1.0000001 ≤ -p (s.globalParNum 0)) :
    ∃ (r : Bool) (p' : Int → ℝ) (s' : JetFitObject ℝ) (N : ℕ) (a : Adjusted ℝ),
      updateParams env p idim s = some (r, p', s') ∧
      (∀ fuel, N ≤ fuel → adjustEThetaPhi env fuel s.mass (p (s.globalParNum 0))
        (p (s.globalParNum 1)) (p (s.globalParNum 2)) = some a) ∧
      getPx env s' = some (directMomentum env a.m a.E a.theta a.phi).1 ∧
      getPy env s' = some (directMomentum env a.m a.E a.theta a.phi).2.1 ∧
      getPz env s' = some (directMomentum env a.m a.E a.theta a.phi).2.2 := by
  have hx' := hx
  obtain ⟨h1, h2, h3, h4⟩ := hx'
  obtain ⟨r, p', s', hu, e0, e1, e2, em, ec⟩ :=
    updateParams_mirrored env s p idim hE hth hph hneg
  rw [if_neg (not_lt.mpr hbig)] at e0
  obtain ⟨N, a, ha, am, aE, -⟩ := adjustEThetaPhi_spec env (by rw [h4]; exact Real.pi_pos)
    s.mass (p (s.globalParNum 0)) (p (s.globalParNum 1)) (p (s.globalParNum 2))
  obtain ⟨d1, d2, d3⟩ := adjustEThetaPhi_direction env h4 N _ _ _ _ a (ha N le_rfl)
  simp only [if_pos hneg] at d1 d2 d3
  have hlt : s.mass > 0 → s.mass < -p (s.globalParNum 0) := fun h => by nlinarith
  have hle : s.mass ≤ -p (s.globalParNum 0) := by nlinarith
  have hnz : s'.mass > 0 → Real.sqrt |s'.par 0 * s'.par 0 - s'.mass * s'.mass| ≠ 0 := by
    intro h
    rw [em] at h
    rw [em, e0]
    exact sqrt_radicand_ne_zero _ _ hm (hlt h)
  obtain ⟨g1, g2, g3⟩ := getP_components env hx s' ec hnz
  have aE' : a.E = -p (s.globalParNum 0) := by
    rw [aE, abs_of_neg hneg, max_eq_left hle]
  have hp : pmag Real.sqrt s'.mass (s'.par 0)
      = (if a.m = 0 then a.E else Real.sqrt (a.E * a.E - a.m * a.m)) := by
    rw [em, e0, am, aE']
    unfold pmag
    by_cases h0 : s.mass = 0
    · simp [h0]
    · have hpos : s.mass > 0 := lt_of_le_of_ne hm (Ne.symm h0)
      rw [if_pos hpos, if_neg h0, abs_of_pos (radicand_pos _ _ hm (hlt hpos))]
  refine ⟨r, p', s', N, a, hu, ha, ?_, ?_, ?_⟩
  · rw [g1, hp, e1, e2, h4]
    simp only [directMomentum, h1, h2, h3]
    rw [mul_assoc, mul_assoc, d1]
  · rw [g2, hp, e1, e2, h4]
    simp only [directMomentum, h1, h2, h3]
    rw [mul_assoc, mul_assoc, d2]
  · rw [g3, hp, e1, h4]
    simp only [directMomentum, h1, h2, h3]
    rw [d3]

theorem updateParams_mirror_matches_adjust_witness :
    ∃ (r : Bool) (p' : Int → ℝ) (s' : JetFitObject ℝ) (N : ℕ) (a : Adjusted ℝ),
      updateParams ⟨Real.sqrt, Real.sin, Real.cos, Real.pi, 0, fun _ => none⟩
        (fun _ => -7) 3 (sample : JetFitObject ℝ) = some (r, p', s') ∧
      (∀ fuel, N ≤ fuel →
        adjustEThetaPhi ⟨Real.sqrt, Real.sin, Real.cos, Real.pi, 0, fun _ => none⟩ fuel
          3 (-7) (-7) (-7) = some a) ∧
      getPx ⟨Real.sqrt, Real.sin, Real.cos, Real.pi, 0, fun _ => none⟩ s'
        = some (directMomentum ⟨Real.sqrt, Real.sin, Real.cos, Real.pi, 0, fun _ => none⟩
            a.m a.E a.theta a.phi).1 ∧
      getPy ⟨Real.sqrt, Real.sin, Real.cos, Real.pi, 0, fun _ => none⟩ s'
        = some (directMomentum ⟨Real.sqrt, Real.sin, Real.cos, Real.pi, 0, fun _ => none⟩
            a.m a.E a.theta a.phi).2.1 ∧
      getPz ⟨Real.sqrt, Real.sin, Real.cos, Real.pi, 0, fun _ => none⟩ s'
        = some (directMomentum ⟨Real.sqrt, Real.sin, Real.cos, Real.pi, 0, fun _ => none⟩
            a.m a.E a.theta a.phi).2.2 :=
  updateParams_mirror_matches_adjust
    ⟨Real.sqrt, Real.sin, Real.cos, Real.pi, 0, fun _ => none⟩ ⟨rfl, rfl, rfl, rfl⟩
    sample (fun _ => -7) 3 (by simp [sample, blank]) (by simp [sample, blank])
    (by simp [sample, blank]) (by simp [sample]) (by norm_num)
    (by simp [sample]; norm_num)

theorem adjustEThetaPhi_at_threshold_example (env : Env ℝ) (hpi : env.M_PI = Real.pi)
    (fuel : ℕ) :
    adjustEThetaPhi env fuel 1 (-1) 0 0 = some ⟨true, 1, 1, Real.pi, Real.pi⟩ := by
  have h0 := Real.pi_pos
  have w1 : wrapAngle env fuel true Real.pi = some (true, Real.pi) :=
    wrapAngle_inRange env fuel true Real.pi (by rw [hpi]; linarith) (by rw [hpi])
  have h4 : ¬ (Real.pi < 0) := not_lt.mpr h0.le
  simp [adjustEThetaPhi, w1, h4, hpi]

/-- C15, the claim as stated fails: on the object with `mass = 1` and the vector
`p = (-1, 0, 0)`, whose pulled energy is negative, `updateParams` raises the mirrored energy
`1` to `1.0000001` whereas `adjustEThetaPhi` leaves it at `1`; so `getPz` after
`updateParams` returns `-sqrt(1.0000001² - 1)`, not the `0` of the direct computation. -/
theorem updateParams_mirror_differs_near_mass :
    ∃ (r : Bool) (p' : Int → ℝ) (s' : JetFitObject ℝ) (a : Adjusted ℝ),
      (0 : ℝ) ≤ ({ (blank : JetFitObject ℝ) with mass := 1 } : JetFitObject ℝ).mass ∧
      updateParams ⟨Real.sqrt, Real.sin, Real.cos, Real.pi, 0, fun _ => none⟩
        (fun i => if i = 0 then -1 else 0) 3 { (blank : JetFitObject ℝ) with mass := 1 }
        = some (r, p', s') ∧
      (∀ fuel, adjustEThetaPhi ⟨Real.sqrt, Real.sin, Real.cos, Real.pi, 0, fun _ => none⟩
        fuel 1 (-1) 0 0 = some a) ∧
      getPz ⟨Real.sqrt, Real.sin, Real.cos, Real.pi, 0, fun _ => none⟩ s'
        ≠ some (directMomentum ⟨Real.sqrt, Real.sin, Real.cos, Real.pi, 0, fun _ => none⟩
            a.m a.E a.theta a.phi).2.2 := by
  obtain ⟨r, p', s', hu, e0, e1, -, em, ec⟩ := updateParams_mirrored
    ⟨Real.sqrt, Real.sin, Real.cos, Real.pi, 0, fun _ => none⟩
    { (blank : JetFitObject ℝ) with mass := 1 } (fun i => if i = 0 then -1 else 0) 3
    (by simp [blank]) (by simp [blank]) (by simp [blank]) (by simp [blank])
  have e0' : s'.par 0 = 1.0000001 := by
    rw [e0]; simp [blank]; norm_num
  have e1' : s'.par 1 = Real.pi := by
    rw [e1]; simp [blank]
  have em' : s'.mass = 1 := em
  have hpos : (0 : ℝ) < 1.0000001 * 1.0000001 - 1 * 1 := by norm_num
  have hnz : Real.sqrt |(1.0000001 : ℝ) * 1.0000001 - 1 * 1| ≠ 0 := by
    rw [abs_of_pos hpos]
    exact (Real.sqrt_pos.mpr hpos).ne'
  obtain ⟨-, -, g3⟩ := getP_components
    ⟨Real.sqrt, Real.sin, Real.cos, Real.pi, 0, fun _ => none⟩ ⟨rfl, rfl, rfl, rfl⟩ s' ec
    (by rw [e0', em']; exact fun _ => hnz)
  refine ⟨r, p', s', ⟨true, 1, 1, Real.pi, Real.pi⟩, by simp, hu,
    fun fuel => adjustEThetaPhi_at_threshold_example _ rfl fuel, ?_⟩
  rw [g3, e0', e1', em']
  simp only [directMomentum, pmag]
  intro h
  have h' := Option.some.inj h
  simp at h'
  norm_num at h'

/-! ## Cross terms -/

theorem addAt_apply (a : Int → ℝ) (i x : Int) (v : ℝ) :
    addAt a i v x = a x + (if x = i then v else 0) := by
  by_cases h : x = i
  · subst h; simp [addAt]
  · simp [addAt, h]

/-- C20: for `kglobal` and the three global numbers inside `idim`, on an object whose cache
check passes, `addTo1stDerivatives` adds the chain-rule images
`dE = der[0] + der[1]*dpxdE + der[2]*dpydE + der[3]*dpzdE`,
`dth = der[1]*dpxdtheta + der[2]*dpydtheta - der[3]*pt` and `dph = -der[1]*py + der[2]*px`
at `M[k][g_i]` and at `M[g_i][k]` (an entry hit by several of the six additions receives
their sum), changes no other entry of `M`, and keeps a symmetric `idim x idim` matrix
symmetric. -/
theorem addTo1stDerivatives_keeps_symmetry (env : Env ℝ) (s c : JetFitObject ℝ)
    (M : Int → ℝ) (idim : Int) (der : Int → ℝ) (kglobal : Int)
    (hk : 0 ≤ kglobal ∧ kglobal < idim)
    (hE : 0 ≤ s.globalParNum 0 ∧ s.globalParNum 0 < idim)
    (hth : 0 ≤ s.globalParNum 1 ∧ s.globalParNum 1 < idim)
    (hph : 0 ≤ s.globalParNum 2 ∧ s.globalParNum 2 < idim)
    (hc : ensureCache env s = some c) :
    ∃ (M' : Int → ℝ) (dE dth dph : ℝ),
      addTo1stDerivatives env M idim der kglobal s = some (M', c) ∧
      dE = der 0 + der 1 * c.dpxdE + der 2 * c.dpydE + der 3 * c.dpzdE ∧
      dth = der 1 * c.dpxdtheta + der 2 * c.dpydtheta - der 3 * c.pt ∧
      dph = -der 1 * c.py + der 2 * c.px ∧
      (∀ x : Int, M' x = M x
        + (if x = idim * kglobal + s.globalParNum 0 then dE else 0)
        + (if x = idim * kglobal + s.globalParNum 1 then dth else 0)
        + (if x = idim * kglobal + s.globalParNum 2 then dph else 0)
        + (if x = idim * s.globalParNum 0 + kglobal then dE else 0)
        + (if x = idim * s.globalParNum 1 + kglobal then dth else 0)
        + (if x = idim * s.globalParNum 2 + kglobal then dph else 0)) ∧
      ((∀ a b : Int, 0 ≤ a ∧ a < idim → 0 ≤ b ∧ b < idim →
          M (idim * a + b) = M (idim * b + a)) →
        ∀ a b : Int, 0 ≤ a ∧ a < idim → 0 ≤ b ∧ b < idim →
          M' (idim * a + b) = M' (idim * b + a)) := by
  have hv : (0 ≤ s.globalParNum 0 ∧ s.globalParNum 0 < idim) ∧
      (0 ≤ s.globalParNum 1 ∧ s.globalParNum 1 < idim) ∧
      (0 ≤ s.globalParNum 2 ∧ s.globalParNum 2 < idim) := ⟨hE, hth, hph⟩
  have hall : ∀ x : Int,
      addAt (addAt (addAt (addAt (addAt (addAt M
        (idim * kglobal + s.globalParNum 0)
          (der 0 + der 1 * c.dpxdE + der 2 * c.dpydE + der 3 * c.dpzdE))
        (idim * kglobal + s.globalParNum 1)
          (der 1 * c.dpxdtheta + der 2 * c.dpydtheta - der 3 * c.pt))
        (idim * kglobal + s.globalParNum 2) (-der 1 * c.py + der 2 * c.px))
        (idim * s.globalParNum 0 + kglobal)
          (der 0 + der 1 * c.dpxdE + der 2 * c.dpydE + der 3 * c.dpzdE))
        (idim * s.globalParNum 1 + kglobal)
          (der 1 * c.dpxdtheta + der 2 * c.dpydtheta - der 3 * c.pt))
        (idim * s.globalParNum 2 + kglobal) (-der 1 * c.py + der 2 * c.px) x
      = M x
        + (if x = idim * kglobal + s.globalParNum 0
            then der 0 + der 1 * c.dpxdE + der 2 * c.dpydE + der 3 * c.dpzdE else 0)
        + (if x = idim * kglobal + s.globalParNum 1
            then der 1 * c.dpxdtheta + der 2 * c.dpydtheta - der 3 * c.pt else 0)
        + (if x = idim * kglobal + s.globalParNum 2
            then -der 1 * c.py + der 2 * c.px else 0)
        + (if x = idim * s.globalParNum 0 + kglobal
            then der 0 + der 1 * c.dpxdE + der 2 * c.dpydE + der 3 * c.dpzdE else 0)
        + (if x = idim * s.globalParNum 1 + kglobal
            then der 1 * c.dpxdtheta + der 2 * c.dpydtheta - der 3 * c.pt else 0)
        + (if x = idim * s.globalParNum 2 + kglobal
            then -der 1 * c.py + der 2 * c.px else 0) := by
    intro x
    simp only [addAt_apply]
  refine ⟨_, _, _, _,
    by simp only [addTo1stDerivatives, if_pos hk, if_pos hv, hc, Option.map_some'],
    rfl, rfl, rfl, hall, ?_⟩
  intro hsym a b ha hb
  rw [hall, hall, hsym a b ha hb]
  simp only [index_inj idim a b kglobal _ hb hE, index_inj idim a b kglobal _ hb hth,
    index_inj idim a b kglobal _ hb hph, index_inj idim a b _ kglobal hb hk,
    index_inj idim b a kglobal _ ha hE, index_inj idim b a kglobal _ ha hth,
    index_inj idim b a kglobal _ ha hph, index_inj idim b a _ kglobal ha hk]
  have e0 : (b = s.globalParNum 0 ∧ a = kglobal) ↔ (a = kglobal ∧ b = s.globalParNum 0) :=
    and_comm
  have e1 : (b = s.globalParNum 1 ∧ a = kglobal) ↔ (a = kglobal ∧ b = s.globalParNum 1) :=
    and_comm
  have e2 : (b = s.globalParNum 2 ∧ a = kglobal) ↔ (a = kglobal ∧ b = s.globalParNum 2) :=
    and_comm
  have f0 : (b = kglobal ∧ a = s.globalParNum 0) ↔ (a = s.globalParNum 0 ∧ b = kglobal) :=
    and_comm
  have f1 : (b = kglobal ∧ a = s.globalParNum 1) ↔ (a = s.globalParNum 1 ∧ b = kglobal) :=
    and_comm
  have f2 : (b = kglobal ∧ a = s.globalParNum 2) ↔ (a = s.globalParNum 2 ∧ b = kglobal) :=
    and_comm
  simp only [e0, e1, e2, f0, f1, f2]
  ring

theorem addTo1stDerivatives_keeps_symmetry_witness :
    ensureCache ⟨Real.sqrt, Real.sin, Real.cos, Real.pi, 0, fun _ => none⟩
        (withPar blank 0 5) = some (fillCache (withPar blank 0 5) (-1) 1 0 1 0 (5 * 5) 5 1) ∧
    ∃ (M' : Int → ℝ),
      addTo1stDerivatives ⟨Real.sqrt, Real.sin, Real.cos, Real.pi, 0, fun _ => none⟩
        (fun _ => 0) 3 (fun _ => 1) 1 (withPar blank 0 5)
        = some (M', fillCache (withPar blank 0 5) (-1) 1 0 1 0 (5 * 5) 5 1) ∧
      ∀ a b : Int, 0 ≤ a ∧ a < 3 → 0 ≤ b ∧ b < 3 → M' (3 * a + b) = M' (3 * b + a) := by
  have hc : ensureCache ⟨Real.sqrt, Real.sin, Real.cos, Real.pi, 0, fun _ => none⟩
      (withPar blank 0 5) = some (fillCache (withPar blank 0 5) (-1) 1 0 1 0 (5 * 5) 5 1) := by
    simp [ensureCache, updateCache, calcChi2, calculateCovInv, withPar, blank]
  obtain ⟨M', dE, dth, dph, h, -, -, -, -, hsym⟩ := addTo1stDerivatives_keeps_symmetry
    ⟨Real.sqrt, Real.sin, Real.cos, Real.pi, 0, fun _ => none⟩ (withPar blank 0 5)
    (fillCache (withPar blank 0 5) (-1) 1 0 1 0 (5 * 5) 5 1) (fun _ => 0) 3 (fun _ => 1) 1
    (by decide) (by decide) (by decide) (by decide) hc
  exact ⟨hc, M', h, hsym (fun _ _ _ _ => rfl)⟩

/-! ## The energy threshold and the mass shell -/

theorem updateParams_energy (env : Env ℝ) (s : JetFitObject ℝ) (p : Int → ℝ) (idim : Int)
    (hE : 0 ≤ s.globalParNum 0 ∧ s.globalParNum 0 < idim)
    (hth : 0 ≤ s.globalParNum 1 ∧ s.globalParNum 1 < idim)
    (hph : 0 ≤ s.globalParNum 2 ∧ s.globalParNum 2 < idim) :
    ∃ (r : Bool) (p' : Int → ℝ) (s' : JetFitObject ℝ),
      updateParams env p idim s = some (r, p', s') ∧ s'.mass = s.mass ∧
      s.mass * 1.0000001 ≤ s'.par 0 ∧ s'.cachevalid = false := by
  have hv : (0 ≤ s.globalParNum 0 ∧ s.globalParNum 0 < idim) ∧
      (0 ≤ s.globalParNum 1 ∧ s.globalParNum 1 < idim) ∧
      (0 ≤ s.globalParNum 2 ∧ s.globalParNum 2 < idim) := ⟨hE, hth, hph⟩
  simp only [updateParams, getGlobalParNum, invalidateCache, if_pos hv]
  refine ⟨_, _, _, rfl, rfl, ?_, rfl⟩
  dsimp only
  rw [Function.update_noteq (by norm_num), Function.update_noteq (by norm_num),
    Function.update_same]
  split_ifs <;> first | exact le_rfl | exact not_lt.mp (by assumption)

/-- Over exact real arithmetic: for an object with `mass > 0` and global numbers inside
`idim`, `updateParams` returns and leaves `par[0] ≥ 1.0000001 * mass > mass`, and
`updateCache` then computes `p = sqrt(E² - mass²) > 0`.  The statement is about the reals:
it does not cover squares `e*e`, `mass*mass` that underflow to `0`, as happens in the
doubles of the source for a mass as small as `2^-600`. -/
theorem updateParams_keeps_momentum_positive (env : Env ℝ) (hx : env.Exact)
    (s : JetFitObject ℝ) (p : Int → ℝ) (idim : Int)
    (hE : 0 ≤ s.globalParNum 0 ∧ s.globalParNum 0 < idim)
    (hth : 0 ≤ s.globalParNum 1 ∧ s.globalParNum 1 < idim)
    (hph : 0 ≤ s.globalParNum 2 ∧ s.globalParNum 2 < idim)
    (hm : 0 < s.mass) :
    ∃ (r : Bool) (p' : Int → ℝ) (s' c : JetFitObject ℝ),
      updateParams env p idim s = some (r, p', s') ∧ s'.mass = s.mass ∧
      s'.par 0 ≥ 1.0000001 * s'.mass ∧ 1.0000001 * s'.mass > s'.mass ∧
      s'.cachevalid = false ∧ updateCache env s' = some c ∧ c.p > 0 := by
  obtain ⟨r, p', s', hu, em, ege, ec⟩ := updateParams_energy env s p idim hE hth hph
  have hgt : s'.mass < s'.par 0 := by rw [em]; nlinarith
  have hm' : 0 < s'.mass := by rw [em]; exact hm
  have hpos := radicand_pos s'.mass (s'.par 0) hm'.le hgt
  have hnz : s'.mass > 0 → Real.sqrt |s'.par 0 * s'.par 0 - s'.mass * s'.mass| ≠ 0 :=
    fun _ => sqrt_radicand_ne_zero _ _ hm'.le hgt
  refine ⟨r, p', s', _, hu, em, ?_, ?_, ec, updateCache_eq env hx s' hnz, ?_⟩
  · rw [em]; linarith
  · rw [em]; linarith
  · show pmag Real.sqrt s'.mass (s'.par 0) > 0
    rw [pmag, if_pos hm', abs_of_pos hpos]
    exact Real.sqrt_pos.mpr hpos

theorem updateParams_keeps_momentum_positive_witness :
    ∃ (r : Bool) (p' : Int → ℝ) (s' c : JetFitObject ℝ),
      updateParams ⟨Real.sqrt, Real.sin, Real.cos, Real.pi, 0, fun _ => none⟩
        (fun _ => 1) 3 (sample : JetFitObject ℝ) = some (r, p', s') ∧ s'.mass = 3 ∧
      s'.par 0 ≥ 1.0000001 * s'.mass ∧ 1.0000001 * s'.mass > s'.mass ∧
      s'.cachevalid = false ∧
      updateCache ⟨Real.sqrt, Real.sin, Real.cos, Real.pi, 0, fun _ => none⟩ s' = some c ∧
      c.p > 0 :=
  updateParams_keeps_momentum_positive
    ⟨Real.sqrt, Real.sin, Real.cos, Real.pi, 0, fun _ => none⟩ ⟨rfl, rfl, rfl, rfl⟩
    sample (fun _ => 1) 3 (by simp [sample, blank]) (by simp [sample, blank])
    (by simp [sample, blank]) (by simp [sample])

theorem ensureCache_eq (env : Env ℝ) (hx : env.Exact) (s : JetFitObject ℝ)
    (hc : s.cachevalid = false)
    (h : s.mass > 0 → Real.sqrt |s.par 0 * s.par 0 - s.mass * s.mass| ≠ 0) :
    ensureCache env s = some (fillCache (calcChi2 env s).2 (calcChi2 env s).1
      (Real.cos (s.par 1)) (Real.sin (s.par 1)) (Real.cos (s.par 2)) (Real.sin (s.par 2))
      (if s.mass > 0 then |s.par 0 * s.par 0 - s.mass * s.mass| else s.par 0 * s.par 0)
      (pmag Real.sqrt s.mass (s.par 0)) (dpmag Real.sqrt s.mass (s.par 0))) := by
  simp only [ensureCache, hc, Bool.not_false, if_true]
  exact updateCache_eq env hx s h

/-- C27: over the exact environment, for an object with `mass ≥ 0`, `E > mass` when
`mass > 0` (for `mass = 0` the bound `E ≥ mass` of the claim is not used), any angles, and a
cache that has to be recomputed, the accessors return, and their values satisfy
`px² + py² + pz² = p² = getP2() = E² - mass²` and `px² + py² = pt² = getPt2()`. -/
theorem mass_shell_relations (env : Env ℝ) (hx : env.Exact) (s : JetFitObject ℝ)
    (hc : s.cachevalid = false) (hm : 0 ≤ s.mass) (hE' : 0 < s.mass → s.mass < s.par 0) :
    ∃ px py pz p pt : ℝ,
      getPx env s = some px ∧ getPy env s = some py ∧ getPz env s = some pz ∧
      getP env s = some p ∧ getPt env s = some pt ∧
      px * px + py * py + pz * pz = p * p ∧
      getP2 env s = some (p * p) ∧
      p * p = s.par 0 * s.par 0 - s.mass * s.mass ∧
      px * px + py * py = pt * pt ∧
      getPt2 env s = some (pt * pt) := by
  have hnz : s.mass > 0 → Real.sqrt |s.par 0 * s.par 0 - s.mass * s.mass| ≠ 0 :=
    fun h => sqrt_radicand_ne_zero _ _ hm (hE' h)
  have he := ensureCache_eq env hx s hc hnz
  have hpp : pmag Real.sqrt s.mass (s.par 0) * pmag Real.sqrt s.mass (s.par 0)
      = s.par 0 * s.par 0 - s.mass * s.mass := by
    unfold pmag
    by_cases h0 : s.mass > 0
    · have hpos := radicand_pos _ _ hm (hE' h0)
      rw [if_pos h0, abs_of_pos hpos, Real.mul_self_sqrt hpos.le]
    · have hz : s.mass = 0 := le_antisymm (not_lt.mp h0) hm
      rw [if_neg h0, hz]; ring
  have hp2 : (if s.mass > 0 then |s.par 0 * s.par 0 - s.mass * s.mass|
      else s.par 0 * s.par 0) = s.par 0 * s.par 0 - s.mass * s.mass := by
    by_cases h0 : s.mass > 0
    · rw [if_pos h0, abs_of_pos (radicand_pos _ _ hm (hE' h0))]
    · have hz : s.mass = 0 := le_antisymm (not_lt.mp h0) hm
      rw [if_neg h0, hz]; ring
  refine ⟨_, _, _, _, _, by rw [getPx, he]; rfl, by rw [getPy, he]; rfl,
    by rw [getPz, he]; rfl, by rw [getP, he]; rfl, by rw [getPt, he]; rfl, ?_, ?_, ?_, ?_, ?_⟩
  · have h1 := Real.sin_sq_add_cos_sq (s.par 1)
    have h2 := Real.sin_sq_add_cos_sq (s.par 2)
    simp only [fillCache]
    have e1 : Real.cos (s.par 1) ^ 2 = 1 - Real.sin (s.par 1) ^ 2 := by linarith
    have e2 : Real.cos (s.par 2) ^ 2 = 1 - Real.sin (s.par 2) ^ 2 := by linarith
    ring_nf
    rw [e1, e2]
    ring
  · rw [getP2, he]
    simp only [Option.map_some', fillCache, hp2, hpp]
  · exact hpp
  · have h2 := Real.sin_sq_add_cos_sq (s.par 2)
    simp only [fillCache]
    have e2 : Real.cos (s.par 2) ^ 2 = 1 - Real.sin (s.par 2) ^ 2 := by linarith
    ring_nf
    rw [e2]
    ring
  · rw [getPt2, he]; rfl

theorem mass_shell_relations_witness :
    ∃ px py pz p pt : ℝ,
      getPx ⟨Real.sqrt, Real.sin, Real.cos, Real.pi, 0, fun _ => none⟩
        (sample : JetFitObject ℝ) = some px ∧
      getPy ⟨Real.sqrt, Real.sin, Real.cos, Real.pi, 0, fun _ => none⟩
        (sample : JetFitObject ℝ) = some py ∧
      getPz ⟨Real.sqrt, Real.sin, Real.cos, Real.pi, 0, fun _ => none⟩
        (sample : JetFitObject ℝ) = some pz ∧
      getP ⟨Real.sqrt, Real.sin, Real.cos, Real.pi, 0, fun _ => none⟩
        (sample : JetFitObject ℝ) = some p ∧
      getPt ⟨Real.sqrt, Real.sin, Real.cos, Real.pi, 0, fun _ => none⟩
        (sample : JetFitObject ℝ) = some pt ∧
      px * px + py * py + pz * pz = p * p ∧
      getP2 ⟨Real.sqrt, Real.sin, Real.cos, Real.pi, 0, fun _ => none⟩
        (sample : JetFitObject ℝ) = some (p * p) ∧
      p * p = 16 ∧
      px * px + py * py = pt * pt ∧
      getPt2 ⟨Real.sqrt, Real.sin, Real.cos, Real.pi, 0, fun _ => none⟩
        (sample : JetFitObject ℝ) = some (pt * pt) := by
  obtain ⟨px, py, pz, p, pt, h1, h2, h3, h4, h5, h6, h7, h8, h9, h10⟩ :=
    mass_shell_relations ⟨Real.sqrt, Real.sin, Real.cos, Real.pi, 0, fun _ => none⟩
      ⟨rfl, rfl, rfl, rfl⟩ sample rfl (by simp [sample])
      (by intro _; simp [sample]; norm_num)
  refine ⟨px, py, pz, p, pt, h1, h2, h3, h4, h5, h6, h7, ?_, h9, h10⟩
  rw [h8]; simp [sample]; norm_num

/-! ## Where the energy reaches the mass, and where the cache stays stale -/

/-- C21, the code at a failing input: the object constructed from
`(E=5, theta=1, phi=2, DE=0.5, Dtheta=0.01, Dphi=0.01, m=3)` has `par[0] = 5 > mass = 3`;
after `setParam (0, 1)` it has `par[0] = mass = 3`, and `updateCache`, `getPx` and
`getDPx (0)` stop at `assert (p != 0)`. -/
theorem setParam_energy_clamp_trips_assertion :
    ∃ s : JetFitObject ℝ,
      new ⟨Real.sqrt, Real.sin, Real.cos, Real.pi, 0, fun _ => none⟩ 0 blank
        5 1 2 0.5 0.01 0.01 3 = some s ∧
      s.mass = 3 ∧ s.par 0 = 5 ∧
      (setParam ⟨Real.sqrt, Real.sin, Real.cos, Real.pi, 0, fun _ => none⟩ 0 1 s).2.mass = 3 ∧
      (setParam ⟨Real.sqrt, Real.sin, Real.cos, Real.pi, 0, fun _ => none⟩ 0 1 s).2.par 0
        = 3 ∧
      updateCache ⟨Real.sqrt, Real.sin, Real.cos, Real.pi, 0, fun _ => none⟩
        (setParam ⟨Real.sqrt, Real.sin, Real.cos, Real.pi, 0, fun _ => none⟩ 0 1 s).2
        = none ∧
      getPx ⟨Real.sqrt, Real.sin, Real.cos, Real.pi, 0, fun _ => none⟩
        (setParam ⟨Real.sqrt, Real.sin, Real.cos, Real.pi, 0, fun _ => none⟩ 0 1 s).2
        = none ∧
      getDPx ⟨Real.sqrt, Real.sin, Real.cos, Real.pi, 0, fun _ => none⟩ 0
        (setParam ⟨Real.sqrt, Real.sin, Real.cos, Real.pi, 0, fun _ => none⟩ 0 1 s).2
        = none := by
  have hpi3 := Real.pi_gt_three
  obtain ⟨s, hs, ⟨p0, -, -⟩, -, -, -, hmass, -, -⟩ := new_records
    ⟨Real.sqrt, Real.sin, Real.cos, Real.pi, 0, fun _ => none⟩ 0 blank
    5 1 2 0.5 0.01 0.01 3 _
    (adjustEThetaPhi_normal ⟨Real.sqrt, Real.sin, Real.cos, Real.pi, 0, fun _ => none⟩ 0
      3 5 1 2 (by norm_num) (by norm_num) (by norm_num) (by show (1 : ℝ) ≤ Real.pi; linarith)
      (by show -Real.pi ≤ (2 : ℝ); linarith) (by show (2 : ℝ) ≤ Real.pi; linarith))
  have tm : (setParam ⟨Real.sqrt, Real.sin, Real.cos, Real.pi, 0, fun _ => none⟩
      0 1 s).2.mass = 3 := by
    simp [setParam, invalidateCache, hmass]
  have tp : (setParam ⟨Real.sqrt, Real.sin, Real.cos, Real.pi, 0, fun _ => none⟩
      0 1 s).2.par 0 = 3 := by
    simp [setParam, invalidateCache, hmass]
  have tc : (setParam ⟨Real.sqrt, Real.sin, Real.cos, Real.pi, 0, fun _ => none⟩
      0 1 s).2.cachevalid = false := by
    simp [setParam, invalidateCache]
  have hu := updateCache_none ⟨Real.sqrt, Real.sin, Real.cos, Real.pi, 0, fun _ => none⟩
    ⟨rfl, rfl, rfl, rfl⟩
    (setParam ⟨Real.sqrt, Real.sin, Real.cos, Real.pi, 0, fun _ => none⟩ 0 1 s).2
    (by rw [tm]; norm_num) (by rw [tm, tp]; simp)
  refine ⟨s, hs, hmass, p0, tm, tp, hu, ?_, ?_⟩
  · simp only [getPx, ensureCache, tc, Bool.not_false, if_true, hu, Option.map_none']
  · simp only [getDPx, ensureCache, tc, Bool.not_false, if_true, hu, Option.map_none']
    simp [NPAR]

/-- C24, the code at a failing input: on the massless object constructed from
`(E=5, theta=0, phi=0, DE=0.5, Dtheta=0.01, Dphi=0.01, m=0)` a first `getPz` fills the
cache and returns `5`; `setParam (0, 10, true, false)` then stores `par[0] = 10` and, the
flags being unchanged, leaves `cachevalid` true, so that `getPz` still returns `5` while a
recomputation from `par[]` gives `10`. -/
theorem setParamFlags_keeps_stale_cache :
    ∃ s c c' : JetFitObject ℝ,
      new ⟨Real.sqrt, Real.sin, Real.cos, Real.pi, 0, fun _ => none⟩ 0 blank
        5 0 0 0.5 0.01 0.01 0 = some s ∧
      ensureCache ⟨Real.sqrt, Real.sin, Real.cos, Real.pi, 0, fun _ => none⟩ s = some c ∧
      getPz ⟨Real.sqrt, Real.sin, Real.cos, Real.pi, 0, fun _ => none⟩ s = some 5 ∧
      setParamFlags 0 10 true false c = some (true, c') ∧
      c'.par 0 = 10 ∧ c'.cachevalid = true ∧
      getPz ⟨Real.sqrt, Real.sin, Real.cos, Real.pi, 0, fun _ => none⟩ c' = some 5 ∧
      (updateCache ⟨Real.sqrt, Real.sin, Real.cos, Real.pi, 0, fun _ => none⟩ c').map
        (fun u => u.pz) = some 10 := by
  have hpi := Real.pi_pos
  obtain ⟨s, hs, ⟨p0, p1, -⟩, -, ⟨m0, -, -⟩, ⟨f0, -, -⟩, hmass, hcv, -⟩ := new_records
    ⟨Real.sqrt, Real.sin, Real.cos, Real.pi, 0, fun _ => none⟩ 0 blank
    5 0 0 0.5 0.01 0.01 0 _
    (adjustEThetaPhi_normal ⟨Real.sqrt, Real.sin, Real.cos, Real.pi, 0, fun _ => none⟩ 0
      0 5 0 0 (by norm_num) (by norm_num) (by norm_num) (by show (0 : ℝ) ≤ Real.pi; linarith)
      (by show -Real.pi ≤ (0 : ℝ); linarith) (by show (0 : ℝ) ≤ Real.pi; linarith))
  have hnz : s.mass > 0 → Real.sqrt |s.par 0 * s.par 0 - s.mass * s.mass| ≠ 0 := by
    rw [hmass]; intro h; exact absurd h (lt_irrefl 0)
  have he := ensureCache_eq ⟨Real.sqrt, Real.sin, Real.cos, Real.pi, 0, fun _ => none⟩
    ⟨rfl, rfl, rfl, rfl⟩ s hcv hnz
  obtain ⟨g1, -, g3, -, -, g6, g7⟩ :=
    calcChi2_fields ⟨Real.sqrt, Real.sin, Real.cos, Real.pi, 0, fun _ => none⟩ s
  have hv : (0 : Int) ≤ 0 ∧ (0 : Int) < 3 := by decide
  refine ⟨s, _, _, hs, he, ?_, setParamFlags_eq 0 10 true false _ hv, ?_, ?_, ?_, ?_⟩
  · rw [getPz, he]
    simp [fillCache, pmag, hmass, p0, p1]
  · simp
  · simp [fillCache, g6, g7, m0, f0]
  · simp [getPz, ensureCache, fillCache, g6, g7, m0, f0, pmag, hmass, p0, p1]
  · rw [updateCache_eq _ ⟨rfl, rfl, rfl, rfl⟩ _ (by
      intro h
      simp [fillCache, g3, hmass] at h)]
    simp [fillCache, pmag, g1, g3, hmass, p1]

/-! ## Local parameter indices out of range -/

/-- C22, as amended: for a local index `i` outside `{0, 1, 2}`, the four-argument
`setParam` and `getDPx`, `getDPy`, `getDPz`, `getDE` stop at their assertion, returning
nothing and leaving the object as it was; the two-argument `setParam (i, value)` has no
assertion: it returns its threshold flag and leaves the object with `cachevalid` false and
everything else, `par[]` included, untouched. -/
theorem out_of_range_index_asserted_except_setParam (env : Env ℝ) (s : JetFitObject ℝ)
    (i : Int) (value : ℝ) (measured_ fixed_ : Bool) (hi : ¬ (i = 0 ∨ i = 1 ∨ i = 2)) :
    setParamFlags i value measured_ fixed_ s = none ∧
    getDPx env i s = none ∧ getDPy env i s = none ∧ getDPz env i s = none ∧
    getDE i s = none ∧
    setParam env i value s
      = (decide ((value - s.par i) * (value - s.par i) > env.eps2 * s.cov i i),
          invalidateCache s) := by
  have hr : ¬ (0 ≤ i ∧ i < 3) := by omega
  have h0 : i ≠ 0 := fun h => hi (Or.inl h)
  have h1 : i ≠ 1 := fun h => hi (Or.inr (Or.inl h))
  have h2 : i ≠ 2 := fun h => hi (Or.inr (Or.inr h))
  refine ⟨?_, ?_, ?_, ?_, ?_, ?_⟩
  · simp only [setParamFlags, if_neg hr]
  · simp only [getDPx, NPAR, if_neg hr]
  · simp only [getDPy, NPAR, if_neg hr]
  · simp only [getDPz, NPAR, if_neg hr]
  · simp only [getDE, NPAR, if_neg hr]
  · simp only [setParam, if_neg h0, if_neg h1, if_neg h2]
    rfl

theorem out_of_range_index_asserted_except_setParam_witness :
    setParamFlags 3 1 true false (sample : JetFitObject ℝ) = none ∧
    getDPx ⟨Real.sqrt, Real.sin, Real.cos, Real.pi, 0, fun _ => none⟩ 3
      (sample : JetFitObject ℝ) = none ∧
    getDPy ⟨Real.sqrt, Real.sin, Real.cos, Real.pi, 0, fun _ => none⟩ 3
      (sample : JetFitObject ℝ) = none ∧
    getDPz ⟨Real.sqrt, Real.sin, Real.cos, Real.pi, 0, fun _ => none⟩ 3
      (sample : JetFitObject ℝ) = none ∧
    getDE 3 (sample : JetFitObject ℝ) = none ∧
    setParam ⟨Real.sqrt, Real.sin, Real.cos, Real.pi, 0, fun _ => none⟩ 3 1
        (sample : JetFitObject ℝ)
      = (decide ((1 - (sample : JetFitObject ℝ).par 3) * (1 - (sample : JetFitObject ℝ).par 3)
            > 0 * (sample : JetFitObject ℝ).cov 3 3),
          invalidateCache sample) :=
  out_of_range_index_asserted_except_setParam
    ⟨Real.sqrt, Real.sin, Real.cos, Real.pi, 0, fun _ => none⟩ sample 3 1 true false
    (by decide)

/-- C22, the claim as stated fails: on an object with a valid cache, `setParam (3, 1)`
returns a result and leaves the object changed, with `cachevalid` false. -/
theorem setParam_out_of_range_returns :
    ∃ (r : Bool) (s' : JetFitObject ℝ),
      ({ (blank : JetFitObject ℝ) with cachevalid := true } : JetFitObject ℝ).cachevalid
        = true ∧
      setParam ⟨Real.sqrt, Real.sin, Real.cos, Real.pi, 0, fun _ => none⟩ 3 1
        { (blank : JetFitObject ℝ) with cachevalid := true } = (r, s') ∧
      s'.cachevalid = false ∧
      s' ≠ { (blank : JetFitObject ℝ) with cachevalid := true } := by
  refine ⟨_, _, rfl, rfl, ?_, ?_⟩
  · simp [setParam, invalidateCache]
  · intro h
    have h' := congrArg JetFitObject.cachevalid h
    simp [setParam, invalidateCache] at h'

/-! ## The permutation enumerator -/

theorem toList_written {J : Type} (t : TwoB4JPairing J) (out : Int → J) (k : Int) :
    TwoB4JPairing.toList (fun j => if 0 ≤ j ∧ j < TwoB4JPairing.NJETS
      then t.jets (t.permutations k j) else out j)
      = (TwoB4JPairing.toList (t.permutations k)).map t.jets := by
  unfold TwoB4JPairing.toList
  rw [List.map_map]
  apply List.map_congr_left
  intro j hj
  have hj' : j < 6 := by simpa [TwoB4JPairing.NJETS] using hj
  have h1 : (0 : Int) ≤ (j : Int) := Int.natCast_nonneg j
  have h2 : (j : Int) < TwoB4JPairing.NJETS := by
    show (j : Int) < 6
    exact_mod_cast hj'
  simp [h1, h2]

theorem consecutive_rows {J : Type} :
    ∀ (n k : ℕ) (t : TwoB4JPairing J) (out : Int → J), t.iperm = k → k + n ≤ 6 →
      TwoB4JPairing.consecutive n t out = some ((List.range n).map (fun i : ℕ =>
        (TwoB4JPairing.toList (t.permutations ((k + i : ℕ) : Int))).map t.jets)) := by
  intro n
  induction n with
  | zero => intro k t out _ _; rfl
  | succ n ih =>
    intro k t out hk hle
    have hc : 0 ≤ t.iperm ∧ t.iperm < TwoB4JPairing.NPERM := by
      rw [hk]
      refine ⟨Int.natCast_nonneg k, ?_⟩
      show (k : Int) < 6
      have : k < 6 := by omega
      exact_mod_cast this
    have hstep := ih (k + 1) { t with iperm := t.iperm + 1 }
      (fun j => if 0 ≤ j ∧ j < TwoB4JPairing.NJETS then t.jets (t.permutations t.iperm j)
        else out j) (by simp [hk]) (by omega)
    simp only [TwoB4JPairing.consecutive, TwoB4JPairing.nextPermutation, if_pos hc,
      Option.some_bind, hstep, Option.map_some', toList_written]
    rw [List.range_succ_eq_map, List.map_cons, List.map_map]
    simp only [hk, Nat.add_zero, Option.some.injEq, List.cons.injEq, true_and]
    apply List.map_congr_left
    intro i _
    simp only [Function.comp, Nat.succ_eq_add_one]
    rw [show k + 1 + i = k + (i + 1) by omega]

theorem map_injOn_lists {β γ : Type} (f : β → γ) :
    ∀ (l1 l2 : List β), (∀ x ∈ l1, ∀ y ∈ l2, f x = f y → x = y) →
      l1.map f = l2.map f → l1 = l2 := by
  intro l1
  induction l1 with
  | nil =>
    intro l2 _ h
    cases l2 with
    | nil => rfl
    | cons b l2 => simp at h
  | cons a l1 ih =>
    intro l2 hinj h
    cases l2 with
    | nil => simp at h
    | cons b l2 =>
      simp only [List.map_cons, List.cons.injEq] at h
      have hab : a = b := hinj a (List.mem_cons_self _ _) b (List.mem_cons_self _ _) h.1
      have hrest := ih l2 (fun x hx y hy => hinj x (List.mem_cons_of_mem _ hx) y
        (List.mem_cons_of_mem _ hy)) h.2
      rw [hab, hrest]


/-- C23: for every pool of jets and every table as the spec describes it (each row a
permutation of the slot indices, no row twice), `getNPerm ()` returns 6, and 6 consecutive
calls of `nextPermutation` from the constructed state each return and write a reordering of
the whole pool (every pool element exactly once); the 6 written orderings are pairwise
distinct when the 6 pool elements are. -/
theorem nextPermutation_enumerates {J : Type} (table : Int → Int → Int) (jets_ : Int → J)
    (out : Int → J) (hv : TwoB4JPairing.ValidTable table) :
    TwoB4JPairing.getNPerm (TwoB4JPairing.new table jets_) = 6 ∧
    ∃ outs : List (List J),
      TwoB4JPairing.consecutive 6 (TwoB4JPairing.new table jets_) out = some outs ∧
      outs.length = 6 ∧
      (∀ o ∈ outs, List.Perm o (TwoB4JPairing.toList jets_)) ∧
      ((TwoB4JPairing.toList jets_).Nodup → outs.Nodup) := by
  obtain ⟨hperm, hnd⟩ := hv
  have hrun := consecutive_rows 6 0 (TwoB4JPairing.new table jets_) out rfl (by norm_num)
  have hpool : TwoB4JPairing.toList jets_
      = (TwoB4JPairing.toList (fun j : Int => j)).map jets_ := by
    simp [TwoB4JPairing.toList]
  refine ⟨rfl, _, hrun, by simp, ?_, ?_⟩
  · intro o ho
    obtain ⟨i, hi, rfl⟩ := List.mem_map.mp ho
    rw [hpool]
    have := hperm i (by simpa [TwoB4JPairing.NPERM] using hi)
    simpa [TwoB4JPairing.new] using this.map jets_
  · intro hpn
    rw [hpool] at hpn
    have hinj := List.inj_on_of_nodup_map hpn
    have hrows : (List.range 6).map (fun i : ℕ =>
        (TwoB4JPairing.toList ((TwoB4JPairing.new table jets_).permutations
          ((0 + i : ℕ) : Int))).map (TwoB4JPairing.new table jets_).jets)
        = ((List.range TwoB4JPairing.NPERM.toNat).map
          (fun i : ℕ => TwoB4JPairing.toList (table i))).map (fun l => l.map jets_) := by
      rw [List.map_map]
      apply List.map_congr_left
      intro i _
      simp [TwoB4JPairing.new]
    rw [hrows]
    apply List.Nodup.map_on _ hnd
    intro l1 h1 l2 h2 heq
    obtain ⟨i1, hi1, rfl⟩ := List.mem_map.mp h1
    obtain ⟨i2, hi2, rfl⟩ := List.mem_map.mp h2
    apply map_injOn_lists jets_ _ _ _ heq
    intro x hx y hy hxy
    exact hinj ((hperm i1 hi1).subset hx) ((hperm i2 hi2).subset hy) hxy

theorem nextPermutation_enumerates_witness :
    TwoB4JPairing.getNPerm (TwoB4JPairing.new (fun i j => (i + j) % 6) (fun j : Int => j))
      = 6 ∧
    ∃ outs : List (List Int),
      TwoB4JPairing.consecutive 6
        (TwoB4JPairing.new (fun i j => (i + j) % 6) (fun j : Int => j)) (fun _ => 0)
        = some outs ∧
      outs.length = 6 ∧
      (∀ o ∈ outs, List.Perm o (TwoB4JPairing.toList (fun j : Int => j))) ∧
      ((TwoB4JPairing.toList (fun j : Int => j)).Nodup → outs.Nodup) :=
  nextPermutation_enumerates (fun i j => (i + j) % 6) (fun j : Int => j) (fun _ => 0)
    (by decide)

/-! ## Error propagation for a diagonal covariance -/

theorem ensureCache_cov (env : Env ℝ) (s c : JetFitObject ℝ)
    (hc : ensureCache env s = some c) : c.cov = s.cov := by
  unfold ensureCache at hc
  split_ifs at hc
  · exact (updateCache_fields env s c hc).2.2.2.1
  · cases hc; rfl

theorem propagatedError2_diagonal (c : JetFitObject ℝ) (der : Int → ℝ)
    (h01 : c.cov 0 1 = 0) (h02 : c.cov 0 2 = 0) (h10 : c.cov 1 0 = 0)
    (h12 : c.cov 1 2 = 0) (h20 : c.cov 2 0 = 0) (h21 : c.cov 2 1 = 0) :
    propagatedError2 c der
      = c.cov 0 0 * (der 0 + der 1 * c.dpxdE + der 2 * c.dpydE + der 3 * c.dpzdE) ^ 2
        + c.cov 1 1 * (der 1 * c.dpxdtheta + der 2 * c.dpydtheta - der 3 * c.pt) ^ 2
        + c.cov 2 2 * (-der 1 * c.py + der 2 * c.px) ^ 2 := by
  simp [propagatedError2, jacobian, Finset.sum_range_succ, h01, h02, h10, h12, h20, h21]
  ring

/-- C26: for a covariance with `cov[i][j] = 0` for `i ≠ j` (`i`, `j` in `{0, 1, 2}`), any
`der[4]`, and an object whose cache check passes, `getError2 (der)` returns
`der^T * (J * cov * J^T) * der` with `J` the Jacobian of `(E, px, py, pz)` with respect to
`(E, theta, phi)` read off the cache, and this value is non-negative when the diagonal
entries of `cov` are. -/
theorem getError2_diagonal_covariance (env : Env ℝ) (s c : JetFitObject ℝ) (der : Int → ℝ)
    (hd : ∀ i j : Int, 0 ≤ i → i < 3 → 0 ≤ j → j < 3 → i ≠ j → s.cov i j = 0)
    (hc : ensureCache env s = some c) :
    getError2 env der s = some (propagatedError2 c der) ∧
    (0 ≤ s.cov 0 0 → 0 ≤ s.cov 1 1 → 0 ≤ s.cov 2 2 → 0 ≤ propagatedError2 c der) := by
  have hcov := ensureCache_cov env s c hc
  have h01 : c.cov 0 1 = 0 := by
    rw [hcov]; exact hd 0 1 (by decide) (by decide) (by decide) (by decide) (by decide)
  have h02 : c.cov 0 2 = 0 := by
    rw [hcov]; exact hd 0 2 (by decide) (by decide) (by decide) (by decide) (by decide)
  have h10 : c.cov 1 0 = 0 := by
    rw [hcov]; exact hd 1 0 (by decide) (by decide) (by decide) (by decide) (by decide)
  have h12 : c.cov 1 2 = 0 := by
    rw [hcov]; exact hd 1 2 (by decide) (by decide) (by decide) (by decide) (by decide)
  have h20 : c.cov 2 0 = 0 := by
    rw [hcov]; exact hd 2 0 (by decide) (by decide) (by decide) (by decide) (by decide)
  have h21 : c.cov 2 1 = 0 := by
    rw [hcov]; exact hd 2 1 (by decide) (by decide) (by decide) (by decide) (by decide)
  have hq := propagatedError2_diagonal c der h01 h02 h10 h12 h20 h21
  constructor
  · rw [getError2, hc, Option.map_some', hq]
    simp [cov4, h01, h02, h12]
    ring
  · intro p0 p1 p2
    rw [hq, hcov]
    positivity

theorem getError2_diagonal_covariance_witness :
    getError2 ⟨Real.sqrt, Real.sin, Real.cos, Real.pi, 0, fun _ => none⟩
        (fun i => if i = 0 ∨ i = 1 then 1 else 0)
        { (blank : JetFitObject ℝ) with
          par := fun i => if i = 0 then 1 else 0,
          cov := fun i j => if i = j then 2 else 0 }
      = some (propagatedError2
        (fillCache
          { (blank : JetFitObject ℝ) with
            par := fun i => if i = 0 then 1 else 0,
            cov := fun i j => if i = j then 2 else 0 }
          (-1) 1 0 1 0 1 1 1)
        (fun i => if i = 0 ∨ i = 1 then 1 else 0)) ∧
    ((0 : ℝ) ≤ 2 → (0 : ℝ) ≤ 2 → (0 : ℝ) ≤ 2 →
      0 ≤ propagatedError2
        (fillCache
          { (blank : JetFitObject ℝ) with
            par := fun i => if i = 0 then 1 else 0,
            cov := fun i j => if i = j then 2 else 0 }
          (-1) 1 0 1 0 1 1 1)
        (fun i => if i = 0 ∨ i = 1 then 1 else 0)) :=
  getError2_diagonal_covariance
    ⟨Real.sqrt, Real.sin, Real.cos, Real.pi, 0, fun _ => none⟩
    { (blank : JetFitObject ℝ) with
      par := fun i => if i = 0 then 1 else 0,
      cov := fun i j => if i = j then 2 else 0 }
    _ (fun i => if i = 0 ∨ i = 1 then 1 else 0)
    (by intro i j _ _ _ _ hne; simp [hne])
    (by simp [ensureCache, updateCache, blank, calcChi2, calculateCovInv])

/-! ## Normalisation keeps the momentum -/

theorem getP_congr (env : Env ℝ) (hx : env.Exact) (s t : JetFitObject ℝ)
    (hs : s.cachevalid = false) (ht : t.cachevalid = false)
    (hm : s.mass = t.mass) (h0 : s.par 0 = t.par 0)
    (hx1 : Real.sin (s.par 1) * Real.cos (s.par 2) = Real.sin (t.par 1) * Real.cos (t.par 2))
    (hy1 : Real.sin (s.par 1) * Real.sin (s.par 2) = Real.sin (t.par 1) * Real.sin (t.par 2))
    (hz1 : Real.cos (s.par 1) = Real.cos (t.par 1)) :
    getPx env s = getPx env t ∧ getPy env s = getPy env t ∧ getPz env s = getPz env t := by
  by_cases h : s.mass > 0 ∧ Real.sqrt |s.par 0 * s.par 0 - s.mass * s.mass| = 0
  · have h' : t.mass > 0 ∧ Real.sqrt |t.par 0 * t.par 0 - t.mass * t.mass| = 0 := by
      rw [← hm, ← h0]; exact h
    simp only [getPx, getPy, getPz, ensureCache, hs, ht, Bool.not_false, if_true,
      updateCache_none env hx s h.1 h.2, updateCache_none env hx t h'.1 h'.2]
    exact ⟨trivial, trivial, trivial⟩
  · have hn : s.mass > 0 → Real.sqrt |s.par 0 * s.par 0 - s.mass * s.mass| ≠ 0 :=
      fun a b => h ⟨a, b⟩
    have hn' : t.mass > 0 → Real.sqrt |t.par 0 * t.par 0 - t.mass * t.mass| ≠ 0 := by
      rw [← hm, ← h0]; exact hn
    obtain ⟨a1, a2, a3⟩ := getP_components env hx s hs hn
    obtain ⟨b1, b2, b3⟩ := getP_components env hx t ht hn'
    rw [a1, a2, a3, b1, b2, b3, hm, h0, mul_assoc, mul_assoc, mul_assoc, mul_assoc, hx1, hy1,
      hz1]
    exact ⟨rfl, rfl, rfl⟩

/-- C28: over the exact environment, for `(m, E, theta, phi)` with `E ≥ 0` and `E ≥ m`,
`adjustEThetaPhi` returns (from some fuel on, one and the same result), leaves `m` and `E`
as they are, and keeps the direction: `sin(theta')*cos(phi') = sin(theta)*cos(phi)`,
`sin(theta')*sin(phi') = sin(theta)*sin(phi)`, `cos(theta') = cos(theta)`; so on an object
of mass `m` whose cache has to be recomputed, `getPx`, `getPy`, `getPz` give the same with
the normalised values in `par[]` as with the raw values. -/
theorem adjustEThetaPhi_keeps_direction (env : Env ℝ) (hx : env.Exact)
    (m E theta phi : ℝ) (hE : 0 ≤ E) (hm : m ≤ E) :
    ∃ (N : ℕ) (a : Adjusted ℝ),
      (∀ fuel, N ≤ fuel → adjustEThetaPhi env fuel m E theta phi = some a) ∧
      a.m = m ∧ a.E = E ∧
      Real.sin a.theta * Real.cos a.phi = Real.sin theta * Real.cos phi ∧
      Real.sin a.theta * Real.sin a.phi = Real.sin theta * Real.sin phi ∧
      Real.cos a.theta = Real.cos theta ∧
      ∀ s : JetFitObject ℝ, s.cachevalid = false → s.mass = m →
        getPx env (withPar (withPar (withPar s 0 a.E) 1 a.theta) 2 a.phi)
          = getPx env (withPar (withPar (withPar s 0 E) 1 theta) 2 phi) ∧
        getPy env (withPar (withPar (withPar s 0 a.E) 1 a.theta) 2 a.phi)
          = getPy env (withPar (withPar (withPar s 0 E) 1 theta) 2 phi) ∧
        getPz env (withPar (withPar (withPar s 0 a.E) 1 a.theta) 2 a.phi)
          = getPz env (withPar (withPar (withPar s 0 E) 1 theta) 2 phi) := by
  have h4 := hx.2.2.2
  obtain ⟨N, a, ha, am, aE, -⟩ := adjustEThetaPhi_spec env (by rw [h4]; exact Real.pi_pos)
    m E theta phi
  obtain ⟨d1, d2, d3⟩ := adjustEThetaPhi_direction env h4 N _ _ _ _ a (ha N le_rfl)
  simp only [if_neg (not_lt.mpr hE)] at d1 d2 d3
  have aE' : a.E = E := by rw [aE, abs_of_nonneg hE, max_eq_left hm]
  refine ⟨N, a, ha, am, aE', d1, d2, d3, ?_⟩
  intro s hs _
  apply getP_congr env hx (withPar (withPar (withPar s 0 a.E) 1 a.theta) 2 a.phi)
    (withPar (withPar (withPar s 0 E) 1 theta) 2 phi) hs hs rfl
  · simp [withPar, aE']
  · simpa [withPar] using d1
  · simpa [withPar] using d2
  · simpa [withPar] using d3

theorem adjustEThetaPhi_keeps_direction_witness :
    ∃ (N : ℕ) (a : Adjusted ℝ),
      (∀ fuel, N ≤ fuel →
        adjustEThetaPhi ⟨Real.sqrt, Real.sin, Real.cos, Real.pi, 0, fun _ => none⟩ fuel
          3 5 (-1) 9 = some a) ∧
      a.m = 3 ∧ a.E = 5 ∧
      Real.sin a.theta * Real.cos a.phi = Real.sin (-1) * Real.cos 9 ∧
      Real.sin a.theta * Real.sin a.phi = Real.sin (-1) * Real.sin 9 ∧
      Real.cos a.theta = Real.cos (-1) ∧
      ∀ s : JetFitObject ℝ, s.cachevalid = false → s.mass = 3 →
        getPx ⟨Real.sqrt, Real.sin, Real.cos, Real.pi, 0, fun _ => none⟩
            (withPar (withPar (withPar s 0 a.E) 1 a.theta) 2 a.phi)
          = getPx ⟨Real.sqrt, Real.sin, Real.cos, Real.pi, 0, fun _ => none⟩
            (withPar (withPar (withPar s 0 5) 1 (-1)) 2 9) ∧
        getPy ⟨Real.sqrt, Real.sin, Real.cos, Real.pi, 0, fun _ => none⟩
            (withPar (withPar (withPar s 0 a.E) 1 a.theta) 2 a.phi)
          = getPy ⟨Real.sqrt, Real.sin, Real.cos, Real.pi, 0, fun _ => none⟩
            (withPar (withPar (withPar s 0 5) 1 (-1)) 2 9) ∧
        getPz ⟨Real.sqrt, Real.sin, Real.cos, Real.pi, 0, fun _ => none⟩
            (withPar (withPar (withPar s 0 a.E) 1 a.theta) 2 a.phi)
          = getPz ⟨Real.sqrt, Real.sin, Real.cos, Real.pi, 0, fun _ => none⟩
            (withPar (withPar (withPar s 0 5) 1 (-1)) 2 9) :=
  adjustEThetaPhi_keeps_direction
    ⟨Real.sqrt, Real.sin, Real.cos, Real.pi, 0, fun _ => none⟩ ⟨rfl, rfl, rfl, rfl⟩
    3 5 (-1) 9 (by norm_num) (by norm_num)

end Kinfit
